import Mathlib

/-!
# Shared timeline subsystem

A shallow embedding of `UCpp_SharedTimelineSubsystem` (`Cpp_SharedTimelineSubsystem.h/.cpp`) and
of `FSharedTimelineTask`.

Modelling conventions

* `float` times are exact rationals (`ℚ`); infinities and NaN are outside the model.  Rounding
  is modelled where a statement depends on it: `toFloat` rounds an exact result to a `float`
  (IEEE 754 binary32, round to nearest, ties to even), and the definitions whose names end in
  `F` are the tick with every arithmetic result rounded.
* `int32` handles are integers; `NextId++` wraps to the 32-bit two's-complement range.
* `TArray<FSharedTimelineTask>` is a `List`; a C++ reference `Tasks[i]` is the index `i` into
  the *current* list, so an access after a re-entrant removal reads whatever the slot holds then,
  and an index past the end is the fault `outOfBounds`.  Reallocation of the array is outside the
  model.
* A `UCurveFloat*` is `Option Nat` (`none` is `nullptr`); the curve asset itself is external and
  is read through `Env.timeRange` / `Env.floatValue`.  Dereferencing `nullptr` is the fault
  `nullCurve`; `ensureAlwaysMsgf` only reports and has no effect on the execution, and whether
  it passes at every iteration is the separate predicate `curveEnsured`.
* A bound callback is `some n`; what callback `n` does to the subsystem when it runs is the list
  of public calls `Env.onUpdate n value` / `Env.onFinished n` (every public operation except
  `Tick`).  Every invocation is recorded in the ghost field `log`.  `Created` is a ghost counter
  of the tasks created so far.
* Callbacks can nest without bound (a finished callback may call `StopTimeline` with
  `bFireFinish`), and the wrapping loops are plain `while` loops, so execution carries fuel:
  a statement that a call returns says that every large enough fuel gives the result.
* The header declares `bUseRatio` for `PlayTimeline`, `PlayTimeline_BP` and
  `SetBasePropertiesOfNewTask`; the definitions in the `.cpp` have no such parameter.  The two
  play functions keep it as an argument that is never read.
-/

namespace SharedTimeline

/-! ## Flags (`FSharedTimelineTask::EFlags`, a `uint8` bit set) -/

/-- The `uint8` flag word. -/
abbrev FlagWord := Fin 256

def Active : Nat := 1 <<< 0
def Paused : Nat := 1 <<< 1
def Looping : Nat := 1 <<< 2
def Reverse : Nat := 1 <<< 3
def DurationOnly : Nat := 1 <<< 4
def Ratio : Nat := 1 <<< 5

/-- The test `(Flags & m) != 0`. -/
def hasFlag (m : Nat) (f : FlagWord) : Bool := (f.val &&& m) != 0

/-- The update `b ? (Flags |= m) : (Flags &= ~m)`, truncated to `uint8`. -/
def setFlag (m : Nat) (b : Bool) (f : FlagWord) : FlagWord :=
  Fin.ofNat (if b then f.val ||| m else f.val &&& (255 ^^^ m))

/-! ## Data model -/

/-- The invalid handle and the "not found" index. -/
def INDEX_NONE : Int := -1

/-- Two's-complement wrap into the `int32` range. -/
def wrap32 (x : Int) : Int := (x + 2147483648) % 4294967296 - 2147483648

/-- The record `FSharedTimelineTask`. -/
structure FSharedTimelineTask where
  Id : Int
  Curve : Option Nat
  Duration : ℚ
  Elapsed : ℚ
  Flags : FlagWord
  CPP_Update : Option Nat
  CPP_Finished : Option Nat
  BP_Update : Option Nat
  BP_Finished : Option Nat
deriving DecidableEq

namespace FSharedTimelineTask

/-- The default-constructed task (`FSharedTimelineTask() = default`). -/
def default : FSharedTimelineTask :=
  ⟨INDEX_NONE, none, 0, 0, Fin.ofNat Active, none, none, none, none⟩

def IsActive (t : FSharedTimelineTask) : Bool := hasFlag Active t.Flags
def IsPaused (t : FSharedTimelineTask) : Bool := hasFlag Paused t.Flags
def IsLooping (t : FSharedTimelineTask) : Bool := hasFlag Looping t.Flags
def IsReversing (t : FSharedTimelineTask) : Bool := hasFlag Reverse t.Flags
def IsDurationOnly (t : FSharedTimelineTask) : Bool := hasFlag DurationOnly t.Flags
def IsRatio (t : FSharedTimelineTask) : Bool := hasFlag Ratio t.Flags

def SetActive (t : FSharedTimelineTask) (b : Bool) : FSharedTimelineTask :=
  { t with Flags := setFlag Active b t.Flags }
def SetPaused (t : FSharedTimelineTask) (b : Bool) : FSharedTimelineTask :=
  { t with Flags := setFlag Paused b t.Flags }
def SetLooping (t : FSharedTimelineTask) (b : Bool) : FSharedTimelineTask :=
  { t with Flags := setFlag Looping b t.Flags }
def SetReverse (t : FSharedTimelineTask) (b : Bool) : FSharedTimelineTask :=
  { t with Flags := setFlag Reverse b t.Flags }
def SetDurationOnly (t : FSharedTimelineTask) (b : Bool) : FSharedTimelineTask :=
  { t with Flags := setFlag DurationOnly b t.Flags }
def SetRatio (t : FSharedTimelineTask) (b : Bool) : FSharedTimelineTask :=
  { t with Flags := setFlag Ratio b t.Flags }

end FSharedTimelineTask

/-- One recorded callback invocation: the id of the task whose callback ran, whether the native
(`CPP_`) binding was used, the callback, and for an update the value passed. -/
inductive Event where
  | update (task : Int) (native : Bool) (cb : Nat) (value : ℚ)
  | finished (task : Int) (native : Bool) (cb : Nat)
deriving DecidableEq

/-- The subsystem: `Tasks`, `NextId`, and the ghost fields. -/
structure Sys where
  Tasks : List FSharedTimelineTask
  NextId : Int
  log : List Event
  Created : Nat
deriving DecidableEq

/-- The freshly constructed subsystem (`NextId = 1`). -/
def Sys.init : Sys := ⟨[], 1, [], 0⟩

/-! ## Environment, callbacks, faults -/

/-- A public call issued from inside a callback. -/
inductive Action where
  | play (Curve : Option Nat) (InDuration : ℚ) (bLoop : Bool) (OnUpdate OnFinished : Option Nat)
      (StartTime : ℚ) (bDurationOnly bUseRatio : Bool)
  | playBP (Curve : Option Nat) (InDuration : ℚ) (bLoop : Bool)
      (UpdateDelegate FinishedDelegate : Option Nat) (StartTime : ℚ)
      (bDurationOnly bUseRatio : Bool)
  | reverse (Handle : Int)
  | pause (Handle : Int)
  | resume (Handle : Int)
  | stop (Handle : Int) (bFireFinish : Bool)
deriving DecidableEq

/-- The collaborators of the subsystem: the curve assets and the bodies of the callbacks. -/
structure Env where
  /-- The result `(Min, Max)` of `UCurveFloat::GetTimeRange`. -/
  timeRange : Nat → ℚ × ℚ
  /-- The function `UCurveFloat::GetFloatValue`. -/
  floatValue : Nat → ℚ → ℚ
  /-- The public calls update callback `n` makes when invoked with a value. -/
  onUpdate : Nat → ℚ → List Action
  /-- The public calls finished callback `n` makes when invoked. -/
  onFinished : Nat → List Action

/-- The ways an execution fails to return. -/
inductive Fault where
  | outOfFuel
  | outOfBounds
  | nullCurve
deriving DecidableEq

/-- Runs the body of a callback. -/
abbrev Runner := List Action → Sys → Except Fault Sys

/-! ## Registry primitives -/

/-- The linear scan `FindTaskIndexById`; `none` is the result `INDEX_NONE`. -/
def FindTaskIndexById : List FSharedTimelineTask → Int → Option Nat
  | [], _ => none
  | t :: rest, Handle =>
    if t.Id = Handle then some 0 else (FindTaskIndexById rest Handle).map (· + 1)

/-- The call `Tasks.RemoveAtSwap(Index, 1, false)`: the last element takes the place of the
removed one. -/
def RemoveAtSwap (Tasks : List FSharedTimelineTask) (Index : Nat) :
    Except Fault (List FSharedTimelineTask) :=
  match Tasks[Index]?, Tasks.getLast? with
  | some _, some last => .ok ((Tasks.set Index last).dropLast)
  | _, _ => .error .outOfBounds

/-- The function `SetBasePropertiesOfNewTask`: returns the initialised task and the subsystem
with `NextId` advanced. -/
def SetBasePropertiesOfNewTask (s : Sys) (Task : FSharedTimelineTask) (Curve : Option Nat)
    (InDuration : ℚ) (bLoop : Bool) (StartTime : ℚ) (bValueOnly : Bool) :
    FSharedTimelineTask × Sys :=
  let Task := { Task with Id := s.NextId }
  let s := { s with NextId := wrap32 (s.NextId + 1), Created := s.Created + 1 }
  let Task := { Task with Curve := Curve }
  let Task := { Task with Duration := InDuration }
  let Task := { Task with Elapsed := StartTime }
  let Task := Task.SetLooping bLoop
  let Task := Task.SetActive true
  let Task := Task.SetPaused false
  let Task := Task.SetDurationOnly bValueOnly
  (Task, s)

/-- The function `PlayTimeline`: returns `OutHandle` and the new state.  The parameter
`bUseRatio` is declared in the header and absent from the definition, which never reads it. -/
def PlayTimeline (s : Sys) (Curve : Option Nat) (InDuration : ℚ) (bLoop : Bool)
    (OnUpdate OnFinished : Option Nat) (StartTime : ℚ) (bDurationOnly : Bool)
    (_bUseRatio : Bool) : Int × Sys :=
  match Curve with
  | none => (INDEX_NONE, s)
  | some _ =>
    let r := SetBasePropertiesOfNewTask s FSharedTimelineTask.default Curve InDuration bLoop
      StartTime bDurationOnly
    let NewTask := { r.1 with CPP_Update := OnUpdate, CPP_Finished := OnFinished }
    (NewTask.Id, { r.2 with Tasks := r.2.Tasks ++ [NewTask] })

/-- The function `PlayTimeline_BP`. -/
def PlayTimeline_BP (s : Sys) (Curve : Option Nat) (InDuration : ℚ) (bLoop : Bool)
    (UpdateDelegate FinishedDelegate : Option Nat) (StartTime : ℚ) (bDurationOnly : Bool)
    (_bUseRatio : Bool) : Int × Sys :=
  match Curve with
  | none => (INDEX_NONE, s)
  | some _ =>
    let r := SetBasePropertiesOfNewTask s FSharedTimelineTask.default Curve InDuration bLoop
      StartTime bDurationOnly
    let NewTask := { r.1 with BP_Update := UpdateDelegate, BP_Finished := FinishedDelegate }
    (NewTask.Id, { r.2 with Tasks := r.2.Tasks ++ [NewTask] })

/-- Applies `f` to the task in slot `Index` (`Tasks[Index].f()`). -/
def modifyAt (Tasks : List FSharedTimelineTask) (Index : Nat)
    (f : FSharedTimelineTask → FSharedTimelineTask) : List FSharedTimelineTask :=
  match Tasks[Index]? with
  | some t => Tasks.set Index (f t)
  | none => Tasks

/-- The function `ReverseTimeline`. -/
def ReverseTimeline (s : Sys) (InHandle : Int) : Sys :=
  match FindTaskIndexById s.Tasks InHandle with
  | some Index => { s with Tasks := modifyAt s.Tasks Index (·.SetReverse true) }
  | none => s

/-- The function `PauseTimeline`. -/
def PauseTimeline (s : Sys) (Handle : Int) : Sys :=
  match FindTaskIndexById s.Tasks Handle with
  | some Index => { s with Tasks := modifyAt s.Tasks Index (·.SetPaused true) }
  | none => s

/-- The function `ResumeTimeline`. -/
def ResumeTimeline (s : Sys) (Handle : Int) : Sys :=
  match FindTaskIndexById s.Tasks Handle with
  | some Index => { s with Tasks := modifyAt s.Tasks Index (·.SetPaused false) }
  | none => s

/-- The function `IsTimelineActive`. -/
def IsTimelineActive (s : Sys) (Handle : Int) : Bool :=
  match FindTaskIndexById s.Tasks Handle with
  | some Index =>
    match s.Tasks[Index]? with
    | some t => t.IsActive && !t.IsPaused
    | none => false
  | none => false

/-- The function `GetCurveFloatValueAtTime`. -/
def GetCurveFloatValueAtTime (env : Env) (Curve : Option Nat) (Time : ℚ) : Except Fault ℚ :=
  match Curve with
  | some c => .ok (env.floatValue c Time)
  | none => .error .nullCurve

/-! ## Callback dispatch -/

/-- The update dispatch: the native closure when bound, else the delegate when bound. -/
def dispatchUpdate (run : Runner) (env : Env) (Task : FSharedTimelineTask) (Value : ℚ)
    (s : Sys) : Except Fault Sys :=
  match Task.CPP_Update with
  | some cb =>
    run (env.onUpdate cb Value) { s with log := s.log ++ [Event.update Task.Id true cb Value] }
  | none =>
    match Task.BP_Update with
    | some cb =>
      run (env.onUpdate cb Value)
        { s with log := s.log ++ [Event.update Task.Id false cb Value] }
    | none => .ok s

/-- The finished dispatch: the native closure when bound, else the delegate when bound. -/
def dispatchFinished (run : Runner) (env : Env) (Task : FSharedTimelineTask) (s : Sys) :
    Except Fault Sys :=
  match Task.CPP_Finished with
  | some cb => run (env.onFinished cb) { s with log := s.log ++ [Event.finished Task.Id true cb] }
  | none =>
    match Task.BP_Finished with
    | some cb =>
      run (env.onFinished cb) { s with log := s.log ++ [Event.finished Task.Id false cb] }
    | none => .ok s

/-- The function `StopTimeline`.  `Index` is computed before the finished callback runs and used
after it. -/
def StopTimeline (run : Runner) (env : Env) (s : Sys) (Handle : Int) (bFireFinish : Bool) :
    Except Fault Sys :=
  match FindTaskIndexById s.Tasks Handle with
  | none => .ok s
  | some Index =>
    match s.Tasks[Index]? with
    | none => .error .outOfBounds
    | some Task =>
      match (if bFireFinish then dispatchFinished run env Task s else .ok s) with
      | .error e => .error e
      | .ok s1 =>
        match RemoveAtSwap s1.Tasks Index with
        | .error e => .error e
        | .ok Tasks => .ok { s1 with Tasks := Tasks }

/-- One public call made by a callback. -/
def perform (run : Runner) (env : Env) (a : Action) (s : Sys) : Except Fault Sys :=
  match a with
  | .play c d l u f st dOnly ratio => .ok (PlayTimeline s c d l u f st dOnly ratio).2
  | .playBP c d l u f st dOnly ratio => .ok (PlayTimeline_BP s c d l u f st dOnly ratio).2
  | .reverse h => .ok (ReverseTimeline s h)
  | .pause h => .ok (PauseTimeline s h)
  | .resume h => .ok (ResumeTimeline s h)
  | .stop h fire => StopTimeline run env s h fire

/-- The calls of a callback body, in order. -/
def runList (run : Runner) (env : Env) : List Action → Sys → Except Fault Sys
  | [], s => .ok s
  | a :: rest, s =>
    match perform run env a s with
    | .error e => .error e
    | .ok s1 => runList run env rest s1

/-- Callback execution with nesting depth bounded by the fuel. -/
def runner (env : Env) : Nat → Runner
  | 0 => fun acts s =>
    match acts with
    | [] => .ok s
    | _ :: _ => .error .outOfFuel
  | fuel + 1 => runList (runner env fuel) env

/-! ## The tick -/

/-- The loop `while (Task.Elapsed >= UseDuration) Task.Elapsed -= UseDuration` over exact
arithmetic (`wrapDownF` is the loop with every difference rounded to `float`). -/
def wrapDown (UseDuration : ℚ) : Nat → ℚ → Option ℚ
  | 0, Elapsed => if Elapsed ≥ UseDuration then none else some Elapsed
  | fuel + 1, Elapsed =>
    if Elapsed ≥ UseDuration then wrapDown UseDuration fuel (Elapsed - UseDuration)
    else some Elapsed

/-- The loop `while (Task.Elapsed < 0.f) Task.Elapsed += UseDuration` over exact arithmetic
(`wrapUpF` is the loop with every sum rounded to `float`). -/
def wrapUp (UseDuration : ℚ) : Nat → ℚ → Option ℚ
  | 0, Elapsed => if Elapsed < 0 then none else some Elapsed
  | fuel + 1, Elapsed =>
    if Elapsed < 0 then wrapUp UseDuration fuel (Elapsed + UseDuration) else some Elapsed

/-- The block "determine duration": the value `UseDuration` stored back into `Task.Duration`. -/
def resolveDuration (env : Env) (Task : FSharedTimelineTask) : Except Fault ℚ :=
  if Task.Duration ≤ 0 then
    match Task.Curve with
    | none => .error .nullCurve
    | some c =>
      let UseDuration := (env.timeRange c).2 - (env.timeRange c).1
      if UseDuration ≤ 0 then .ok 1 else .ok UseDuration
  else .ok Task.Duration

/-- The block "clamp or loop": the new `Elapsed` and `bJustFinished`. -/
def clampOrLoop (fuel : Nat) (bLooping : Bool) (Elapsed UseDuration : ℚ) :
    Except Fault (ℚ × Bool) :=
  if !bLooping then
    if Elapsed ≥ UseDuration then .ok (UseDuration, true)
    else if Elapsed ≤ 0 then .ok (0, true)
    else .ok (Elapsed, false)
  else
    match wrapDown UseDuration fuel Elapsed with
    | none => .error .outOfFuel
    | some e1 =>
      match wrapUp UseDuration fuel e1 with
      | none => .error .outOfFuel
      | some e2 => .ok (e2, false)

/-- The line "evaluate curve or linear". -/
def evalValue (env : Env) (Task : FSharedTimelineTask) : Except Fault ℚ :=
  if Task.IsDurationOnly then .ok Task.Elapsed
  else GetCurveFloatValueAtTime env Task.Curve Task.Elapsed

/-- What the tick body does to a task before any callback runs: the task as left in its slot,
the value for the update callback, and `bJustFinished`. -/
structure Advanced where
  Task : FSharedTimelineTask
  Value : ℚ
  bJustFinished : Bool
deriving DecidableEq

/-- Lines 16 to 55 of `Tick` for one active, unpaused task. -/
def advanceTask (fuel : Nat) (env : Env) (DeltaTime : ℚ) (Task : FSharedTimelineTask) :
    Except Fault Advanced :=
  let Task := { Task with Elapsed := Task.Elapsed + (if Task.IsReversing then -DeltaTime else DeltaTime) }
  match resolveDuration env Task with
  | .error e => .error e
  | .ok UseDuration =>
    let Task := { Task with Duration := UseDuration }
    match clampOrLoop fuel Task.IsLooping Task.Elapsed UseDuration with
    | .error e => .error e
    | .ok (Elapsed, bJustFinished) =>
      let Task := { Task with Elapsed := Elapsed }
      let Task := if bJustFinished then Task.SetActive false else Task
      match evalValue env Task with
      | .error e => .error e
      | .ok Value => .ok ⟨Task, Value, bJustFinished⟩

/-- The body of the `for` loop of `Tick` at index `i`. -/
def tickBody (fuel : Nat) (env : Env) (DeltaTime : ℚ) (i : Nat) (s : Sys) : Except Fault Sys :=
  match s.Tasks[i]? with
  | none => .error .outOfBounds
  | some Task =>
    if !Task.IsActive || Task.IsPaused then .ok s
    else
      match advanceTask fuel env DeltaTime Task with
      | .error e => .error e
      | .ok a =>
        match dispatchUpdate (runner env fuel) env a.Task a.Value
            { s with Tasks := s.Tasks.set i a.Task } with
        | .error e => .error e
        | .ok s1 =>
          if a.bJustFinished then
            match s1.Tasks[i]? with
            | none => .error .outOfBounds
            | some Cur =>
              match dispatchFinished (runner env fuel) env Cur s1 with
              | .error e => .error e
              | .ok s2 =>
                match RemoveAtSwap s2.Tasks i with
                | .error e => .error e
                | .ok Tasks => .ok { s2 with Tasks := Tasks }
          else .ok s1

/-- The loop `for (i = n - 1; i >= 0; --i)`, with `n` indices still to visit. -/
def tickLoop (fuel : Nat) (env : Env) (DeltaTime : ℚ) : Nat → Sys → Except Fault Sys
  | 0, s => .ok s
  | i + 1, s =>
    match tickBody fuel env DeltaTime i s with
    | .error e => .error e
    | .ok s1 => tickLoop fuel env DeltaTime i s1

/-- The function `Tick`. -/
def Tick (fuel : Nat) (env : Env) (DeltaTime : ℚ) (s : Sys) : Except Fault Sys :=
  tickLoop fuel env DeltaTime s.Tasks.length s

/-! ## Callback-free description of a tick -/

/-- The update callback the dispatch selects: whether it is the native one, and the callback. -/
def updateCallback (t : FSharedTimelineTask) : Option (Bool × Nat) :=
  match t.CPP_Update with
  | some cb => some (true, cb)
  | none =>
    match t.BP_Update with
    | some cb => some (false, cb)
    | none => none

/-- The finished callback the dispatch selects. -/
def finishedCallback (t : FSharedTimelineTask) : Option (Bool × Nat) :=
  match t.CPP_Finished with
  | some cb => some (true, cb)
  | none =>
    match t.BP_Finished with
    | some cb => some (false, cb)
    | none => none

/-- The invocation an update dispatch of `t` with `v` records. -/
def updateEvents (t : FSharedTimelineTask) (v : ℚ) : List Event :=
  match updateCallback t with
  | some (native, cb) => [Event.update t.Id native cb v]
  | none => []

/-- The invocation a finished dispatch of `t` records. -/
def finishedEvents (t : FSharedTimelineTask) : List Event :=
  match finishedCallback t with
  | some (native, cb) => [Event.finished t.Id native cb]
  | none => []

/-- The callbacks of `t` make no call into the subsystem. -/
def Quiet (env : Env) (t : FSharedTimelineTask) : Prop :=
  (∀ native cb v, updateCallback t = some (native, cb) → env.onUpdate cb v = []) ∧
  (∀ native cb, finishedCallback t = some (native, cb) → env.onFinished cb = [])

/-- If the loop visits `t` (active and not paused), then `t` has a curve and its callbacks make
no call into the subsystem. -/
def Calm (env : Env) (t : FSharedTimelineTask) : Prop :=
  t.IsActive = true → t.IsPaused = false → Quiet env t ∧ t.Curve ≠ none

/-- The id of the task an event belongs to. -/
def Event.task : Event → Int
  | .update id _ _ _ => id
  | .finished id _ _ => id

/-- Whether an event is a finished invocation. -/
def Event.isFinished : Event → Bool
  | .update _ _ _ _ => false
  | .finished _ _ _ => true

/-- One visit of the loop to a task whose callbacks are quiet: the task left in the registry
(`none` when it is removed) and the invocations made. -/
def visit (fuel : Nat) (env : Env) (DeltaTime : ℚ) (t : FSharedTimelineTask) :
    Except Fault (Option FSharedTimelineTask × List Event) :=
  if !t.IsActive || t.IsPaused then .ok (some t, [])
  else
    match advanceTask fuel env DeltaTime t with
    | .error e => .error e
    | .ok a =>
      if a.bJustFinished then .ok (none, updateEvents a.Task a.Value ++ finishedEvents a.Task)
      else .ok (some a.Task, updateEvents a.Task a.Value)

/-- The slots from the visited one to the end, after the visit: a kept task stays in front of the
already visited ones, a removed one is replaced by the last. -/
def settle (r : Option FSharedTimelineTask) (done : List FSharedTimelineTask) :
    List FSharedTimelineTask :=
  match r with
  | some t => t :: done
  | none =>
    match done.getLast? with
    | none => []
    | some l => l :: done.dropLast

/-- The backward pass over the tasks `rev` (nearest first), with `done` behind them. -/
def sweep (fuel : Nat) (env : Env) (DeltaTime : ℚ) :
    List FSharedTimelineTask → List FSharedTimelineTask →
      Except Fault (List FSharedTimelineTask × List Event)
  | [], done => .ok (done, [])
  | t :: rest, done =>
    match visit fuel env DeltaTime t with
    | .error e => .error e
    | .ok (r, ev) =>
      match sweep fuel env DeltaTime rest (settle r done) with
      | .error e => .error e
      | .ok (final, evs) => .ok (final, ev ++ evs)

/-- The task a visit leaves in the registry, if any. -/
def kept (fuel : Nat) (env : Env) (DeltaTime : ℚ) (t : FSharedTimelineTask) :
    Option FSharedTimelineTask :=
  match visit fuel env DeltaTime t with
  | .ok (r, _) => r
  | .error _ => none

/-- The invocations a visit makes. -/
def said (fuel : Nat) (env : Env) (DeltaTime : ℚ) (t : FSharedTimelineTask) : List Event :=
  match visit fuel env DeltaTime t with
  | .ok (_, ev) => ev
  | .error _ => []

/-- The invocations of callbacks of task `id` recorded between state `s` and state `s1`. -/
def newEventsOf (id : Int) (s s1 : Sys) : List Event :=
  (s1.log.drop s.log.length).filter (fun e => e.task = id)

/-- Pairwise distinct ids. -/
def DistinctIds (ts : List FSharedTimelineTask) : Prop := (ts.map (·.Id)).Nodup

/-- The value reported for a task with curve `c` whose elapsed time is `x`. -/
def reportedValue (env : Env) (t : FSharedTimelineTask) (c : Nat) (x : ℚ) : ℚ :=
  if t.IsDurationOnly then x else env.floatValue c x

/-- The elapsed time of a task after line 16 of `Tick`. -/
def steppedElapsed (DeltaTime : ℚ) (t : FSharedTimelineTask) : ℚ :=
  t.Elapsed + (if t.IsReversing then -DeltaTime else DeltaTime)

/-- The duration lazy resolution derives from the range of curve `c`. -/
def rangeDuration (env : Env) (c : Nat) : ℚ :=
  if 0 < (env.timeRange c).2 - (env.timeRange c).1 then (env.timeRange c).2 - (env.timeRange c).1
  else 1

/-! ## Calls from outside and reachable states -/

/-- A call made from outside the subsystem: one of the public operations, or a tick. -/
inductive Call where
  | act (a : Action)
  | tick (DeltaTime : ℚ)

/-- Executes a call from outside. -/
def call (fuel : Nat) (env : Env) : Call → Sys → Except Fault Sys
  | .act a, s => perform (runner env fuel) env a s
  | .tick dt, s => Tick fuel env dt s

/-- The state `s1` is reached from `s` by a sequence of calls that return.  The curves and the
callback bodies may differ from call to call. -/
inductive Steps : Sys → Sys → Prop where
  | refl (s : Sys) : Steps s s
  | step (s s1 s2 : Sys) (fuel : Nat) (env : Env) (c : Call) :
      Steps s s1 → call fuel env c s1 = .ok s2 → Steps s s2

/-- The states reachable from the freshly constructed subsystem. -/
def Reachable (s : Sys) : Prop := Steps Sys.init s

/-- Successive calls of `Tick`, one per delta time. -/
def Ticks (fuel : Nat) (env : Env) : List ℚ → Sys → Except Fault Sys
  | [], s => .ok s
  | dt :: rest, s =>
    match Tick fuel env dt s with
    | .error e => .error e
    | .ok s1 => Ticks fuel env rest s1

/-- Either entry point for creating a task: `PlayTimeline_BP` when `bp`, else `PlayTimeline`. -/
def playVia (bp : Bool) (s : Sys) (Curve : Option Nat) (InDuration : ℚ) (bLoop : Bool)
    (OnUpdate OnFinished : Option Nat) (StartTime : ℚ) (bDurationOnly bUseRatio : Bool) :
    Int × Sys :=
  if bp then
    PlayTimeline_BP s Curve InDuration bLoop OnUpdate OnFinished StartTime bDurationOnly bUseRatio
  else PlayTimeline s Curve InDuration bLoop OnUpdate OnFinished StartTime bDurationOnly bUseRatio

/-! ## Invariants across calls -/

/-- A relation between states that holds across every primitive step of the subsystem. -/
structure StepClosed (R : Sys → Sys → Prop) : Prop where
  refl : ∀ s, R s s
  trans : ∀ a b c, R a b → R b c → R a c
  play : ∀ s c d l u f st dOnly ratio, R s (PlayTimeline s c d l u f st dOnly ratio).2
  playBP : ∀ s c d l u f st dOnly ratio, R s (PlayTimeline_BP s c d l u f st dOnly ratio).2
  reverse : ∀ s h, R s (ReverseTimeline s h)
  pause : ∀ s h, R s (PauseTimeline s h)
  resume : ∀ s h, R s (ResumeTimeline s h)
  logged : ∀ s evs, R s { s with log := s.log ++ evs }
  removed : ∀ s i Tasks, RemoveAtSwap s.Tasks i = .ok Tasks → R s { s with Tasks := Tasks }
  advanced : ∀ fuel env dt s i t a, s.Tasks[i]? = some t → advanceTask fuel env dt t = .ok a →
    R s { s with Tasks := s.Tasks.set i a.Task }

/-- The number of creations below which the id counter has not wrapped: `2^31 - 1`. -/
def idLimit : Nat := 2147483647

/-- The ids in the registry are pairwise distinct, at least 1 and below the id counter. -/
def IdsOrdered (s : Sys) : Prop :=
  DistinctIds s.Tasks ∧ ∀ t ∈ s.Tasks, 1 ≤ t.Id ∧ t.Id < s.NextId

/-- The id counter is the wrapped number of creations plus one, and the ids are ordered as long
as the counter has not wrapped. -/
def IdsFresh (s : Sys) : Prop :=
  s.NextId = wrap32 (1 + s.Created) ∧ (s.Created < idLimit → IdsOrdered s)

/-- The creation count does not decrease, and `IdsFresh` is kept. -/
def IdStep (s s1 : Sys) : Prop := s.Created ≤ s1.Created ∧ (IdsFresh s → IdsFresh s1)

/-- What no operation changes in a task that stays in the registry: its id, curve, callbacks and
mode flags; a set reverse flag stays set; a positive duration stays. -/
def Stable (u u1 : FSharedTimelineTask) : Prop :=
  u1.Id = u.Id ∧ u1.Curve = u.Curve ∧ u1.CPP_Update = u.CPP_Update ∧
  u1.CPP_Finished = u.CPP_Finished ∧ u1.BP_Update = u.BP_Update ∧
  u1.BP_Finished = u.BP_Finished ∧ u1.IsLooping = u.IsLooping ∧
  u1.IsDurationOnly = u.IsDurationOnly ∧ u1.IsRatio = u.IsRatio ∧
  (u.IsReversing = true → u1.IsReversing = true) ∧ (0 < u.Duration → u1.Duration = u.Duration)

/-- The task `u1` was created between the states `s` and `s1`: its id is that of a creation
counted in between, and it has a curve. -/
def Born (s s1 : Sys) (u1 : FSharedTimelineTask) : Prop :=
  ∃ k : Nat, s.Created ≤ k ∧ k < s1.Created ∧ u1.Id = wrap32 (1 + k) ∧ u1.Curve ≠ none

/-- Every task of `s1` is a task of `s`, changed at most as `Stable` allows, or was created in
between. -/
def Descends (s s1 : Sys) : Prop :=
  s.Created ≤ s1.Created ∧
  (s.NextId = wrap32 (1 + s.Created) →
    s1.NextId = wrap32 (1 + s1.Created) ∧
    ∀ u1 ∈ s1.Tasks, (∃ u ∈ s.Tasks, Stable u u1) ∨ Born s s1 u1)

/-! ## Outcomes -/

/-- The outcome "the looping task `t` keeps looping through the ticks `dts`": with enough fuel
every tick returns, afterwards a task with the id of `t` is in the registry with a positive
duration and `0 ≤ elapsed < duration`, and none of the invocations of its callbacks is a finished
one. -/
def KeepsLooping (env : Env) (dts : List ℚ) (s : Sys) (t : FSharedTimelineTask) : Prop :=
  ∃ N : Nat, ∀ fuel, N ≤ fuel → ∃ s1, Ticks fuel env dts s = .ok s1 ∧
    (∃ u ∈ s1.Tasks, u.Id = t.Id ∧ 0 < u.Duration ∧ 0 ≤ u.Elapsed ∧ u.Elapsed < u.Duration) ∧
    ∀ e ∈ newEventsOf t.Id s s1, e.isFinished = false

/-! ## Sample environments and registries -/

/-- Curve 0 is the identity with range `(0, 1)`, every other curve is `x ↦ 10 x` with range
`(0, 2)`.  Update callback 1 pauses task 1, update callback 2 stops task 1, update callback 3
stops task 2; finished callback 1 stops task 1.  All other callbacks make no call. -/
def sampleEnv : Env where
  timeRange := fun c => if c = 0 then (0, 1) else (0, 2)
  floatValue := fun c x => if c = 0 then x else 10 * x
  onUpdate := fun n _ =>
    if n = 1 then [.pause 1] else if n = 2 then [.stop 1 false] else if n = 3 then [.stop 2 false]
    else []
  onFinished := fun n => if n = 1 then [.stop 1 false] else []

/-- The curves of `sampleEnv` with callbacks that make no call. -/
def quietEnv : Env where
  timeRange := fun c => if c = 0 then (0, 1) else (0, 2)
  floatValue := fun c x => if c = 0 then x else 10 * x
  onUpdate := fun _ _ => []
  onFinished := fun _ => []

/-- A task as `PlayTimeline` creates it, given its id, curve, duration, start time, flag word
and native callbacks. -/
def mkTask (id : Int) (c : Nat) (d e : ℚ) (flags : FlagWord) (upd fin : Option Nat) :
    FSharedTimelineTask :=
  ⟨id, some c, d, e, flags, upd, fin, none, none⟩

/-- A registry of three tasks with callbacks bound: a forward one, a looping one and a reversed
one (flag words `Active`, `Active | Looping`, `Active | Reverse`). -/
def trio : Sys :=
  ⟨[mkTask 1 0 1 0 1 (some 5) (some 6), mkTask 2 0 1 (4 / 5) 5 (some 7) (some 8),
    mkTask 3 1 2 (1 / 2) 9 (some 9) (some 10)], 4, [], 3⟩

/-- The registry after one `Play(curve 0, duration 1)`. -/
def playedOnce : Sys := ⟨[mkTask 1 0 1 0 1 none none], 2, [], 1⟩

/-- The registry after `Play(curve 0, duration 1, loop, update callback 2)`: the update callback
of task 1 stops task 1. -/
def selfStopper : Sys := ⟨[mkTask 1 0 1 0 5 (some 2) none], 2, [], 1⟩

/-- The registry after `Play(curve 0, duration 1, finished callback 1)` and
`Play(curve 0, duration 1)`: the finished callback of task 1 stops task 1. -/
def reentrantPair : Sys :=
  ⟨[mkTask 1 0 1 0 1 none (some 1), mkTask 2 0 1 0 1 none none], 3, [], 2⟩

/-- The registry after `Play(curve 0, duration 1, finished callback 1)` alone. -/
def reentrantSingle : Sys := ⟨[mkTask 1 0 1 0 1 none (some 1)], 2, [], 1⟩

/-- The registry after `Play(curve 1, duration 4, update callback 5, start 1, bUseRatio)`. -/
def ratioPlayed : Sys := ⟨[mkTask 1 1 4 1 1 (some 5) none], 2, [], 1⟩

/-- The registry after `Play(curve 1, duration 0, update callback 5, finished callback 6)`;
curve 1 has the range `(0, 2)`. -/
def unresolvedPlayed : Sys := ⟨[mkTask 1 1 0 0 1 (some 5) (some 6)], 2, [], 1⟩

/-- The registry with one task whose id is `-2^31`, after `2^31` creations. -/
def wrappedOnce : Sys :=
  ⟨[mkTask (-2147483648) 0 1 0 1 none none], -2147483647, [], 2147483648⟩

/-- The empty registry whose id counter is `INDEX_NONE`, after `2^32 - 2` creations. -/
def counterAtSentinel : Sys := ⟨[], -1, [], 4294967294⟩

/-- The registry with one task whose id is `INDEX_NONE`, after `2^32 - 1` creations. -/
def sentinelLive : Sys := ⟨[mkTask (-1) 0 1 0 1 none none], 0, [], 4294967295⟩

/-! ## The closed form of the wrapping loops -/

/-- The closed form the specification gives for the wrapped time, the modulo with sign
correction: `t - D * floor (t / D)`. -/
def floorModulo (t D : ℚ) : ℚ := t - D * (Rat.floor (t / D) : ℤ)


/-- The registry after `Play(curve 0, duration 1, loop, update callback 5, finished callback 6,
start 4/5)`. -/
def loopingPlayed : Sys := ⟨[mkTask 1 0 1 (4 / 5) 5 (some 5) (some 6)], 2, [], 1⟩

/-! ## Sample registries with re-entrant callbacks -/

/-- The registry after `Play(curve 0, duration 1, update callback 2)`,
`Play(curve 0, duration 1, update callback 7, finished callback 8)` and `Pause(2)`: the update
callback of task 1 stops task 1, and task 2 is paused. -/
def pausedBystander : Sys :=
  ⟨[mkTask 1 0 1 0 1 (some 2) none, mkTask 2 0 1 0 3 (some 7) (some 8)], 3, [], 2⟩

/-- The registry after `Play(curve 0, duration 10, update callback 5)` and
`Play(curve 0, duration 10, update callback 2)`: the update callback of task 2 stops task 1. -/
def stopsOther : Sys :=
  ⟨[mkTask 1 0 10 0 1 (some 5) none, mkTask 2 0 10 0 1 (some 2) none], 3, [], 2⟩

/-- The registry after `Play(curve 0, duration 1, update callback 2, finished callback 6)` and
`Play(curve 0, duration 10, update callback 7, finished callback 8)`: the update callback of
task 1 stops task 1. -/
def stopsItself : Sys :=
  ⟨[mkTask 1 0 1 0 1 (some 2) (some 6), mkTask 2 0 10 0 1 (some 7) (some 8)], 3, [], 2⟩

/-- The registry after `Play(curve 0, duration 1, update callback 2, finished callback 6)`
alone. -/
def stopsItselfAlone : Sys := ⟨[mkTask 1 0 1 0 1 (some 2) (some 6)], 2, [], 1⟩

/-- The registry after `Play(curve 0, duration 1, finished callback 1)` and
`Play(curve 0, duration 10, update callback 7, finished callback 8)`: the finished callback of
task 1 stops task 1. -/
def stopsItselfWhenFinished : Sys :=
  ⟨[mkTask 1 0 1 0 1 none (some 1), mkTask 2 0 10 0 1 (some 7) (some 8)], 3, [], 2⟩

/-! ## Callbacks that create tasks -/

/-- Whether a call is one of the two plays. -/
def Action.isPlay : Action → Bool
  | .play _ _ _ _ _ _ _ _ => true
  | .playBP _ _ _ _ _ _ _ _ => true
  | _ => false

/-- The calls an update dispatch of `t` with `v` makes. -/
def updateCalls (env : Env) (t : FSharedTimelineTask) (v : ℚ) : List Action :=
  match updateCallback t with
  | some (_, cb) => env.onUpdate cb v
  | none => []

/-- The calls a finished dispatch of `t` makes. -/
def finishedCalls (env : Env) (t : FSharedTimelineTask) : List Action :=
  match finishedCallback t with
  | some (_, cb) => env.onFinished cb
  | none => []

/-- The calls the callbacks of `t` make during one visit of the loop: those of the update
callback, then those of the finished callback when the task just finished. -/
def asked (fuel : Nat) (env : Env) (DeltaTime : ℚ) (t : FSharedTimelineTask) : List Action :=
  if !t.IsActive || t.IsPaused then []
  else
    match advanceTask fuel env DeltaTime t with
    | .error _ => []
    | .ok a =>
      updateCalls env a.Task a.Value ++ (if a.bJustFinished then finishedCalls env a.Task else [])

/-- The callbacks of `t` make no call other than `PlayTimeline` and `PlayTimeline_BP`. -/
def PlaysOnly (env : Env) (t : FSharedTimelineTask) : Prop :=
  (∀ v, ∀ a ∈ updateCalls env t v, a.isPlay = true) ∧ ∀ a ∈ finishedCalls env t, a.isPlay = true

/-- If the loop visits `t` (active and not paused), then `t` has a curve and its callbacks make
no call other than plays. -/
def Playful (env : Env) (t : FSharedTimelineTask) : Prop :=
  t.IsActive = true → t.IsPaused = false → PlaysOnly env t ∧ t.Curve ≠ none

/-- One play executed on `s`; any other call leaves `s` as it is. -/
def playStep (s : Sys) (a : Action) : Sys :=
  match a with
  | .play c d l u f st dOnly ratio => (PlayTimeline s c d l u f st dOnly ratio).2
  | .playBP c d l u f st dOnly ratio => (PlayTimeline_BP s c d l u f st dOnly ratio).2
  | _ => s

/-- The plays among `acts`, executed in order on `s`. -/
def spawn (acts : List Action) (s : Sys) : Sys := acts.foldl playStep s

/-- The tasks the plays among `acts` create, with the id counter and the creation count they
leave, when the id counter is `n` and the creation count `c`. -/
def born (acts : List Action) (n : Int) (c : Nat) : Sys := spawn acts ⟨[], n, [], c⟩

/-- The task `u` is as the play `a` creates it, apart from its id. -/
def Creates (a : Action) (u : FSharedTimelineTask) : Prop :=
  match a with
  | .play c d l upd fin st dOnly _ =>
    c ≠ none ∧ u.Curve = c ∧ u.Duration = d ∧ u.Elapsed = st ∧ u.IsActive = true ∧
    u.IsPaused = false ∧ u.IsLooping = l ∧ u.IsDurationOnly = dOnly ∧ u.CPP_Update = upd ∧
    u.CPP_Finished = fin
  | .playBP c d l upd fin st dOnly _ =>
    c ≠ none ∧ u.Curve = c ∧ u.Duration = d ∧ u.Elapsed = st ∧ u.IsActive = true ∧
    u.IsPaused = false ∧ u.IsLooping = l ∧ u.IsDurationOnly = dOnly ∧ u.BP_Update = upd ∧
    u.BP_Finished = fin
  | _ => False


/-- Whether a play creates a task: its curve is present. -/
def Action.creates : Action → Bool
  | .play c _ _ _ _ _ _ _ => c.isSome
  | .playBP c _ _ _ _ _ _ _ => c.isSome
  | _ => false

/-- The curves of `sampleEnv`.  Update callback 20 plays a task (curve 0, duration 3, start
1/4); finished callback 21 plays a bound, looping, duration-only task (curve 1, duration 0).
All other callbacks make no call. -/
def spawnEnv : Env where
  timeRange := fun c => if c = 0 then (0, 1) else (0, 2)
  floatValue := fun c x => if c = 0 then x else 10 * x
  onUpdate := fun n _ =>
    if n = 20 then [.play (some 0) 3 false none none (1 / 4) false false] else []
  onFinished := fun n =>
    if n = 21 then [.playBP (some 1) 0 true (some 5) (some 6) 0 true false] else []

/-- The registry after `Play(curve 0, duration 1, update callback 20, finished callback 21)` and
`Play(curve 0, duration 10, update callback 20)`. -/
def spawners : Sys :=
  ⟨[mkTask 1 0 1 0 1 (some 20) (some 21), mkTask 2 0 10 0 1 (some 20) none], 3, [], 2⟩

/-! ## The tick as the specification describes it -/

/-- The state `s1` is reached from `s` by a sequence of calls that return, where at each call
the callbacks of the tasks then registered make no call into the subsystem. -/
inductive QuietSteps : Sys → Sys → Prop where
  | refl (s : Sys) : QuietSteps s s
  | step (s s1 s2 : Sys) (fuel : Nat) (env : Env) (c : Call) :
      QuietSteps s s1 → (∀ t ∈ s1.Tasks, Quiet env t) → call fuel env c s1 = .ok s2 →
      QuietSteps s s2

/-- Every task in the registry has its active flag set and a curve. -/
def ActiveWithCurve (s : Sys) : Prop := ∀ t ∈ s.Tasks, t.IsActive = true ∧ t.Curve ≠ none

/-! ## The curve assertion -/

/-- Every task in the registry has a curve. -/
def AllCurves (s : Sys) : Prop := ∀ t ∈ s.Tasks, t.Curve ≠ none

/-- Having a curve is kept from one state to the other. -/
def CurvesKept (s s1 : Sys) : Prop := AllCurves s → AllCurves s1

/-- The assertion `ensureAlwaysMsgf(Task.Curve, ...)` passes at every iteration of the loop of
`Tick` from index `n - 1` down to `0`, the iterations being followed for as long as the loop body
returns. -/
def curveEnsured (fuel : Nat) (env : Env) (DeltaTime : ℚ) : Nat → Sys → Bool
  | 0, _ => true
  | i + 1, s =>
    (match s.Tasks[i]? with
      | some Task => (!Task.IsActive || Task.IsPaused) || Task.Curve.isSome
      | none => true) &&
    (match tickBody fuel env DeltaTime i s with
      | .ok s1 => curveEnsured fuel env DeltaTime i s1
      | .error _ => true)

/-! ## Single-precision arithmetic in the tick -/

/-- Rounding to the nearest integer, ties to the even one. -/
def roundHalfEven (y : ℚ) : Int :=
  if y - (Rat.floor y : ℤ) < 1 / 2 then Rat.floor y
  else if 1 / 2 < y - (Rat.floor y : ℤ) then Rat.floor y + 1
  else if Rat.floor y % 2 = 0 then Rat.floor y
  else Rat.floor y + 1

/-- The binary exponent of the last place of a `float` near `x`: the exponent of the binade of
`x`, not below that of the subnormals, less the 23 fraction bits. -/
def ulpExponent (x : ℚ) : Int := max (Int.log 2 |x|) (-126) - 23

/-- Rounding of an exact result to `float` (IEEE 754 binary32, round to nearest, ties to even).
Overflow to infinity is not modelled. -/
def toFloat (x : ℚ) : ℚ := roundHalfEven (x / 2 ^ ulpExponent x) * 2 ^ ulpExponent x

/-- The loop `while (Task.Elapsed >= UseDuration) Task.Elapsed -= UseDuration` in `float`
arithmetic. -/
def wrapDownF (UseDuration : ℚ) : Nat → ℚ → Option ℚ
  | 0, Elapsed => if Elapsed ≥ UseDuration then none else some Elapsed
  | fuel + 1, Elapsed =>
    if Elapsed ≥ UseDuration then wrapDownF UseDuration fuel (toFloat (Elapsed - UseDuration))
    else some Elapsed

/-- The loop `while (Task.Elapsed < 0.f) Task.Elapsed += UseDuration` in `float` arithmetic. -/
def wrapUpF (UseDuration : ℚ) : Nat → ℚ → Option ℚ
  | 0, Elapsed => if Elapsed < 0 then none else some Elapsed
  | fuel + 1, Elapsed =>
    if Elapsed < 0 then wrapUpF UseDuration fuel (toFloat (Elapsed + UseDuration))
    else some Elapsed

/-- The block "determine duration" in `float` arithmetic. -/
def resolveDurationF (env : Env) (Task : FSharedTimelineTask) : Except Fault ℚ :=
  if Task.Duration ≤ 0 then
    match Task.Curve with
    | none => .error .nullCurve
    | some c =>
      let UseDuration := toFloat ((env.timeRange c).2 - (env.timeRange c).1)
      if UseDuration ≤ 0 then .ok 1 else .ok UseDuration
  else .ok Task.Duration

/-- The block "clamp or loop" in `float` arithmetic (the clamp assigns and does not round). -/
def clampOrLoopF (fuel : Nat) (bLooping : Bool) (Elapsed UseDuration : ℚ) :
    Except Fault (ℚ × Bool) :=
  if !bLooping then
    if Elapsed ≥ UseDuration then .ok (UseDuration, true)
    else if Elapsed ≤ 0 then .ok (0, true)
    else .ok (Elapsed, false)
  else
    match wrapDownF UseDuration fuel Elapsed with
    | none => .error .outOfFuel
    | some e1 =>
      match wrapUpF UseDuration fuel e1 with
      | none => .error .outOfFuel
      | some e2 => .ok (e2, false)

/-- Lines 16 to 55 of `Tick` for one active, unpaused task, every arithmetic result rounded to
`float`. -/
def advanceTaskF (fuel : Nat) (env : Env) (DeltaTime : ℚ) (Task : FSharedTimelineTask) :
    Except Fault Advanced :=
  let Task := { Task with
    Elapsed := toFloat (Task.Elapsed + (if Task.IsReversing then -DeltaTime else DeltaTime)) }
  match resolveDurationF env Task with
  | .error e => .error e
  | .ok UseDuration =>
    let Task := { Task with Duration := UseDuration }
    match clampOrLoopF fuel Task.IsLooping Task.Elapsed UseDuration with
    | .error e => .error e
    | .ok (Elapsed, bJustFinished) =>
      let Task := { Task with Elapsed := Elapsed }
      let Task := if bJustFinished then Task.SetActive false else Task
      match evalValue env Task with
      | .error e => .error e
      | .ok Value => .ok ⟨Task, Value, bJustFinished⟩

/-- The body of the `for` loop of `Tick` at index `i`, in `float` arithmetic. -/
def tickBodyF (fuel : Nat) (env : Env) (DeltaTime : ℚ) (i : Nat) (s : Sys) : Except Fault Sys :=
  match s.Tasks[i]? with
  | none => .error .outOfBounds
  | some Task =>
    if !Task.IsActive || Task.IsPaused then .ok s
    else
      match advanceTaskF fuel env DeltaTime Task with
      | .error e => .error e
      | .ok a =>
        match dispatchUpdate (runner env fuel) env a.Task a.Value
            { s with Tasks := s.Tasks.set i a.Task } with
        | .error e => .error e
        | .ok s1 =>
          if a.bJustFinished then
            match s1.Tasks[i]? with
            | none => .error .outOfBounds
            | some Cur =>
              match dispatchFinished (runner env fuel) env Cur s1 with
              | .error e => .error e
              | .ok s2 =>
                match RemoveAtSwap s2.Tasks i with
                | .error e => .error e
                | .ok Tasks => .ok { s2 with Tasks := Tasks }
          else .ok s1

/-- The loop of `Tick` in `float` arithmetic, with `n` indices still to visit. -/
def tickLoopF (fuel : Nat) (env : Env) (DeltaTime : ℚ) : Nat → Sys → Except Fault Sys
  | 0, s => .ok s
  | i + 1, s =>
    match tickBodyF fuel env DeltaTime i s with
    | .error e => .error e
    | .ok s1 => tickLoopF fuel env DeltaTime i s1

/-- The function `Tick` in `float` arithmetic. -/
def TickF (fuel : Nat) (env : Env) (DeltaTime : ℚ) (s : Sys) : Except Fault Sys :=
  tickLoopF fuel env DeltaTime s.Tasks.length s

/-- The registry after `Play(curve 0, duration 1, loop, start 30000000)`. -/
def farLooping : Sys := ⟨[mkTask 1 0 1 30000000 5 none none], 2, [], 1⟩

/-- The registry after `Play(curve 0, duration 1, loop, start -2^-30)`. -/
def nearZeroLooping : Sys := ⟨[mkTask 1 0 1 (-(1 / 1073741824)) 5 none none], 2, [], 1⟩

/-! ## Sample registries for the looping closed form and for created tasks -/

/-- The registry after `Play(curve 0, duration 1, loop, start 4/5)` and
`Play(curve 0, duration 10, update callback 1)`: the update callback of task 2 pauses the looping
task 1. -/
def pausingLooper : Sys :=
  ⟨[mkTask 1 0 1 (4 / 5) 5 none none, mkTask 2 0 10 0 1 (some 1) none], 3, [], 2⟩

/-- The curves of `sampleEnv`; update callback 30 plays a task (curve 0, duration 10, update
callback 31, start time 1/4) and then stops task 1.  All other callbacks make no call. -/
def mixedEnv : Env where
  timeRange := fun c => if c = 0 then (0, 1) else (0, 2)
  floatValue := fun c x => if c = 0 then x else 10 * x
  onUpdate := fun n _ =>
    if n = 30 then [.play (some 0) 10 false (some 31) none (1 / 4) false false, .stop 1 false]
    else []
  onFinished := fun _ => []

/-- The registry after `Play(curve 0, duration 10)` and
`Play(curve 0, duration 10, update callback 30)`. -/
def playsAndStops : Sys :=
  ⟨[mkTask 1 0 10 0 1 none none, mkTask 2 0 10 0 1 (some 30) none], 3, [], 2⟩

/-! ## Theorems -/

/-! ### Flags -/

theorem hasFlag_eq_testBit (j : Nat) (f : FlagWord) :
    hasFlag (1 <<< j) f = f.val.testBit j := by
  unfold hasFlag
  rw [Nat.one_shiftLeft, Nat.and_two_pow]
  cases h : f.val.testBit j <;> simp

theorem flagWord_testBit_high (f : FlagWord) (j : Nat) (h : 8 ≤ j) :
    f.val.testBit j = false := by
  apply Nat.testBit_lt_two_pow
  calc f.val < 2 ^ 8 := f.isLt
    _ ≤ 2 ^ j := Nat.pow_le_pow_right (by norm_num) h

theorem setFlag_testBit (k : Nat) (hk : k < 8) (b : Bool) (f : FlagWord) (j : Nat) :
    (setFlag (1 <<< k) b f).val.testBit j = if j = k then b else f.val.testBit j := by
  have h255 : (255 : Nat) = 2 ^ 8 - 1 := by norm_num
  unfold setFlag
  simp only [Fin.ofNat, Fin.val_mk]
  rw [show (255 + 1 : Nat) = 2 ^ 8 by norm_num, Nat.testBit_mod_two_pow, Nat.one_shiftLeft]
  by_cases hj8 : j < 8
  · cases b
    · simp only [Bool.false_eq_true, if_false, Nat.testBit_and, Nat.testBit_xor, h255,
        Nat.testBit_two_pow_sub_one, Nat.testBit_two_pow]
      by_cases hj : j = k
      · subst hj; simp [hk]
      · have : ¬ k = j := fun h => hj h.symm
        simp [hj, this, hj8]
    · simp only [if_true, Nat.testBit_or, Nat.testBit_two_pow]
      by_cases hj : j = k
      · subst hj; simp [hk]
      · have : ¬ k = j := fun h => hj h.symm
        simp [hj, this, hj8]
  · have hne : j ≠ k := by omega
    simp [hj8, hne, flagWord_testBit_high f j (by omega)]

/-- Setting flag `k` makes it read `b` and leaves the reading of every other flag as it was. -/
theorem hasFlag_setFlag (j k : Nat) (hk : k < 8) (b : Bool) (f : FlagWord) :
    hasFlag (1 <<< j) (setFlag (1 <<< k) b f) = if j = k then b else hasFlag (1 <<< j) f := by
  rw [hasFlag_eq_testBit, hasFlag_eq_testBit, setFlag_testBit k hk]

/-- Setting a flag to the value it already has changes nothing. -/
theorem setFlag_of_hasFlag (k : Nat) (hk : k < 8) (b : Bool) (f : FlagWord)
    (h : hasFlag (1 <<< k) f = b) : setFlag (1 <<< k) b f = f := by
  apply Fin.ext
  apply Nat.eq_of_testBit_eq
  intro j
  rw [setFlag_testBit k hk]
  by_cases hj : j = k
  · subst hj; rw [hasFlag_eq_testBit] at h; simp [h]
  · simp [hj]

namespace FSharedTimelineTask

variable (t : FSharedTimelineTask) (b : Bool)

@[simp] theorem IsActive_SetActive : (t.SetActive b).IsActive = b :=
  (hasFlag_setFlag 0 0 (by decide) b t.Flags).trans (if_pos rfl)
@[simp] theorem IsPaused_SetActive : (t.SetActive b).IsPaused = t.IsPaused :=
  (hasFlag_setFlag 1 0 (by decide) b t.Flags).trans (if_neg (by decide))
@[simp] theorem IsLooping_SetActive : (t.SetActive b).IsLooping = t.IsLooping :=
  (hasFlag_setFlag 2 0 (by decide) b t.Flags).trans (if_neg (by decide))
@[simp] theorem IsReversing_SetActive : (t.SetActive b).IsReversing = t.IsReversing :=
  (hasFlag_setFlag 3 0 (by decide) b t.Flags).trans (if_neg (by decide))
@[simp] theorem IsDurationOnly_SetActive : (t.SetActive b).IsDurationOnly = t.IsDurationOnly :=
  (hasFlag_setFlag 4 0 (by decide) b t.Flags).trans (if_neg (by decide))
@[simp] theorem IsRatio_SetActive : (t.SetActive b).IsRatio = t.IsRatio :=
  (hasFlag_setFlag 5 0 (by decide) b t.Flags).trans (if_neg (by decide))

@[simp] theorem IsActive_SetPaused : (t.SetPaused b).IsActive = t.IsActive :=
  (hasFlag_setFlag 0 1 (by decide) b t.Flags).trans (if_neg (by decide))
@[simp] theorem IsPaused_SetPaused : (t.SetPaused b).IsPaused = b :=
  (hasFlag_setFlag 1 1 (by decide) b t.Flags).trans (if_pos rfl)
@[simp] theorem IsLooping_SetPaused : (t.SetPaused b).IsLooping = t.IsLooping :=
  (hasFlag_setFlag 2 1 (by decide) b t.Flags).trans (if_neg (by decide))
@[simp] theorem IsReversing_SetPaused : (t.SetPaused b).IsReversing = t.IsReversing :=
  (hasFlag_setFlag 3 1 (by decide) b t.Flags).trans (if_neg (by decide))
@[simp] theorem IsDurationOnly_SetPaused : (t.SetPaused b).IsDurationOnly = t.IsDurationOnly :=
  (hasFlag_setFlag 4 1 (by decide) b t.Flags).trans (if_neg (by decide))
@[simp] theorem IsRatio_SetPaused : (t.SetPaused b).IsRatio = t.IsRatio :=
  (hasFlag_setFlag 5 1 (by decide) b t.Flags).trans (if_neg (by decide))

@[simp] theorem IsActive_SetReverse : (t.SetReverse b).IsActive = t.IsActive :=
  (hasFlag_setFlag 0 3 (by decide) b t.Flags).trans (if_neg (by decide))
@[simp] theorem IsPaused_SetReverse : (t.SetReverse b).IsPaused = t.IsPaused :=
  (hasFlag_setFlag 1 3 (by decide) b t.Flags).trans (if_neg (by decide))
@[simp] theorem IsLooping_SetReverse : (t.SetReverse b).IsLooping = t.IsLooping :=
  (hasFlag_setFlag 2 3 (by decide) b t.Flags).trans (if_neg (by decide))
@[simp] theorem IsReversing_SetReverse : (t.SetReverse b).IsReversing = b :=
  (hasFlag_setFlag 3 3 (by decide) b t.Flags).trans (if_pos rfl)
@[simp] theorem IsDurationOnly_SetReverse : (t.SetReverse b).IsDurationOnly = t.IsDurationOnly :=
  (hasFlag_setFlag 4 3 (by decide) b t.Flags).trans (if_neg (by decide))
@[simp] theorem IsRatio_SetReverse : (t.SetReverse b).IsRatio = t.IsRatio :=
  (hasFlag_setFlag 5 3 (by decide) b t.Flags).trans (if_neg (by decide))

@[simp] theorem Id_SetActive : (t.SetActive b).Id = t.Id := rfl
@[simp] theorem Curve_SetActive : (t.SetActive b).Curve = t.Curve := rfl
@[simp] theorem Duration_SetActive : (t.SetActive b).Duration = t.Duration := rfl
@[simp] theorem Elapsed_SetActive : (t.SetActive b).Elapsed = t.Elapsed := rfl
@[simp] theorem CPP_Update_SetActive : (t.SetActive b).CPP_Update = t.CPP_Update := rfl
@[simp] theorem CPP_Finished_SetActive : (t.SetActive b).CPP_Finished = t.CPP_Finished := rfl
@[simp] theorem BP_Update_SetActive : (t.SetActive b).BP_Update = t.BP_Update := rfl
@[simp] theorem BP_Finished_SetActive : (t.SetActive b).BP_Finished = t.BP_Finished := rfl

@[simp] theorem Id_SetPaused : (t.SetPaused b).Id = t.Id := rfl
@[simp] theorem Id_SetReverse : (t.SetReverse b).Id = t.Id := rfl

end FSharedTimelineTask

/-! ### Lists and the registry primitives -/

theorem getElem?_append_cons (pre : List α) (x : α) (post : List α) :
    (pre ++ x :: post)[pre.length]? = some x := by
  induction pre with
  | nil => simp
  | cons a pre ih => simpa using ih

theorem set_append_cons (pre : List α) (x y : α) (post : List α) :
    (pre ++ x :: post).set pre.length y = pre ++ y :: post := by
  induction pre with
  | nil => rfl
  | cons a pre ih => simp [ih]

/-- Swap-removal of the element after `pre`: the last element of what follows takes its place. -/
theorem RemoveAtSwap_append_cons (pre : List FSharedTimelineTask) (x : FSharedTimelineTask)
    (post : List FSharedTimelineTask) :
    RemoveAtSwap (pre ++ x :: post) pre.length =
      .ok (pre ++ (match post.getLast? with
        | none => []
        | some l => l :: post.dropLast)) := by
  unfold RemoveAtSwap
  rw [getElem?_append_cons]
  rcases List.eq_nil_or_concat post with h | ⟨init, l, h⟩
  · subst h
    have h1 : (pre ++ [x]).getLast? = some x := by simp
    rw [h1]
    simp only [List.getLast?_nil]
    rw [set_append_cons]
    simp [List.dropLast_append_of_ne_nil]
  · rw [List.concat_eq_append] at h
    subst h
    have h1 : (pre ++ x :: (init ++ [l])).getLast? = some l := by
      rw [show pre ++ x :: (init ++ [l]) = (pre ++ x :: init) ++ [l] by simp]
      exact List.getLast?_concat _
    rw [h1]
    have h2 : (init ++ [l]).getLast? = some l := List.getLast?_concat _
    rw [h2]
    simp only []
    rw [set_append_cons]
    rw [show pre ++ l :: (init ++ [l]) = (pre ++ l :: init) ++ [l] by simp]
    rw [List.dropLast_concat]
    simp

theorem FindTaskIndexById_eq_none {ts : List FSharedTimelineTask} {h : Int} :
    FindTaskIndexById ts h = none ↔ ∀ t ∈ ts, t.Id ≠ h := by
  induction ts with
  | nil => simp [FindTaskIndexById]
  | cons t rest ih =>
    unfold FindTaskIndexById
    by_cases ht : t.Id = h
    · simp [ht]
    · simp [ht, ih]

/-- A successful scan returns the first slot holding the handle. -/
theorem FindTaskIndexById_eq_some {ts : List FSharedTimelineTask} {h : Int} {i : Nat}
    (hf : FindTaskIndexById ts h = some i) :
    ∃ pre t post, ts = pre ++ t :: post ∧ pre.length = i ∧ t.Id = h ∧ ∀ u ∈ pre, u.Id ≠ h := by
  induction ts generalizing i with
  | nil => simp [FindTaskIndexById] at hf
  | cons t rest ih =>
    unfold FindTaskIndexById at hf
    by_cases ht : t.Id = h
    · simp [ht] at hf
      exact ⟨[], t, rest, rfl, by simp [hf], ht, by simp⟩
    · simp [ht] at hf
      obtain ⟨j, hj, rfl⟩ := hf
      obtain ⟨pre, u, post, h1, h2, h3, h4⟩ := ih hj
      refine ⟨t :: pre, u, post, by simp [h1], by simp [h2], h3, ?_⟩
      intro v hv
      rcases List.mem_cons.mp hv with rfl | hv
      · exact ht
      · exact h4 v hv

theorem FindTaskIndexById_append_cons (pre : List FSharedTimelineTask) (t : FSharedTimelineTask)
    (post : List FSharedTimelineTask) (hpre : ∀ u ∈ pre, u.Id ≠ t.Id) :
    FindTaskIndexById (pre ++ t :: post) t.Id = some pre.length := by
  induction pre with
  | nil => simp [FindTaskIndexById]
  | cons a pre ih =>
    have h1 : a.Id ≠ t.Id := hpre a (by simp)
    have h2 := ih (fun u hu => hpre u (by simp [hu]))
    simp [FindTaskIndexById, h1, h2]

/-! ### Quiet callbacks -/

theorem runner_nil (env : Env) (fuel : Nat) (s : Sys) : runner env fuel [] s = .ok s := by
  cases fuel <;> rfl

theorem dispatchUpdate_quiet (env : Env) (fuel : Nat) (t : FSharedTimelineTask) (v : ℚ) (s : Sys)
    (hq : Quiet env t) :
    dispatchUpdate (runner env fuel) env t v s = .ok { s with log := s.log ++ updateEvents t v } := by
  unfold dispatchUpdate updateEvents
  cases h1 : t.CPP_Update with
  | some cb =>
    have := hq.1 true cb v (by simp [updateCallback, h1])
    simp [this, runner_nil, updateCallback, h1]
  | none =>
    cases h2 : t.BP_Update with
    | some cb =>
      have := hq.1 false cb v (by simp [updateCallback, h1, h2])
      simp [this, runner_nil, updateCallback, h1, h2]
    | none => simp [updateCallback, h1, h2]

theorem dispatchFinished_quiet (env : Env) (fuel : Nat) (t : FSharedTimelineTask) (s : Sys)
    (hq : Quiet env t) :
    dispatchFinished (runner env fuel) env t s = .ok { s with log := s.log ++ finishedEvents t } := by
  unfold dispatchFinished finishedEvents
  cases h1 : t.CPP_Finished with
  | some cb =>
    have := hq.2 true cb (by simp [finishedCallback, h1])
    simp [this, runner_nil, finishedCallback, h1]
  | none =>
    cases h2 : t.BP_Finished with
    | some cb =>
      have := hq.2 false cb (by simp [finishedCallback, h1, h2])
      simp [this, runner_nil, finishedCallback, h1, h2]
    | none => simp [finishedCallback, h1, h2]

/-- What `advanceTask` can change: `Elapsed`, `Duration`, and the active flag when finishing. -/
theorem advanceTask_frame {fuel : Nat} {env : Env} {dt : ℚ} {t : FSharedTimelineTask}
    {a : Advanced} (h : advanceTask fuel env dt t = .ok a) :
    a.Task = (if a.bJustFinished then
        ({ t with Elapsed := a.Task.Elapsed, Duration := a.Task.Duration } :
          FSharedTimelineTask).SetActive false
      else { t with Elapsed := a.Task.Elapsed, Duration := a.Task.Duration }) := by
  unfold advanceTask at h
  simp only at h
  split at h
  · cases h
  · split at h
    · cases h
    · rename_i Elapsed bJust _
      split at h
      · cases h
      · cases h
        cases bJust <;> simp [FSharedTimelineTask.SetActive]

theorem advanceTask_Id {fuel : Nat} {env : Env} {dt : ℚ} {t : FSharedTimelineTask}
    {a : Advanced} (h : advanceTask fuel env dt t = .ok a) : a.Task.Id = t.Id := by
  rw [advanceTask_frame h]; split <;> rfl

theorem advanceTask_updateCallback {fuel : Nat} {env : Env} {dt : ℚ} {t : FSharedTimelineTask}
    {a : Advanced} (h : advanceTask fuel env dt t = .ok a) :
    updateCallback a.Task = updateCallback t := by
  rw [advanceTask_frame h]; split <;> rfl

theorem advanceTask_finishedCallback {fuel : Nat} {env : Env} {dt : ℚ} {t : FSharedTimelineTask}
    {a : Advanced} (h : advanceTask fuel env dt t = .ok a) :
    finishedCallback a.Task = finishedCallback t := by
  rw [advanceTask_frame h]; split <;> rfl

theorem advanceTask_Quiet {fuel : Nat} {env : Env} {dt : ℚ} {t : FSharedTimelineTask}
    {a : Advanced} (h : advanceTask fuel env dt t = .ok a) (hq : Quiet env t) :
    Quiet env a.Task := by
  unfold Quiet
  rw [advanceTask_updateCallback h, advanceTask_finishedCallback h]
  exact hq

theorem visited_of_not_skip {t : FSharedTimelineTask}
    (h : ¬ (!t.IsActive || t.IsPaused) = true) : t.IsActive = true ∧ t.IsPaused = false := by
  cases h1 : t.IsActive <;> cases h2 : t.IsPaused <;> simp [h1, h2] at h ⊢

/-- With quiet callbacks the loop body at the slot after `pre` is one `visit`. -/
theorem tickBody_quiet (fuel : Nat) (env : Env) (dt : ℚ) (pre done : List FSharedTimelineTask)
    (t : FSharedTimelineTask) (n : Int) (log : List Event) (c : Nat)
    (r : Option FSharedTimelineTask) (ev : List Event)
    (hq : Calm env t) (hv : visit fuel env dt t = .ok (r, ev)) :
    tickBody fuel env dt pre.length ⟨pre ++ t :: done, n, log, c⟩ =
      .ok ⟨pre ++ settle r done, n, log ++ ev, c⟩ := by
  unfold tickBody
  simp only [getElem?_append_cons]
  unfold visit at hv
  split at hv
  · rename_i hskip
    cases hv
    simp [hskip, settle]
  · rename_i hskip
    have hq1 : Quiet env t := (hq (visited_of_not_skip hskip).1 (visited_of_not_skip hskip).2).1
    simp only [hskip]
    split at hv
    · cases hv
    · rename_i a ha
      simp only [Bool.false_eq_true, if_false]
      rw [dispatchUpdate_quiet env fuel a.Task a.Value _ (advanceTask_Quiet ha hq1)]
      simp only [set_append_cons]
      split at hv
      · rename_i hfin
        cases hv
        simp only [hfin, if_true, getElem?_append_cons]
        rw [dispatchFinished_quiet env fuel a.Task _ (advanceTask_Quiet ha hq1)]
        simp only [RemoveAtSwap_append_cons, settle, List.append_assoc]
      · rename_i hfin
        cases hv
        simp [hfin, settle]

/-- With quiet callbacks the backward loop is `sweep`. -/
theorem tickLoop_quiet (fuel : Nat) (env : Env) (dt : ℚ) :
    ∀ (rev done final : List FSharedTimelineTask) (n : Int) (log evs : List Event) (c : Nat),
      (∀ t ∈ rev, Calm env t) → sweep fuel env dt rev done = .ok (final, evs) →
      tickLoop fuel env dt rev.length ⟨rev.reverse ++ done, n, log, c⟩ =
        .ok ⟨final, n, log ++ evs, c⟩ := by
  intro rev
  induction rev with
  | nil =>
    intro done final n log evs c _ h
    simp [sweep] at h
    simp [tickLoop, h.1, ← h.2]
  | cons t rest ih =>
    intro done final n log evs c hq h
    unfold sweep at h
    split at h
    · cases h
    · rename_i r ev hv
      split at h
      · cases h
      · rename_i final1 evs1 hs
        cases h
        have hb := tickBody_quiet fuel env dt rest.reverse done t n log c r ev
          (hq t (by simp)) hv
        simp only [List.length_reverse] at hb
        simp only [List.length_cons, List.reverse_cons, List.append_assoc, List.singleton_append,
          tickLoop, hb]
        have := ih (settle r done) final (n) (log ++ ev) evs1 c
          (fun u hu => hq u (by simp [hu])) hs
        simp only [List.append_assoc] at this
        exact this

/-- With quiet callbacks `Tick` is the backward pass over the whole collection. -/
theorem Tick_quiet (fuel : Nat) (env : Env) (dt : ℚ) (s : Sys)
    (final : List FSharedTimelineTask) (evs : List Event)
    (hq : ∀ t ∈ s.Tasks, Calm env t)
    (h : sweep fuel env dt s.Tasks.reverse [] = .ok (final, evs)) :
    Tick fuel env dt s = .ok { s with Tasks := final, log := s.log ++ evs } := by
  have := tickLoop_quiet fuel env dt s.Tasks.reverse [] final s.NextId s.log evs s.Created
    (fun t ht => hq t (by simpa using ht)) h
  simp only [List.length_reverse, List.reverse_reverse, List.append_nil] at this
  exact this

/-! ### The wrapping loops -/

/-- The subtracting loop ends within `n` rounds once `e < d * (n + 1)`, below `d`. -/
theorem wrapDown_spec (d : ℚ) :
    ∀ (n : Nat) (e : ℚ), e < d * (n + 1) →
      ∃ (r : ℚ) (k : Nat), (∀ fuel, n ≤ fuel → wrapDown d fuel e = some r) ∧ r < d ∧
        r = e - d * k ∧ (e < d → r = e) := by
  intro n
  induction n with
  | zero =>
    intro e he
    have he1 : e < d := by simpa using he
    refine ⟨e, 0, ?_, he1, by simp, fun _ => rfl⟩
    intro fuel _
    cases fuel <;> simp [wrapDown, not_le.mpr he1]
  | succ n ih =>
    intro e he
    by_cases he1 : e < d
    · refine ⟨e, 0, ?_, he1, by simp, fun _ => rfl⟩
      intro fuel _
      cases fuel <;> simp [wrapDown, not_le.mpr he1]
    · have he2 : d ≤ e := not_lt.mp he1
      have : e - d < d * ((n : ℚ) + 1) := by push_cast at he; linarith
      obtain ⟨r, k, h1, h2, h3, _⟩ := ih (e - d) this
      refine ⟨r, k + 1, ?_, h2, by push_cast; rw [h3]; ring, fun h => absurd h he1⟩
      intro fuel hf
      cases fuel with
      | zero => omega
      | succ f =>
        simp only [wrapDown, ge_iff_le, he2, if_true]
        exact h1 f (by omega)

/-- The adding loop, started below `d`, ends within `n` rounds once `0 ≤ e + d * n`, in
`[0, d)`. -/
theorem wrapUp_spec (d : ℚ) :
    ∀ (n : Nat) (e : ℚ), 0 ≤ e + d * n → e < d →
      ∃ (r : ℚ) (k : Nat), (∀ fuel, n ≤ fuel → wrapUp d fuel e = some r) ∧ 0 ≤ r ∧ r < d ∧
        r = e + d * k ∧ (0 ≤ e → r = e) := by
  intro n
  induction n with
  | zero =>
    intro e he hlt
    have he1 : 0 ≤ e := by simpa using he
    refine ⟨e, 0, ?_, he1, hlt, by simp, fun _ => rfl⟩
    intro fuel _
    cases fuel <;> simp [wrapUp, not_lt.mpr he1]
  | succ n ih =>
    intro e he hlt
    by_cases he1 : 0 ≤ e
    · refine ⟨e, 0, ?_, he1, hlt, by simp, fun _ => rfl⟩
      intro fuel _
      cases fuel <;> simp [wrapUp, not_lt.mpr he1]
    · have he2 : e < 0 := not_le.mp he1
      have h0 : 0 ≤ e + d + d * (n : ℚ) := by push_cast at he; linarith
      obtain ⟨r, k, h1, h2, h3, h4, _⟩ := ih (e + d) h0 (by linarith)
      refine ⟨r, k + 1, ?_, h2, h3, by push_cast; rw [h4]; ring, fun h => absurd h he1⟩
      intro fuel hf
      cases fuel with
      | zero => omega
      | succ f =>
        simp only [wrapUp, he2, if_true]
        exact h1 f (by omega)

/-- For a positive duration both loops terminate: with enough fuel the wrapped time is the same
value, it lies in `[0, d)` and differs from the start by a whole number of durations. -/
theorem wrap_terminates (d : ℚ) (hd : 0 < d) (e : ℚ) :
    ∃ (N : Nat) (r : ℚ) (k : Int), (∀ fuel, N ≤ fuel → ∃ e1, wrapDown d fuel e = some e1 ∧
        wrapUp d fuel e1 = some r) ∧ 0 ≤ r ∧ r < d ∧ r = e - d * k := by
  obtain ⟨n1, hn1⟩ := exists_nat_gt (e / d)
  have h1 : e < d * ((n1 : ℚ) + 1) := by
    have := (div_lt_iff₀ hd).mp hn1
    nlinarith
  obtain ⟨r1, k1, hr1, hlt1, heq1, _⟩ := wrapDown_spec d n1 e h1
  obtain ⟨n2, hn2⟩ := exists_nat_gt (-r1 / d)
  have h2 : 0 ≤ r1 + d * (n2 : ℚ) := by
    have := (div_lt_iff₀ hd).mp hn2
    nlinarith
  obtain ⟨r2, k2, hr2, h0, hlt2, heq2, _⟩ := wrapUp_spec d n2 r1 h2 hlt1
  refine ⟨max n1 n2, r2, (k1 : Int) - k2, ?_, h0, hlt2, ?_⟩
  · intro fuel hf
    exact ⟨r1, hr1 fuel (le_trans (le_max_left _ _) hf), hr2 fuel (le_trans (le_max_right _ _) hf)⟩
  · rw [heq2, heq1]; push_cast; ring

/-! ### The backward pass -/

theorem settle_perm (r : Option FSharedTimelineTask) (done : List FSharedTimelineTask) :
    (settle r done).Perm (r.toList ++ done) := by
  cases r with
  | some t => simp [settle]
  | none =>
    rcases List.eq_nil_or_concat done with h | ⟨init, l, h⟩
    · subst h; simp [settle]
    · rw [List.concat_eq_append] at h
      subst h
      simp only [settle, List.getLast?_concat, List.dropLast_concat, Option.toList,
        List.nil_append]
      exact (List.perm_append_singleton l init).symm

theorem visit_kept_said {fuel : Nat} {env : Env} {dt : ℚ} {t : FSharedTimelineTask}
    {r : Option FSharedTimelineTask} {ev : List Event} (h : visit fuel env dt t = .ok (r, ev)) :
    kept fuel env dt t = r ∧ said fuel env dt t = ev := by
  simp [kept, said, h]

/-- The pass leaves the kept tasks and the tasks behind, in some order, and makes the
invocations of the visits in visiting order. -/
theorem sweep_result (fuel : Nat) (env : Env) (dt : ℚ) :
    ∀ (rev done final : List FSharedTimelineTask) (evs : List Event),
      sweep fuel env dt rev done = .ok (final, evs) →
      final.Perm (rev.filterMap (kept fuel env dt) ++ done) ∧
        evs = rev.flatMap (said fuel env dt) := by
  intro rev
  induction rev with
  | nil =>
    intro done final evs h
    simp [sweep] at h
    simp [h.1, ← h.2]
  | cons t rest ih =>
    intro done final evs h
    unfold sweep at h
    split at h
    · cases h
    · rename_i r ev hv
      split at h
      · cases h
      · rename_i final1 evs1 hs
        cases h
        obtain ⟨hk, hsd⟩ := visit_kept_said hv
        obtain ⟨hp, he⟩ := ih _ _ _ hs
        refine ⟨?_, by simp [List.flatMap_cons, hsd, he]⟩
        refine hp.trans ?_
        have h1 := (settle_perm r done).append_left (rest.filterMap (kept fuel env dt))
        refine h1.trans ?_
        rw [List.filterMap_cons, hk]
        cases r with
        | none => simp
        | some t1 =>
          simp only [Option.toList, List.singleton_append]
          exact List.perm_middle

theorem sweep_ok (fuel : Nat) (env : Env) (dt : ℚ) :
    ∀ (rev done : List FSharedTimelineTask),
      (∀ t ∈ rev, ∃ r, visit fuel env dt t = .ok r) →
      ∃ final evs, sweep fuel env dt rev done = .ok (final, evs) := by
  intro rev
  induction rev with
  | nil => intro done _; exact ⟨done, [], rfl⟩
  | cons t rest ih =>
    intro done h
    obtain ⟨⟨r, ev⟩, hv⟩ := h t (by simp)
    obtain ⟨final, evs, hs⟩ := ih (settle r done) (fun u hu => h u (by simp [hu]))
    exact ⟨final, ev ++ evs, by simp [sweep, hv, hs]⟩

theorem sweep_congr (f1 f2 : Nat) (env : Env) (dt : ℚ) :
    ∀ (rev done : List FSharedTimelineTask),
      (∀ t ∈ rev, visit f1 env dt t = visit f2 env dt t) →
      sweep f1 env dt rev done = sweep f2 env dt rev done := by
  intro rev
  induction rev with
  | nil => intro done _; rfl
  | cons t rest ih =>
    intro done h
    unfold sweep
    rw [h t (by simp)]
    split
    · rfl
    · rw [ih _ (fun u hu => h u (by simp [hu]))]

/-! ### One task -/

theorem resolveDuration_pos {env : Env} {t : FSharedTimelineTask} {D : ℚ}
    (h : resolveDuration env t = .ok D) : 0 < D := by
  unfold resolveDuration at h
  split at h
  · split at h
    · cases h
    · simp only at h
      split at h
      · cases h; norm_num
      · cases h; rename_i hpos; exact not_le.mp hpos
  · cases h; rename_i hpos; exact not_le.mp hpos

theorem resolveDuration_ok (env : Env) (t : FSharedTimelineTask) (c : Nat)
    (hc : t.Curve = some c) : ∃ D, resolveDuration env t = .ok D := by
  unfold resolveDuration
  rw [hc]
  simp only
  split
  · split
    · exact ⟨_, rfl⟩
    · exact ⟨_, rfl⟩
  · exact ⟨_, rfl⟩

/-- A duration that is already positive is what the tick uses. -/
theorem resolveDuration_of_pos (env : Env) (t : FSharedTimelineTask) (h : 0 < t.Duration) :
    resolveDuration env t = .ok t.Duration := by
  simp [resolveDuration, not_le.mpr h]

/-- A non-looping task: the tick needs no fuel, and clamps at the duration, at zero, or not at
all. -/
theorem advanceTask_nonlooping (fuel : Nat) (env : Env) (dt : ℚ) (t : FSharedTimelineTask)
    (c : Nat) (D : ℚ) (hl : t.IsLooping = false) (hc : t.Curve = some c)
    (hD : resolveDuration env t = .ok D) :
    advanceTask fuel env dt t =
      .ok (if D ≤ steppedElapsed dt t then
          ⟨({ t with Elapsed := D, Duration := D } : FSharedTimelineTask).SetActive false,
            reportedValue env t c D, true⟩
        else if steppedElapsed dt t ≤ 0 then
          ⟨({ t with Elapsed := 0, Duration := D } : FSharedTimelineTask).SetActive false,
            reportedValue env t c 0, true⟩
        else
          ⟨{ t with Elapsed := steppedElapsed dt t, Duration := D },
            reportedValue env t c (steppedElapsed dt t), false⟩) := by
  have hs : t.Elapsed + (if t.IsReversing then -dt else dt) = steppedElapsed dt t := rfl
  have hD1 : resolveDuration env { t with Elapsed := steppedElapsed dt t } = .ok D := hD
  have hl1 : FSharedTimelineTask.IsLooping
      { t with Elapsed := steppedElapsed dt t, Duration := D } = false := hl
  unfold advanceTask
  simp only [hs, hD1, hl1, clampOrLoop, Bool.not_false, if_true, ge_iff_le]
  have hdo : ∀ (x y : ℚ) (b : Bool),
      evalValue env (if b then
          ({ t with Elapsed := x, Duration := y } : FSharedTimelineTask).SetActive false
        else { t with Elapsed := x, Duration := y }) = .ok (reportedValue env t c x) := by
    intro x y b
    have h2 : ∀ u : FSharedTimelineTask, u.Curve = some c → u.IsDurationOnly = t.IsDurationOnly →
        evalValue env u = .ok (reportedValue env t c u.Elapsed) := by
      intro u hu1 hu2
      unfold evalValue reportedValue GetCurveFloatValueAtTime
      rw [hu1, hu2]
      split <;> rfl
    cases b
    · exact h2 _ hc rfl
    · exact h2 _ hc (FSharedTimelineTask.IsDurationOnly_SetActive _ _)
  by_cases h1 : D ≤ steppedElapsed dt t
  · simp only [h1, if_true]
    have := hdo D D true
    simp only [if_true] at this
    simp only [this]
  · simp only [h1, if_false]
    by_cases h2 : steppedElapsed dt t ≤ 0
    · simp only [h2, if_true]
      have := hdo 0 D true
      simp only [if_true] at this
      simp only [this]
    · simp only [h2, if_false]
      have := hdo (steppedElapsed dt t) D false
      simp only [Bool.false_eq_true, if_false] at this
      simp only [Bool.false_eq_true, if_false, this]

/-- A looping task: with enough fuel the tick wraps the stepped time into `[0, D)`, by a whole
number of durations, and never finishes. -/
theorem advanceTask_looping (env : Env) (dt : ℚ) (t : FSharedTimelineTask)
    (c : Nat) (D : ℚ) (hl : t.IsLooping = true) (hc : t.Curve = some c)
    (hD : resolveDuration env t = .ok D) :
    ∃ (N : Nat) (r : ℚ) (k : Int), (∀ fuel, N ≤ fuel → advanceTask fuel env dt t =
        .ok ⟨{ t with Elapsed := r, Duration := D }, reportedValue env t c r, false⟩) ∧
      0 ≤ r ∧ r < D ∧ r = steppedElapsed dt t - D * k := by
  obtain ⟨N, r, k, hw, h0, h1, h2⟩ := wrap_terminates D (resolveDuration_pos hD)
    (steppedElapsed dt t)
  refine ⟨N, r, k, ?_, h0, h1, h2⟩
  intro fuel hf
  obtain ⟨e1, hd1, hu1⟩ := hw fuel hf
  have hs : t.Elapsed + (if t.IsReversing then -dt else dt) = steppedElapsed dt t := rfl
  have hD1 : resolveDuration env { t with Elapsed := steppedElapsed dt t } = .ok D := hD
  have hl1 : FSharedTimelineTask.IsLooping
      { t with Elapsed := steppedElapsed dt t, Duration := D } = true := hl
  have hv : evalValue env { t with Elapsed := r, Duration := D } =
      .ok (reportedValue env t c r) := by
    unfold evalValue reportedValue GetCurveFloatValueAtTime
    show (if t.IsDurationOnly = true then Except.ok r else
      match t.Curve with
      | some c => Except.ok (env.floatValue c r)
      | none => Except.error Fault.nullCurve) = _
    rw [hc]
    split <;> rfl
  unfold advanceTask
  simp only [hs, hD1, hl1, clampOrLoop, Bool.not_true, Bool.false_eq_true, if_false, hd1, hu1, hv]

/-- With its curve present, a task is advanced to the same result by every large enough fuel. -/
theorem advanceTask_stable (env : Env) (dt : ℚ) (t : FSharedTimelineTask) (c : Nat)
    (hc : t.Curve = some c) :
    ∃ (N : Nat) (a : Advanced), ∀ fuel, N ≤ fuel → advanceTask fuel env dt t = .ok a := by
  obtain ⟨D, hD⟩ := resolveDuration_ok env t c hc
  cases hl : t.IsLooping with
  | false => exact ⟨0, _, fun fuel _ => advanceTask_nonlooping fuel env dt t c D hl hc hD⟩
  | true =>
    obtain ⟨N, r, k, h, _⟩ := advanceTask_looping env dt t c D hl hc hD
    exact ⟨N, _, h⟩

theorem visit_stable (env : Env) (dt : ℚ) (t : FSharedTimelineTask) (hc : Calm env t) :
    ∃ (N : Nat) (r : Option FSharedTimelineTask × List Event),
      ∀ fuel, N ≤ fuel → visit fuel env dt t = .ok r := by
  by_cases hskip : (!t.IsActive || t.IsPaused) = true
  · exact ⟨0, (some t, []), fun fuel _ => by simp only [visit, hskip, if_true]⟩
  · obtain ⟨c, hc1⟩ := Option.ne_none_iff_exists'.mp
      (hc (visited_of_not_skip hskip).1 (visited_of_not_skip hskip).2).2
    obtain ⟨N, a, ha⟩ := advanceTask_stable env dt t c hc1
    by_cases hfin : a.bJustFinished = true
    · exact ⟨N, (none, updateEvents a.Task a.Value ++ finishedEvents a.Task), fun fuel hf => by
        simp [visit, hskip, ha fuel hf, hfin]⟩
    · exact ⟨N, (some a.Task, updateEvents a.Task a.Value), fun fuel hf => by
        simp [visit, hskip, ha fuel hf, hfin]⟩

theorem visits_stable (env : Env) (dt : ℚ) :
    ∀ l : List FSharedTimelineTask, (∀ t ∈ l, Calm env t) →
      ∃ N : Nat, ∀ t ∈ l, ∃ r, ∀ fuel, N ≤ fuel → visit fuel env dt t = .ok r := by
  intro l
  induction l with
  | nil => intro _; exact ⟨0, by simp⟩
  | cons t rest ih =>
    intro h
    obtain ⟨N1, r1, h1⟩ := visit_stable env dt t (h t (by simp))
    obtain ⟨N2, h2⟩ := ih (fun u hu => h u (by simp [hu]))
    refine ⟨max N1 N2, ?_⟩
    intro u hu
    rcases List.mem_cons.mp hu with rfl | hu
    · exact ⟨r1, fun fuel hf => h1 fuel (le_trans (le_max_left _ _) hf)⟩
    · obtain ⟨r, hr⟩ := h2 u hu
      exact ⟨r, fun fuel hf => hr fuel (le_trans (le_max_right _ _) hf)⟩

/-- When every visited task has its curve and quiet callbacks, `Tick` returns: from some fuel on
it is the backward pass, whose result no longer depends on the fuel. -/
theorem Tick_total (env : Env) (dt : ℚ) (s : Sys) (hq : ∀ t ∈ s.Tasks, Calm env t) :
    ∃ N0 : Nat, ∀ N, N0 ≤ N → ∃ final evs,
      sweep N env dt s.Tasks.reverse [] = .ok (final, evs) ∧
      ∀ fuel, N ≤ fuel →
        Tick fuel env dt s = .ok { s with Tasks := final, log := s.log ++ evs } := by
  obtain ⟨N0, h0⟩ := visits_stable env dt s.Tasks hq
  refine ⟨N0, fun N hN => ?_⟩
  obtain ⟨final, evs, hs⟩ := sweep_ok N env dt s.Tasks.reverse [] (fun t ht => by
    obtain ⟨r, hr⟩ := h0 t (by simpa using ht)
    exact ⟨r, hr N hN⟩)
  refine ⟨final, evs, hs, fun fuel hf => ?_⟩
  apply Tick_quiet fuel env dt s final evs hq
  rw [← hs]
  apply sweep_congr
  intro t ht
  obtain ⟨r, hr⟩ := h0 t (by simpa using ht)
  rw [hr fuel (le_trans hN hf), hr N hN]

/-! ### Ids and invocations of the visited tasks -/

theorem visit_kept_Id {fuel : Nat} {env : Env} {dt : ℚ} {t u : FSharedTimelineTask}
    (h : kept fuel env dt t = some u) : u.Id = t.Id := by
  unfold kept visit at h
  split at h
  · rename_i r ev hv
    split at hv
    · cases hv; cases h; rfl
    · split at hv
      · cases hv
      · rename_i a ha
        split at hv
        · cases hv; cases h
        · cases hv; cases h; exact advanceTask_Id ha
  · cases h

theorem updateEvents_task (t : FSharedTimelineTask) (v : ℚ) :
    ∀ e ∈ updateEvents t v, e.task = t.Id := by
  intro e he
  unfold updateEvents at he
  split at he
  · simp at he; subst he; rfl
  · simp at he

theorem finishedEvents_task (t : FSharedTimelineTask) :
    ∀ e ∈ finishedEvents t, e.task = t.Id := by
  intro e he
  unfold finishedEvents at he
  split at he
  · simp at he; subst he; rfl
  · simp at he

theorem said_task (fuel : Nat) (env : Env) (dt : ℚ) (t : FSharedTimelineTask) :
    ∀ e ∈ said fuel env dt t, e.task = t.Id := by
  intro e he
  unfold said visit at he
  split at he
  · rename_i r ev hv
    split at hv
    · cases hv; simp at he
    · split at hv
      · cases hv
      · rename_i a ha
        have hid := advanceTask_Id ha
        split at hv
        · cases hv
          rcases List.mem_append.mp he with h | h
          · rw [updateEvents_task _ _ e h, hid]
          · rw [finishedEvents_task _ e h, hid]
        · cases hv
          rw [updateEvents_task _ _ e he, hid]
  · simp at he

/-- Among tasks with distinct ids, the invocations carrying the id of `t` are those of `t`. -/
theorem filter_flatMap_task (f : FSharedTimelineTask → List Event)
    (hf : ∀ u, ∀ e ∈ f u, e.task = u.Id) :
    ∀ (l : List FSharedTimelineTask) (t : FSharedTimelineTask), DistinctIds l → t ∈ l →
      (l.flatMap f).filter (fun e => e.task = t.Id) = f t := by
  intro l
  induction l with
  | nil => intro t _ ht; simp at ht
  | cons a rest ih =>
    intro t hd ht
    unfold DistinctIds at hd
    rw [List.map_cons, List.nodup_cons] at hd
    have hnone : ∀ (l1 : List FSharedTimelineTask) (id : Int), (∀ u ∈ l1, u.Id ≠ id) →
        (l1.flatMap f).filter (fun e => e.task = id) = [] := by
      intro l1 id h
      rw [List.filter_eq_nil_iff]
      intro e he
      obtain ⟨u, hu, heu⟩ := List.mem_flatMap.mp he
      simp [hf u e heu, h u hu]
    have hall : ∀ u, (f u).filter (fun e => e.task = u.Id) = f u := by
      intro u
      rw [List.filter_eq_self]
      intro e he
      simp [hf u e he]
    rw [List.flatMap_cons, List.filter_append]
    rcases List.mem_cons.mp ht with rfl | ht1
    · rw [hall, hnone rest t.Id, List.append_nil]
      intro u hu heq
      exact hd.1 (List.mem_map.mpr ⟨u, hu, heq⟩)
    · rw [ih t hd.2 ht1]
      have hne : a.Id ≠ t.Id := fun heq => hd.1 (List.mem_map.mpr ⟨t, ht1, heq.symm⟩)
      have : (f a).filter (fun e => e.task = t.Id) = [] := by
        rw [List.filter_eq_nil_iff]
        intro e he
        simp [hf a e he, hne]
      rw [this, List.nil_append]

theorem DistinctIds_reverse {l : List FSharedTimelineTask} (h : DistinctIds l) :
    DistinctIds l.reverse := by
  unfold DistinctIds at *
  rw [List.map_reverse]
  exact List.nodup_reverse.mpr h

theorem DistinctIds_eq {l : List FSharedTimelineTask} (h : DistinctIds l)
    {t u : FSharedTimelineTask} (ht : t ∈ l) (hu : u ∈ l) (hid : u.Id = t.Id) : u = t :=
  List.inj_on_of_nodup_map h hu ht hid

/-- A kept task differs from the visited one in `Elapsed` and `Duration` only. -/
theorem kept_frame {fuel : Nat} {env : Env} {dt : ℚ} {t u : FSharedTimelineTask}
    (h : kept fuel env dt t = some u) :
    u = { t with Elapsed := u.Elapsed, Duration := u.Duration } := by
  unfold kept visit at h
  split at h
  · rename_i r ev hv
    split at hv
    · cases hv; cases h; rfl
    · split at hv
      · cases hv
      · rename_i a ha
        split at hv
        · cases hv; cases h
        · rename_i hfin
          cases hv; cases h
          have := advanceTask_frame ha
          simp only [hfin] at this
          exact this
  · cases h

theorem kept_Calm {fuel : Nat} {env : Env} {dt : ℚ} {t u : FSharedTimelineTask}
    (h : kept fuel env dt t = some u) (hc : Calm env t) : Calm env u := by
  rw [kept_frame h]
  exact hc

theorem DistinctIds_filterMap_kept (fuel : Nat) (env : Env) (dt : ℚ) :
    ∀ l : List FSharedTimelineTask, DistinctIds l →
      DistinctIds (l.filterMap (kept fuel env dt)) := by
  intro l
  induction l with
  | nil => intro h; exact h
  | cons a rest ih =>
    intro h
    unfold DistinctIds at h
    rw [List.map_cons, List.nodup_cons] at h
    rw [List.filterMap_cons]
    split
    · exact ih h.2
    · rename_i u hu
      unfold DistinctIds
      rw [List.map_cons, List.nodup_cons]
      refine ⟨?_, ih h.2⟩
      intro hmem
      obtain ⟨v, hv, hvid⟩ := List.mem_map.mp hmem
      obtain ⟨w, hw, hwv⟩ := List.mem_filterMap.mp hv
      apply h.1
      rw [← visit_kept_Id hu, ← hvid, visit_kept_Id hwv]
      exact List.mem_map.mpr ⟨w, hw, rfl⟩

/-- The outcome of `Tick` for one task of a registry with distinct ids whose visited tasks have
curves and quiet callbacks, in terms of the visit to that task. -/
theorem Tick_task_outcome (env : Env) (dt : ℚ) (s : Sys) (t : FSharedTimelineTask)
    (hd : DistinctIds s.Tasks) (hq : ∀ u ∈ s.Tasks, Calm env u) (ht : t ∈ s.Tasks)
    (M : Nat) (r : Option FSharedTimelineTask) (ev : List Event)
    (hv : ∀ fuel, M ≤ fuel → visit fuel env dt t = .ok (r, ev)) :
    ∃ (N : Nat) (s1 : Sys), (∀ fuel, N ≤ fuel → Tick fuel env dt s = .ok s1) ∧
      s1.NextId = s.NextId ∧ s1.Created = s.Created ∧ (∃ evs, s1.log = s.log ++ evs) ∧
      newEventsOf t.Id s s1 = ev ∧
      (∀ u ∈ s1.Tasks, u.Id = t.Id → r = some u) ∧ (∀ u, r = some u → u ∈ s1.Tasks) ∧
      DistinctIds s1.Tasks ∧ (∀ u ∈ s1.Tasks, Calm env u) := by
  obtain ⟨N0, h0⟩ := Tick_total env dt s hq
  obtain ⟨final, evs, hs, hT⟩ := h0 (max N0 M) (le_max_left _ _)
  obtain ⟨hp, he⟩ := sweep_result _ env dt _ _ _ _ hs
  rw [List.append_nil] at hp
  obtain ⟨hk, hsd⟩ := visit_kept_said (hv (max N0 M) (le_max_right _ _))
  have hmem : ∀ u, u ∈ final ↔ ∃ w ∈ s.Tasks, kept (max N0 M) env dt w = some u := by
    intro u
    rw [hp.mem_iff, List.mem_filterMap]
    simp only [List.mem_reverse]
  refine ⟨max N0 M, _, hT, rfl, rfl, ⟨evs, rfl⟩, ?_, ?_, ?_, ?_, ?_⟩
  · simp only [newEventsOf, List.drop_left, he]
    rw [filter_flatMap_task _ (said_task _ env dt) _ t (DistinctIds_reverse hd)
      (List.mem_reverse.mpr ht), hsd]
  · intro u hu hid
    obtain ⟨w, hw, hwu⟩ := (hmem u).mp hu
    have : w = t := DistinctIds_eq hd ht hw (by rw [← visit_kept_Id hwu, hid])
    rw [← hk, ← this, hwu]
  · intro u hu
    exact (hmem u).mpr ⟨t, ht, by rw [hk, hu]⟩
  · have := DistinctIds_filterMap_kept (max N0 M) env dt _ (DistinctIds_reverse hd)
    unfold DistinctIds at *
    exact (hp.map _).nodup_iff.mpr this
  · intro u hu
    obtain ⟨w, hw, hwu⟩ := (hmem u).mp hu
    exact kept_Calm hwu (hq w hw)

theorem quietEnv_Calm (t : FSharedTimelineTask) (h : t.Curve ≠ none) : Calm quietEnv t :=
  fun _ _ => ⟨⟨fun _ _ _ _ => rfl, fun _ _ _ => rfl⟩, h⟩

theorem trio_Calm : ∀ u ∈ trio.Tasks, Calm quietEnv u := by
  intro u hu
  apply quietEnv_Calm
  simp only [trio, List.mem_cons, List.mem_singleton, List.not_mem_nil, or_false] at hu
  rcases hu with rfl | rfl | rfl <;> simp [mkTask]

theorem trio_DistinctIds : DistinctIds trio.Tasks := by
  simp [DistinctIds, trio, mkTask]

theorem updateEvents_not_finished (t : FSharedTimelineTask) (v : ℚ) :
    ∀ e ∈ updateEvents t v, e.isFinished = false := by
  intro e he
  unfold updateEvents at he
  split at he
  · simp at he; subst he; rfl
  · simp at he

/-- One tick of a looping task in a calm registry. -/
theorem looping_tick (env : Env) (dt : ℚ) (s : Sys) (t : FSharedTimelineTask)
    (hd : DistinctIds s.Tasks) (hq : ∀ u ∈ s.Tasks, Calm env u)
    (ht : t ∈ s.Tasks) (hact : t.IsActive = true) (hp : t.IsPaused = false)
    (hl : t.IsLooping = true) :
    ∃ (N : Nat) (s1 : Sys) (u : FSharedTimelineTask),
      (∀ fuel, N ≤ fuel → Tick fuel env dt s = .ok s1) ∧
      (∃ evs, s1.log = s.log ++ evs) ∧
      (∀ e ∈ newEventsOf t.Id s s1, e.isFinished = false) ∧
      DistinctIds s1.Tasks ∧ (∀ w ∈ s1.Tasks, Calm env w) ∧
      u ∈ s1.Tasks ∧ u.Id = t.Id ∧ u.IsActive = true ∧ u.IsPaused = false ∧
      u.IsLooping = true ∧ 0 < u.Duration ∧ 0 ≤ u.Elapsed ∧ u.Elapsed < u.Duration ∧
      (∃ k : Int, u.Elapsed = steppedElapsed dt t - u.Duration * k) ∧
      resolveDuration env t = .ok u.Duration := by
  obtain ⟨c, hc⟩ := Option.ne_none_iff_exists'.mp (hq t ht hact hp).2
  obtain ⟨D, hD⟩ := resolveDuration_ok env t c hc
  obtain ⟨M, r, k, ha, h0, h1, h2⟩ := advanceTask_looping env dt t c D hl hc hD
  have hv : ∀ fuel, M ≤ fuel → visit fuel env dt t =
      .ok (some { t with Elapsed := r, Duration := D },
        updateEvents { t with Elapsed := r, Duration := D } (reportedValue env t c r)) := by
    intro fuel hf
    simp [visit, hact, hp, ha fuel hf]
  obtain ⟨N, s1, hT, -, -, hlog, hev, -, hmem, hd1, hq1⟩ :=
    Tick_task_outcome env dt s t hd hq ht M _ _ hv
  refine ⟨N, s1, { t with Elapsed := r, Duration := D }, hT, hlog, ?_, hd1, hq1,
    hmem _ rfl, rfl, hact, hp, hl, resolveDuration_pos hD, h0, h1, ⟨k, h2⟩, hD⟩
  rw [hev]
  exact updateEvents_not_finished _ _

theorem newEventsOf_trans (id : Int) (s s1 s2 : Sys) (h1 : ∃ evs, s1.log = s.log ++ evs)
    (h2 : ∃ evs, s2.log = s1.log ++ evs) :
    newEventsOf id s s2 = newEventsOf id s s1 ++ newEventsOf id s1 s2 := by
  obtain ⟨e1, h1⟩ := h1
  obtain ⟨e2, h2⟩ := h2
  simp [newEventsOf, h2, h1, List.append_assoc]

/-- Any number of ticks of a looping task in a calm registry. -/
theorem looping_ticks (env : Env) : ∀ (dts : List ℚ) (s : Sys) (t : FSharedTimelineTask),
    dts ≠ [] → DistinctIds s.Tasks → (∀ u ∈ s.Tasks, Calm env u) → t ∈ s.Tasks →
    t.IsActive = true → t.IsPaused = false → t.IsLooping = true →
    ∃ (N : Nat) (s1 : Sys), (∀ fuel, N ≤ fuel → Ticks fuel env dts s = .ok s1) ∧
      (∃ evs, s1.log = s.log ++ evs) ∧
      (∃ u ∈ s1.Tasks, u.Id = t.Id ∧ 0 < u.Duration ∧ 0 ≤ u.Elapsed ∧ u.Elapsed < u.Duration) ∧
      ∀ e ∈ newEventsOf t.Id s s1, e.isFinished = false := by
  intro dts
  induction dts with
  | nil => intro s t h; exact absurd rfl h
  | cons dt rest ih =>
    intro s t _ hd hq ht hact hp hl
    obtain ⟨N1, s1, u, hT, hlog, hev, hd1, hq1, hu, hid, hact1, hp1, hl1, hdur, h0, h1, -, -⟩ :=
      looping_tick env dt s t hd hq ht hact hp hl
    by_cases hrest : rest = []
    · subst hrest
      refine ⟨N1, s1, ?_, hlog, ⟨u, hu, hid, hdur, h0, h1⟩, hev⟩
      intro fuel hf
      simp [Ticks, hT fuel hf]
    · obtain ⟨N2, s2, hT2, hlog2, ⟨w, hw, hwid, hw1, hw2, hw3⟩, hev2⟩ :=
        ih s1 u hrest hd1 hq1 hu hact1 hp1 hl1
      refine ⟨max N1 N2, s2, ?_, ?_, ⟨w, hw, hwid.trans hid, hw1, hw2, hw3⟩, ?_⟩
      · intro fuel hf
        simp only [Ticks, hT fuel (le_trans (le_max_left _ _) hf)]
        exact hT2 fuel (le_trans (le_max_right _ _) hf)
      · obtain ⟨e1, he1⟩ := hlog
        obtain ⟨e2, he2⟩ := hlog2
        exact ⟨e1 ++ e2, by rw [he2, he1, List.append_assoc]⟩
      · rw [newEventsOf_trans t.Id s s1 s2 hlog hlog2]
        intro e he
        rcases List.mem_append.mp he with h | h
        · exact hev e h
        · rw [← hid] at h
          exact hev2 e h

theorem selfStopper_Tick (n : Nat) : Tick (n + 1) sampleEnv (1 / 2) selfStopper =
    .ok ⟨[], 2, [Event.update 1 true 2 (1 / 2)], 1⟩ := by
  with_unfolding_all rfl

theorem dispatchFinished_eq (run : Runner) (env : Env) (t : FSharedTimelineTask) (s : Sys) :
    dispatchFinished run env t s =
      match finishedCallback t with
      | some (_, cb) => run (env.onFinished cb) { s with log := s.log ++ finishedEvents t }
      | none => .ok s := by
  unfold dispatchFinished finishedEvents finishedCallback
  cases h1 : t.CPP_Finished with
  | some cb => simp
  | none =>
    cases h2 : t.BP_Finished with
    | some cb => simp
    | none => simp

theorem finishedEvents_length (t : FSharedTimelineTask) :
    (finishedEvents t).length = if (finishedCallback t).isSome then 1 else 0 := by
  unfold finishedEvents
  split <;> simp [*]

/-! ### Relations closed under the primitive steps -/

theorem dispatchFinished_closed {R : Sys → Sys → Prop} (hR : StepClosed R) (env : Env) (run : Runner)
    (hrun : ∀ acts s s1, run acts s = .ok s1 → R s s1) (t : FSharedTimelineTask) (s s1 : Sys)
    (h : dispatchFinished run env t s = .ok s1) : R s s1 := by
  unfold dispatchFinished at h
  split at h
  · exact hR.trans _ _ _ (hR.logged s _) (hrun _ _ _ h)
  · split at h
    · exact hR.trans _ _ _ (hR.logged s _) (hrun _ _ _ h)
    · cases h; exact hR.refl _

theorem dispatchUpdate_closed {R : Sys → Sys → Prop} (hR : StepClosed R) (env : Env) (run : Runner)
    (hrun : ∀ acts s s1, run acts s = .ok s1 → R s s1) (t : FSharedTimelineTask) (v : ℚ)
    (s s1 : Sys) (h : dispatchUpdate run env t v s = .ok s1) : R s s1 := by
  unfold dispatchUpdate at h
  split at h
  · exact hR.trans _ _ _ (hR.logged s _) (hrun _ _ _ h)
  · split at h
    · exact hR.trans _ _ _ (hR.logged s _) (hrun _ _ _ h)
    · cases h; exact hR.refl _

theorem StopTimeline_closed {R : Sys → Sys → Prop} (hR : StepClosed R) (env : Env) (run : Runner)
    (hrun : ∀ acts s s1, run acts s = .ok s1 → R s s1) (s s1 : Sys) (h : Int) (fire : Bool)
    (hs : StopTimeline run env s h fire = .ok s1) : R s s1 := by
  unfold StopTimeline at hs
  split at hs
  · cases hs; exact hR.refl _
  · split at hs
    · cases hs
    · split at hs
      · cases hs
      · rename_i s2 hd
        split at hs
        · cases hs
        · rename_i Tasks hrem
          cases hs
          refine hR.trans _ _ _ ?_ (hR.removed s2 _ Tasks hrem)
          cases fire
          · simp at hd; cases hd; exact hR.refl _
          · simp only [if_true] at hd
            exact dispatchFinished_closed hR env run hrun _ _ _ hd

theorem perform_closed {R : Sys → Sys → Prop} (hR : StepClosed R) (env : Env) (run : Runner)
    (hrun : ∀ acts s s1, run acts s = .ok s1 → R s s1) (a : Action) (s s1 : Sys)
    (h : perform run env a s = .ok s1) : R s s1 := by
  cases a with
  | play c d l u f st dOnly ratio => simp [perform] at h; cases h; exact hR.play ..
  | playBP c d l u f st dOnly ratio => simp [perform] at h; cases h; exact hR.playBP ..
  | reverse h1 => simp [perform] at h; cases h; exact hR.reverse ..
  | pause h1 => simp [perform] at h; cases h; exact hR.pause ..
  | resume h1 => simp [perform] at h; cases h; exact hR.resume ..
  | stop h1 fire => exact StopTimeline_closed hR env run hrun _ _ _ _ h

theorem runList_closed {R : Sys → Sys → Prop} (hR : StepClosed R) (env : Env) (run : Runner)
    (hrun : ∀ acts s s1, run acts s = .ok s1 → R s s1) :
    ∀ (acts : List Action) (s s1 : Sys), runList run env acts s = .ok s1 → R s s1 := by
  intro acts
  induction acts with
  | nil => intro s s1 h; simp [runList] at h; cases h; exact hR.refl _
  | cons a rest ih =>
    intro s s1 h
    unfold runList at h
    split at h
    · cases h
    · rename_i s2 hp
      exact hR.trans _ _ _ (perform_closed hR env run hrun a s s2 hp) (ih _ _ h)

theorem runner_closed {R : Sys → Sys → Prop} (hR : StepClosed R) (env : Env) : ∀ (fuel : Nat) (acts : List Action) (s s1 : Sys),
    runner env fuel acts s = .ok s1 → R s s1 := by
  intro fuel
  induction fuel with
  | zero =>
    intro acts s s1 h
    cases acts with
    | nil => simp [runner] at h; cases h; exact hR.refl _
    | cons a rest => simp [runner] at h
  | succ n ih => exact runList_closed hR env _ ih

theorem tickBody_closed {R : Sys → Sys → Prop} (hR : StepClosed R) (env : Env) (fuel : Nat) (dt : ℚ) (i : Nat) (s s1 : Sys)
    (h : tickBody fuel env dt i s = .ok s1) : R s s1 := by
  unfold tickBody at h
  split at h
  · cases h
  · rename_i t ht
    split at h
    · cases h; exact hR.refl _
    · split at h
      · cases h
      · rename_i a ha
        split at h
        · cases h
        · rename_i s2 hu
          have h1 := hR.advanced fuel env dt s i t a ht ha
          have h2 := dispatchUpdate_closed hR env _ (runner_closed hR env fuel) _ _ _ _ hu
          have h12 := hR.trans _ _ _ h1 h2
          split at h
          · split at h
            · cases h
            · split at h
              · cases h
              · rename_i s3 hf
                split at h
                · cases h
                · rename_i Tasks hrem
                  cases h
                  have h3 := dispatchFinished_closed hR env _ (runner_closed hR env fuel) _ _ _ hf
                  exact hR.trans _ _ _ (hR.trans _ _ _ h12 h3) (hR.removed s3 _ Tasks hrem)
          · cases h; exact h12

theorem tickLoop_closed {R : Sys → Sys → Prop} (hR : StepClosed R) (env : Env) (fuel : Nat) (dt : ℚ) : ∀ (n : Nat) (s s1 : Sys),
    tickLoop fuel env dt n s = .ok s1 → R s s1 := by
  intro n
  induction n with
  | zero => intro s s1 h; simp [tickLoop] at h; cases h; exact hR.refl _
  | succ n ih =>
    intro s s1 h
    unfold tickLoop at h
    split at h
    · cases h
    · rename_i s2 hb
      exact hR.trans _ _ _ (tickBody_closed hR env fuel dt n s s2 hb) (ih _ _ h)

theorem call_closed {R : Sys → Sys → Prop} (hR : StepClosed R) (env : Env) (fuel : Nat) (c : Call) (s s1 : Sys) (h : call fuel env c s = .ok s1) :
    R s s1 := by
  cases c with
  | act a => exact perform_closed hR env _ (runner_closed hR env fuel) a s s1 h
  | tick dt => exact tickLoop_closed hR env fuel dt _ s s1 h

theorem Steps_closed {R : Sys → Sys → Prop} (hR : StepClosed R) (s s1 : Sys)
    (h : Steps s s1) : R s s1 := by
  induction h with
  | refl => exact hR.refl _
  | step s1 s2 fuel env c _ hc ih =>
    exact hR.trans _ _ _ ih (call_closed hR env fuel c s1 s2 hc)

/-! ### The id counter -/

theorem wrap32_succ (x : Int) : wrap32 (wrap32 x + 1) = wrap32 (x + 1) := by
  unfold wrap32; omega

theorem wrap32_small (x : Int) (h1 : -2147483648 ≤ x) (h2 : x < 2147483648) : wrap32 x = x := by
  unfold wrap32; omega

/-- Ordered ids stay ordered when the ids are rearranged, some are dropped, and the counter does
not decrease. -/
theorem IdsOrdered_of_ids {s s1 : Sys} (h : IdsOrdered s) (mid : List Int)
    (hp : (s1.Tasks.map (·.Id)).Perm mid) (hsl : mid.Sublist (s.Tasks.map (·.Id)))
    (hn : s.NextId ≤ s1.NextId) : IdsOrdered s1 := by
  obtain ⟨hd, hb⟩ := h
  have hb1 : ∀ id ∈ s.Tasks.map (·.Id), 1 ≤ id ∧ id < s.NextId := by
    intro id hid
    obtain ⟨t, ht, rfl⟩ := List.mem_map.mp hid
    exact hb t ht
  refine ⟨?_, ?_⟩
  · unfold DistinctIds at *
    exact hp.nodup_iff.mpr (hd.sublist hsl)
  · intro t ht
    have := hb1 t.Id (hsl.subset (hp.mem_iff.mp (List.mem_map.mpr ⟨t, ht, rfl⟩)))
    exact ⟨this.1, lt_of_lt_of_le this.2 hn⟩

theorem IdsOrdered_of_ids_eq {s s1 : Sys} (h : IdsOrdered s)
    (hids : s1.Tasks.map (·.Id) = s.Tasks.map (·.Id)) (hn : s.NextId ≤ s1.NextId) :
    IdsOrdered s1 :=
  IdsOrdered_of_ids h _ (List.Perm.refl _) (hids ▸ List.Sublist.refl _) hn

theorem map_Id_set (ts : List FSharedTimelineTask) (i : Nat) (t u : FSharedTimelineTask)
    (ht : ts[i]? = some t) (hu : u.Id = t.Id) : (ts.set i u).map (·.Id) = ts.map (·.Id) := by
  induction ts generalizing i with
  | nil => rfl
  | cons a rest ih =>
    cases i with
    | zero => simp at ht; subst ht; simp [hu]
    | succ j => simp at ht; simp [ih j ht]

theorem map_Id_modifyAt (ts : List FSharedTimelineTask) (i : Nat)
    (f : FSharedTimelineTask → FSharedTimelineTask) (hf : ∀ t, (f t).Id = t.Id) :
    (modifyAt ts i f).map (·.Id) = ts.map (·.Id) := by
  unfold modifyAt
  split
  · rename_i t ht
    exact map_Id_set ts i t (f t) ht (hf t)
  · rfl

/-- A swap-removal that returns removed one element and kept the others. -/
theorem RemoveAtSwap_ok {ts ts1 : List FSharedTimelineTask} {i : Nat}
    (h : RemoveAtSwap ts i = .ok ts1) :
    ∃ pre x post, ts = pre ++ x :: post ∧ pre.length = i ∧ ts1.Perm (pre ++ post) := by
  have hi : i < ts.length := by
    unfold RemoveAtSwap at h
    split at h
    · rename_i v l hv hl
      exact (List.getElem?_eq_some_iff.mp hv).1
    · cases h
  refine ⟨ts.take i, ts[i], ts.drop (i + 1), ?_, by simp [Nat.le_of_lt hi], ?_⟩
  · simp
  · have hdec : ts = ts.take i ++ ts[i] :: ts.drop (i + 1) := by simp
    have hlen : (ts.take i).length = i := by simp [Nat.le_of_lt hi]
    have := RemoveAtSwap_append_cons (ts.take i) ts[i] (ts.drop (i + 1))
    rw [hlen, ← hdec, h] at this
    cases this
    exact (settle_perm none (ts.drop (i + 1))).append_left (ts.take i)

theorem PlayTimeline_some (s : Sys) (c : Nat) (d : ℚ) (l : Bool) (u f : Option Nat) (st : ℚ)
    (dOnly ratio : Bool) :
    ∃ t : FSharedTimelineTask, t.Id = s.NextId ∧
      PlayTimeline s (some c) d l u f st dOnly ratio =
        (s.NextId, ⟨s.Tasks ++ [t], wrap32 (s.NextId + 1), s.log, s.Created + 1⟩) :=
  ⟨_, rfl, rfl⟩

theorem PlayTimeline_BP_some (s : Sys) (c : Nat) (d : ℚ) (l : Bool) (u f : Option Nat) (st : ℚ)
    (dOnly ratio : Bool) :
    ∃ t : FSharedTimelineTask, t.Id = s.NextId ∧
      PlayTimeline_BP s (some c) d l u f st dOnly ratio =
        (s.NextId, ⟨s.Tasks ++ [t], wrap32 (s.NextId + 1), s.log, s.Created + 1⟩) :=
  ⟨_, rfl, rfl⟩

/-- Appending a task with the id of the counter and advancing the counter is an `IdStep`. -/
theorem IdStep_append (s : Sys) (t : FSharedTimelineTask) (ht : t.Id = s.NextId) :
    IdStep s ⟨s.Tasks ++ [t], wrap32 (s.NextId + 1), s.log, s.Created + 1⟩ := by
  refine ⟨Nat.le_succ _, fun hI => ⟨?_, fun hc => ?_⟩⟩
  · simp only [hI.1, wrap32_succ]
    congr 1
  · simp only [idLimit] at hc
    obtain ⟨hd, hb⟩ := hI.2 (by simp only [idLimit]; omega)
    have hn : s.NextId = 1 + s.Created := by
      rw [hI.1]; exact wrap32_small _ (by omega) (by omega)
    have hn1 : wrap32 (s.NextId + 1) = s.NextId + 1 := wrap32_small _ (by omega) (by omega)
    refine ⟨?_, ?_⟩
    · unfold DistinctIds at *
      simp only [List.map_append, List.map_cons, List.map_nil]
      refine List.Nodup.append hd (List.nodup_singleton _) ?_
      intro id h1 h2
      obtain ⟨w, hw, rfl⟩ := List.mem_map.mp h1
      simp only [List.mem_singleton] at h2
      have := (hb w hw).2
      omega
    · intro w hw
      simp only [hn1]
      rcases List.mem_append.mp hw with h | h
      · have := hb w h
        omega
      · simp only [List.mem_singleton] at h
        subst h
        omega

theorem IdStep_closed : StepClosed IdStep where
  refl := fun s => ⟨le_refl _, id⟩
  trans := fun a b c h1 h2 => ⟨le_trans h1.1 h2.1, fun h => h2.2 (h1.2 h)⟩
  play := by
    intro s c d l u f st dOnly ratio
    cases c with
    | none => exact ⟨le_refl _, id⟩
    | some c =>
      obtain ⟨t, ht, h⟩ := PlayTimeline_some s c d l u f st dOnly ratio
      rw [h]
      exact IdStep_append s t ht
  playBP := by
    intro s c d l u f st dOnly ratio
    cases c with
    | none => exact ⟨le_refl _, id⟩
    | some c =>
      obtain ⟨t, ht, h⟩ := PlayTimeline_BP_some s c d l u f st dOnly ratio
      rw [h]
      exact IdStep_append s t ht
  reverse := by
    intro s h
    refine ⟨?_, ?_⟩
    · unfold ReverseTimeline; split <;> exact le_refl _
    · intro hI
      unfold ReverseTimeline
      split
      · exact ⟨hI.1, fun hc => IdsOrdered_of_ids_eq (hI.2 hc)
          (map_Id_modifyAt _ _ _ (fun t => FSharedTimelineTask.Id_SetReverse t true)) (le_refl _)⟩
      · exact hI
  pause := by
    intro s h
    refine ⟨?_, ?_⟩
    · unfold PauseTimeline; split <;> exact le_refl _
    · intro hI
      unfold PauseTimeline
      split
      · exact ⟨hI.1, fun hc => IdsOrdered_of_ids_eq (hI.2 hc)
          (map_Id_modifyAt _ _ _ (fun t => FSharedTimelineTask.Id_SetPaused t true)) (le_refl _)⟩
      · exact hI
  resume := by
    intro s h
    refine ⟨?_, ?_⟩
    · unfold ResumeTimeline; split <;> exact le_refl _
    · intro hI
      unfold ResumeTimeline
      split
      · exact ⟨hI.1, fun hc => IdsOrdered_of_ids_eq (hI.2 hc)
          (map_Id_modifyAt _ _ _ (fun t => FSharedTimelineTask.Id_SetPaused t false)) (le_refl _)⟩
      · exact hI
  logged := fun s evs => ⟨le_refl _, fun hI => ⟨hI.1, fun hc =>
    IdsOrdered_of_ids_eq (hI.2 hc) rfl (le_refl _)⟩⟩
  removed := by
    intro s i Tasks hrem
    obtain ⟨pre, x, post, hs, -, hp⟩ := RemoveAtSwap_ok hrem
    refine ⟨le_refl _, fun hI => ⟨hI.1, fun hc => IdsOrdered_of_ids (hI.2 hc)
      ((pre ++ post).map (·.Id)) (hp.map _) ?_ (le_refl _)⟩⟩
    rw [hs]
    exact ((List.sublist_cons_self x post).append_left pre).map _
  advanced := by
    intro fuel env dt s i t a ht ha
    exact ⟨le_refl _, fun hI => ⟨hI.1, fun hc => IdsOrdered_of_ids_eq (hI.2 hc)
      (map_Id_set _ _ _ _ ht (advanceTask_Id ha)) (le_refl _)⟩⟩

theorem IdsFresh_init : IdsFresh Sys.init := by
  refine ⟨by with_unfolding_all rfl, fun _ => ⟨?_, ?_⟩⟩
  · simp [DistinctIds, Sys.init]
  · simp [Sys.init]

/-- Every reachable state has fresh ids. -/
theorem Reachable_IdsFresh (s : Sys) (h : Reachable s) : IdsFresh s :=
  (Steps_closed IdStep_closed _ _ h).2 IdsFresh_init

theorem playVia_some (bp : Bool) (s : Sys) (c : Nat) (d : ℚ) (l : Bool) (u f : Option Nat)
    (st : ℚ) (dOnly ratio : Bool) :
    ∃ t : FSharedTimelineTask, t.Id = s.NextId ∧
      playVia bp s (some c) d l u f st dOnly ratio =
        (s.NextId, ⟨s.Tasks ++ [t], wrap32 (s.NextId + 1), s.log, s.Created + 1⟩) := by
  cases bp
  · exact PlayTimeline_some s c d l u f st dOnly ratio
  · exact PlayTimeline_BP_some s c d l u f st dOnly ratio

theorem play_on_empty (k : Int) (n : Nat) :
    call 0 quietEnv (.act (.play (some 0) 1 false none none 0 false false)) ⟨[], k, [], n⟩ =
      .ok ⟨[mkTask k 0 1 0 1 none none], wrap32 (k + 1), [], n + 1⟩ := by
  simp only [call, perform, PlayTimeline, SetBasePropertiesOfNewTask, mkTask, List.nil_append,
    FSharedTimelineTask.SetLooping, FSharedTimelineTask.SetActive, FSharedTimelineTask.SetPaused,
    FSharedTimelineTask.SetDurationOnly, FSharedTimelineTask.default]
  rfl

theorem stop_single (k m : Int) (n : Nat) :
    call 0 quietEnv (.act (.stop k false)) ⟨[mkTask k 0 1 0 1 none none], m, [], n⟩ =
      .ok ⟨[], m, [], n⟩ := by
  simp only [call, perform, StopTimeline, FindTaskIndexById, mkTask, if_true,
    List.getElem?_cons_zero, Bool.false_eq_true, if_false]
  rfl

/-- Creating a task and stopping it again, `n` times over, from the fresh subsystem. -/
theorem Reachable_empty (n : Nat) : Reachable ⟨[], wrap32 (1 + n), [], n⟩ := by
  induction n with
  | zero => exact Steps.refl _
  | succ n ih =>
    have h := Steps.step _ _ _ 0 quietEnv _ (Steps.step _ _ _ 0 quietEnv _ ih (play_on_empty _ _))
      (stop_single _ _ _)
    rw [wrap32_succ] at h
    exact h

theorem Reachable_playedOnce : Reachable playedOnce := by
  have h1 := Steps.step _ _ _ 0 quietEnv _ (Reachable_empty 0) (play_on_empty _ _)
  have e1 : wrap32 (1 + ((0 : Nat) : Int)) = 1 := by unfold wrap32; norm_num
  have e2 : wrap32 (1 + 1) = 2 := by unfold wrap32; norm_num
  rw [e1, e2] at h1
  exact h1

theorem Reachable_wrappedOnce : Reachable wrappedOnce := by
  have h := Reachable_empty 2147483647
  have h1 := Steps.step _ _ _ 0 quietEnv _ h (play_on_empty _ _)
  have e1 : wrap32 (1 + ((2147483647 : Nat) : Int)) = -2147483648 := by
    unfold wrap32; norm_num
  have e2 : wrap32 (-2147483648 + 1) = -2147483647 := by unfold wrap32; norm_num
  rw [e1, e2] at h1
  exact h1

theorem Reachable_counterAtSentinel : Reachable counterAtSentinel := by
  have h := Reachable_empty 4294967294
  have e1 : wrap32 (1 + ((4294967294 : Nat) : Int)) = -1 := by unfold wrap32; norm_num
  rw [e1] at h
  exact h

theorem Reachable_sentinelLive : Reachable sentinelLive := by
  have h1 := Steps.step _ _ _ 0 quietEnv _ Reachable_counterAtSentinel (play_on_empty _ _)
  have e2 : wrap32 (-1 + 1) = 0 := by unfold wrap32; norm_num
  rw [e2] at h1
  exact h1

/-- The flag word `SetBasePropertiesOfNewTask` leaves in a default-constructed task. -/
theorem newTask_flags (l o : Bool) :
    hasFlag Active (setFlag DurationOnly o (setFlag Paused false (setFlag Active true
      (setFlag Looping l (Fin.ofNat Active))))) = true ∧
    hasFlag Paused (setFlag DurationOnly o (setFlag Paused false (setFlag Active true
      (setFlag Looping l (Fin.ofNat Active))))) = false ∧
    hasFlag Looping (setFlag DurationOnly o (setFlag Paused false (setFlag Active true
      (setFlag Looping l (Fin.ofNat Active))))) = l ∧
    hasFlag DurationOnly (setFlag DurationOnly o (setFlag Paused false (setFlag Active true
      (setFlag Looping l (Fin.ofNat Active))))) = o ∧
    hasFlag Reverse (setFlag DurationOnly o (setFlag Paused false (setFlag Active true
      (setFlag Looping l (Fin.ofNat Active))))) = false ∧
    hasFlag Ratio (setFlag DurationOnly o (setFlag Paused false (setFlag Active true
      (setFlag Looping l (Fin.ofNat Active))))) = false := by
  cases l <;> cases o <;> decide

/-! ### Tasks across calls -/

theorem Stable.refl (u : FSharedTimelineTask) : Stable u u :=
  ⟨rfl, rfl, rfl, rfl, rfl, rfl, rfl, rfl, rfl, id, fun _ => rfl⟩

theorem Stable.trans {a b c : FSharedTimelineTask} (h1 : Stable a b) (h2 : Stable b c) :
    Stable a c := by
  obtain ⟨a1, a2, a3, a4, a5, a6, a7, a8, a9, a10, a11⟩ := h1
  obtain ⟨b1, b2, b3, b4, b5, b6, b7, b8, b9, b10, b11⟩ := h2
  refine ⟨b1.trans a1, b2.trans a2, b3.trans a3, b4.trans a4, b5.trans a5, b6.trans a6,
    b7.trans a7, b8.trans a8, b9.trans a9, fun h => b10 (a10 h), fun h => ?_⟩
  have := a11 h
  rw [b11 (this ▸ h), this]

theorem Descends_of_tasks (s s1 : Sys) (hc : s1.Created = s.Created) (hn : s1.NextId = s.NextId)
    (h : ∀ u1 ∈ s1.Tasks, ∃ u ∈ s.Tasks, Stable u u1) : Descends s s1 :=
  ⟨by rw [hc], fun hl => ⟨by rw [hn, hc]; exact hl, fun u1 hu1 => Or.inl (h u1 hu1)⟩⟩

theorem mem_modifyAt {ts : List FSharedTimelineTask} {i : Nat}
    {f : FSharedTimelineTask → FSharedTimelineTask} {u1 : FSharedTimelineTask}
    (h : u1 ∈ modifyAt ts i f) : u1 ∈ ts ∨ ∃ u ∈ ts, u1 = f u := by
  unfold modifyAt at h
  split at h
  · rename_i t ht
    rcases List.mem_or_eq_of_mem_set h with h1 | h1
    · exact Or.inl h1
    · exact Or.inr ⟨t, List.getElem?_mem ht, h1⟩
  · exact Or.inl h

theorem Stable_modifyAt {s : Sys} {i : Nat} {f : FSharedTimelineTask → FSharedTimelineTask}
    (hf : ∀ u, Stable u (f u)) : Descends s { s with Tasks := modifyAt s.Tasks i f } := by
  refine Descends_of_tasks _ _ rfl rfl ?_
  intro u1 hu1
  rcases mem_modifyAt hu1 with h | ⟨u, hu, rfl⟩
  · exact ⟨u1, h, Stable.refl _⟩
  · exact ⟨u, hu, hf u⟩

theorem Stable_SetReverse (u : FSharedTimelineTask) : Stable u (u.SetReverse true) :=
  ⟨rfl, rfl, rfl, rfl, rfl, rfl, by simp, by simp, by simp, fun _ => by simp, fun _ => rfl⟩

theorem Stable_SetPaused (u : FSharedTimelineTask) (b : Bool) : Stable u (u.SetPaused b) :=
  ⟨rfl, rfl, rfl, rfl, rfl, rfl, by simp, by simp, by simp, fun h => by simpa using h,
    fun _ => rfl⟩

/-- The duration a tick leaves in a task is the resolved one. -/
theorem advanceTask_Duration {fuel : Nat} {env : Env} {dt : ℚ} {t : FSharedTimelineTask}
    {a : Advanced} (h : advanceTask fuel env dt t = .ok a) :
    resolveDuration env t = .ok a.Task.Duration := by
  unfold advanceTask at h
  simp only at h
  split at h
  · cases h
  · rename_i D hD
    split at h
    · cases h
    · rename_i Elapsed bJust _
      split at h
      · cases h
      · cases h
        have : resolveDuration env t = .ok D := hD
        cases bJust <;> simpa using this

theorem Stable_advanceTask {fuel : Nat} {env : Env} {dt : ℚ} {t : FSharedTimelineTask}
    {a : Advanced} (h : advanceTask fuel env dt t = .ok a) : Stable t a.Task := by
  have hfr := advanceTask_frame h
  have hdur : 0 < t.Duration → a.Task.Duration = t.Duration := by
    intro hpos
    have h1 := advanceTask_Duration h
    rw [resolveDuration_of_pos env t hpos] at h1
    injection h1 with h1
    exact h1.symm
  rw [hfr]
  split
  · refine ⟨rfl, rfl, rfl, rfl, rfl, rfl, ?_, ?_, ?_, fun hr => ?_, ?_⟩
    · exact FSharedTimelineTask.IsLooping_SetActive _ _
    · exact FSharedTimelineTask.IsDurationOnly_SetActive _ _
    · exact FSharedTimelineTask.IsRatio_SetActive _ _
    · rw [FSharedTimelineTask.IsReversing_SetActive]; exact hr
    · exact hdur
  · exact ⟨rfl, rfl, rfl, rfl, rfl, rfl, rfl, rfl, rfl, id, hdur⟩

theorem Descends_append (s : Sys) (t : FSharedTimelineTask) (ht : t.Id = s.NextId)
    (hc : t.Curve ≠ none) :
    Descends s ⟨s.Tasks ++ [t], wrap32 (s.NextId + 1), s.log, s.Created + 1⟩ := by
  refine ⟨Nat.le_succ _, fun hl => ⟨?_, fun u1 hu1 => ?_⟩⟩
  · simp only [hl, wrap32_succ]
    congr 1
  · rcases List.mem_append.mp hu1 with h | h
    · exact Or.inl ⟨u1, h, Stable.refl _⟩
    · simp only [List.mem_singleton] at h
      subst h
      exact Or.inr ⟨s.Created, le_refl _, Nat.lt_succ_self _, by rw [ht, hl], hc⟩

theorem PlayTimeline_some_curve (s : Sys) (c : Nat) (d : ℚ) (l : Bool) (u f : Option Nat)
    (st : ℚ) (dOnly ratio : Bool) :
    ∃ t : FSharedTimelineTask, t.Id = s.NextId ∧ t.Curve = some c ∧
      PlayTimeline s (some c) d l u f st dOnly ratio =
        (s.NextId, ⟨s.Tasks ++ [t], wrap32 (s.NextId + 1), s.log, s.Created + 1⟩) :=
  ⟨_, rfl, rfl, rfl⟩

theorem PlayTimeline_BP_some_curve (s : Sys) (c : Nat) (d : ℚ) (l : Bool) (u f : Option Nat)
    (st : ℚ) (dOnly ratio : Bool) :
    ∃ t : FSharedTimelineTask, t.Id = s.NextId ∧ t.Curve = some c ∧
      PlayTimeline_BP s (some c) d l u f st dOnly ratio =
        (s.NextId, ⟨s.Tasks ++ [t], wrap32 (s.NextId + 1), s.log, s.Created + 1⟩) :=
  ⟨_, rfl, rfl, rfl⟩

theorem Descends_refl (s : Sys) : Descends s s :=
  Descends_of_tasks _ _ rfl rfl (fun u hu => ⟨u, hu, Stable.refl _⟩)

theorem Descends_closed : StepClosed Descends where
  refl := Descends_refl
  trans := by
    intro a b c h1 h2
    refine ⟨le_trans h1.1 h2.1, fun hl => ?_⟩
    obtain ⟨hlb, hb⟩ := h1.2 hl
    obtain ⟨hlc, hc⟩ := h2.2 hlb
    refine ⟨hlc, fun u2 hu2 => ?_⟩
    rcases hc u2 hu2 with ⟨u1, hu1, hs12⟩ | ⟨k, hk1, hk2, hk3, hk4⟩
    · rcases hb u1 hu1 with ⟨u, hu, hs01⟩ | ⟨k, hk1, hk2, hk3, hk4⟩
      · exact Or.inl ⟨u, hu, hs01.trans hs12⟩
      · exact Or.inr ⟨k, hk1, lt_of_lt_of_le hk2 h2.1, by rw [hs12.1, hk3],
          by rw [hs12.2.1]; exact hk4⟩
    · exact Or.inr ⟨k, le_trans h1.1 hk1, hk2, hk3, hk4⟩
  play := by
    intro s c d l u f st dOnly ratio
    cases c with
    | none => exact Descends_refl s
    | some c =>
      obtain ⟨t, ht, hc, h⟩ := PlayTimeline_some_curve s c d l u f st dOnly ratio
      rw [h]
      exact Descends_append s t ht (by simp [hc])
  playBP := by
    intro s c d l u f st dOnly ratio
    cases c with
    | none => exact Descends_refl s
    | some c =>
      obtain ⟨t, ht, hc, h⟩ := PlayTimeline_BP_some_curve s c d l u f st dOnly ratio
      rw [h]
      exact Descends_append s t ht (by simp [hc])
  reverse := by
    intro s h
    unfold ReverseTimeline
    split
    · exact Stable_modifyAt Stable_SetReverse
    · exact Descends_refl s
  pause := by
    intro s h
    unfold PauseTimeline
    split
    · exact Stable_modifyAt (fun u => Stable_SetPaused u true)
    · exact Descends_refl s
  resume := by
    intro s h
    unfold ResumeTimeline
    split
    · exact Stable_modifyAt (fun u => Stable_SetPaused u false)
    · exact Descends_refl s
  logged := fun s evs => Descends_of_tasks _ _ rfl rfl (fun u hu => ⟨u, hu, Stable.refl _⟩)
  removed := by
    intro s i Tasks hrem
    obtain ⟨pre, x, post, hs, -, hp⟩ := RemoveAtSwap_ok hrem
    refine Descends_of_tasks _ _ rfl rfl ?_
    intro u hu
    refine ⟨u, ?_, Stable.refl _⟩
    rw [hs]
    rcases List.mem_append.mp (hp.mem_iff.mp hu) with h | h
    · exact List.mem_append_left _ h
    · exact List.mem_append_right _ (List.mem_cons_of_mem _ h)
  advanced := by
    intro fuel env dt s i t a ht ha
    refine Descends_of_tasks _ _ rfl rfl ?_
    intro u hu
    rcases List.mem_or_eq_of_mem_set hu with h | h
    · exact ⟨u, h, Stable.refl _⟩
    · exact ⟨t, List.getElem?_mem ht, h ▸ Stable_advanceTask ha⟩

/-- In a state with ordered ids, a task reached from it that carries the id of a task `t` of the
state descends from `t`, as long as the id counter has not wrapped. -/
theorem Stable_of_Steps {s s1 : Sys} (hI : IdsFresh s) (hs : Steps s s1)
    (hlim : s1.Created < idLimit) {t u1 : FSharedTimelineTask} (ht : t ∈ s.Tasks)
    (hu1 : u1 ∈ s1.Tasks) (hid : u1.Id = t.Id) : Stable t u1 := by
  obtain ⟨hmono, hd⟩ := Steps_closed Descends_closed _ _ hs
  obtain ⟨-, hall⟩ := hd hI.1
  have hO := hI.2 (lt_of_le_of_lt hmono hlim)
  rcases hall u1 hu1 with ⟨u, hu, hst⟩ | ⟨k, hk1, hk2, hk3, -⟩
  · have : u = t := DistinctIds_eq hO.1 ht hu (by rw [← hst.1, hid])
    rw [← this]
    exact hst
  · exfalso
    have h1 := (hO.2 t ht).2
    have h2 : s.NextId = 1 + s.Created := by
      rw [hI.1]
      exact wrap32_small _ (by omega) (by simp only [idLimit] at hlim; omega)
    have h3 : wrap32 (1 + (k : Int)) = 1 + k :=
      wrap32_small _ (by omega) (by simp only [idLimit] at hlim; omega)
    rw [← hid, hk3, h3, h2] at h1
    omega

theorem resolveDuration_unresolved (env : Env) (t : FSharedTimelineTask) (c : Nat)
    (hc : t.Curve = some c) (hd : t.Duration ≤ 0) :
    resolveDuration env t = .ok (rangeDuration env c) := by
  unfold resolveDuration rangeDuration
  simp only [hd, if_true, hc]
  by_cases h : (env.timeRange c).2 - (env.timeRange c).1 ≤ 0
  · simp [h, not_lt.mpr h]
  · simp [h, not_le.mp h]

theorem visit_some {fuel : Nat} {env : Env} {dt : ℚ} {t u : FSharedTimelineTask}
    {ev : List Event} (h : visit fuel env dt t = .ok (some u, ev)) (hact : t.IsActive = true)
    (hp : t.IsPaused = false) : ∃ a, advanceTask fuel env dt t = .ok a ∧ u = a.Task := by
  simp only [visit, hact, hp, Bool.not_true, Bool.or_false, Bool.false_eq_true, if_false] at h
  split at h
  · cases h
  · rename_i a ha
    split at h
    · cases h
    · cases h; exact ⟨a, ha, rfl⟩

theorem playedOnce_tick : call 0 quietEnv (.tick (1 / 2)) playedOnce =
    .ok ⟨[mkTask 1 0 1 (1 / 2) 1 none none], 2, [], 1⟩ := by
  with_unfolding_all rfl

theorem unresolvedLoop_Calm :
    ∀ u ∈ [mkTask 1 1 0 0 5 none none], Calm quietEnv u := by
  intro u hu
  apply quietEnv_Calm
  simp only [List.mem_singleton] at hu
  subst hu
  simp [mkTask]

/-! ### The wrapping loops and the closed form -/

theorem floorModulo_unique (D e r : ℚ) (k : Int) (hD : 0 < D) (h0 : 0 ≤ r) (h1 : r < D)
    (h : r = e - D * k) : r = floorModulo e D := by
  have hk : Rat.floor (e / D) = k := by
    have h2 : Int.floor (e / D) = k := by
      rw [Int.floor_eq_iff]
      constructor
      · rw [le_div_iff₀ hD]; linarith
      · rw [div_lt_iff₀ hD]; linarith
    rw [← h2]; rfl
  unfold floorModulo
  rw [hk, h]

/-- For a positive duration the two wrapping loops, run one after the other with enough fuel,
return the closed form. -/
theorem wrap_floorModulo (d : ℚ) (hd : 0 < d) (e : ℚ) :
    ∃ N : Nat, ∀ fuel, N ≤ fuel → ∃ e1, wrapDown d fuel e = some e1 ∧
      wrapUp d fuel e1 = some (floorModulo e d) := by
  obtain ⟨N, r, k, hw, h0, h1, h2⟩ := wrap_terminates d hd e
  refine ⟨N, fun fuel hf => ?_⟩
  obtain ⟨e1, hd1, hu1⟩ := hw fuel hf
  exact ⟨e1, hd1, by rw [hu1, floorModulo_unique d e r k hd h0 h1 h2]⟩

theorem advanceTask_floorModulo (env : Env) (dt : ℚ) (t : FSharedTimelineTask)
    (c : Nat) (D : ℚ) (hl : t.IsLooping = true) (hc : t.Curve = some c)
    (hD : resolveDuration env t = .ok D) :
    ∃ N : Nat, ∀ fuel, N ≤ fuel → advanceTask fuel env dt t =
      .ok ⟨{ t with Elapsed := floorModulo (steppedElapsed dt t) D, Duration := D },
        reportedValue env t c (floorModulo (steppedElapsed dt t) D), false⟩ := by
  obtain ⟨N, r, k, ha, h0, h1, h2⟩ := advanceTask_looping env dt t c D hl hc hD
  have := floorModulo_unique D _ r k (resolveDuration_pos hD) h0 h1 h2
  rw [← this]
  exact ⟨N, ha⟩




theorem loopingPlayed_tick (n : Nat) : Tick (n + 2) quietEnv (1 / 2) loopingPlayed =
    .ok ⟨[mkTask 1 0 1 (3 / 10) 5 (some 5) (some 6)], 2, [Event.update 1 true 5 (3 / 10)], 1⟩ := by
  with_unfolding_all rfl

theorem loopingPlayed_tick_again (n : Nat) : Tick (n + 2) quietEnv (1 / 2)
      ⟨[mkTask 1 0 1 (3 / 10) 5 (some 5) (some 6)], 2, [Event.update 1 true 5 (3 / 10)], 1⟩ =
    .ok ⟨[mkTask 1 0 1 (4 / 5) 5 (some 5) (some 6)], 2,
      [Event.update 1 true 5 (3 / 10), Event.update 1 true 5 (4 / 5)], 1⟩ := by
  with_unfolding_all rfl

theorem loopingPlayed_ticks (n : Nat) : Ticks (n + 2) quietEnv [1 / 2, 1 / 2] loopingPlayed =
    .ok ⟨[mkTask 1 0 1 (4 / 5) 5 (some 5) (some 6)], 2,
      [Event.update 1 true 5 (3 / 10), Event.update 1 true 5 (4 / 5)], 1⟩ := by
  simp only [Ticks, loopingPlayed_tick, loopingPlayed_tick_again]

theorem floorModulo_sample : floorModulo (4 / 5 + 1 / 2) 1 = 3 / 10 ∧
    floorModulo (3 / 10 + 1 / 2) 1 = 4 / 5 := by
  constructor
  · exact (floorModulo_unique 1 _ _ 1 (by norm_num) (by norm_num) (by norm_num) (by norm_num)).symm
  · exact (floorModulo_unique 1 _ _ 0 (by norm_num) (by norm_num) (by norm_num) (by norm_num)).symm

/-! ### Paused tasks -/

/-- In a registry with distinct ids whose visited tasks have curves and callbacks that make no
call, `Tick` leaves a paused task as it is, still found by its handle, and records no invocation
of its callbacks. -/
theorem paused_task_skipped (env : Env) (dt : ℚ) (s : Sys) (t : FSharedTimelineTask)
    (hd : DistinctIds s.Tasks) (hq : ∀ u ∈ s.Tasks, Calm env u) (ht : t ∈ s.Tasks)
    (hp : t.IsPaused = true) :
    ∃ (N : Nat) (s1 : Sys), (∀ fuel, N ≤ fuel → Tick fuel env dt s = .ok s1) ∧
      t ∈ s1.Tasks ∧ (∀ u ∈ s1.Tasks, u.Id = t.Id → u = t) ∧ newEventsOf t.Id s s1 = [] ∧
      (∃ i, FindTaskIndexById s1.Tasks t.Id = some i ∧ s1.Tasks[i]? = some t) ∧
      IsTimelineActive s1 t.Id = false := by
  have hv : ∀ fuel, 0 ≤ fuel → visit fuel env dt t = .ok (some t, []) := by
    intro fuel _
    simp [visit, hp]
  obtain ⟨N, s1, hT, -, -, -, hev, hsame, hmem, hd1, -⟩ :=
    Tick_task_outcome env dt s t hd hq ht 0 _ _ hv
  have hin : t ∈ s1.Tasks := hmem t rfl
  have huniq : ∀ u ∈ s1.Tasks, u.Id = t.Id → u = t := by
    intro u hu hid
    have := hsame u hu hid
    injection this with this
    exact this.symm
  have hfind : ∃ i, FindTaskIndexById s1.Tasks t.Id = some i ∧ s1.Tasks[i]? = some t := by
    cases hf : FindTaskIndexById s1.Tasks t.Id with
    | none => exact absurd rfl (FindTaskIndexById_eq_none.mp hf t hin)
    | some i =>
      obtain ⟨pre, u, post, h1, h2, h3, -⟩ := FindTaskIndexById_eq_some hf
      have hu : u ∈ s1.Tasks := by rw [h1]; simp
      have := huniq u hu h3
      subst this
      exact ⟨i, rfl, by rw [h1, ← h2]; exact getElem?_append_cons pre u post⟩
  refine ⟨N, s1, hT, hin, huniq, hev, hfind, ?_⟩
  obtain ⟨i, hi1, hi2⟩ := hfind
  simp [IsTimelineActive, hi1, hi2, hp]


/-! ### The loop body, case by case -/

theorem tickBody_skip {fuel : Nat} {env : Env} {dt : ℚ} {i : Nat} {s : Sys}
    (Task : FSharedTimelineTask) (h0 : s.Tasks[i]? = some Task)
    (hv : (!Task.IsActive || Task.IsPaused) = true) : tickBody fuel env dt i s = .ok s := by
  simp only [tickBody, h0, hv, if_true]

theorem tickBody_continue {fuel : Nat} {env : Env} {dt : ℚ} {i : Nat} {s : Sys}
    (Task : FSharedTimelineTask) (a : Advanced) (s1 : Sys) (h0 : s.Tasks[i]? = some Task)
    (hv : (!Task.IsActive || Task.IsPaused) = false) (ha : advanceTask fuel env dt Task = .ok a)
    (hu : dispatchUpdate (runner env fuel) env a.Task a.Value
      { s with Tasks := s.Tasks.set i a.Task } = .ok s1)
    (hfin : a.bJustFinished = false) : tickBody fuel env dt i s = .ok s1 := by
  simp only [tickBody, h0, hv, Bool.false_eq_true, if_false, ha, hu, hfin]

theorem tickBody_finish {fuel : Nat} {env : Env} {dt : ℚ} {i : Nat} {s : Sys}
    (Task : FSharedTimelineTask) (a : Advanced) (s1 : Sys) (Cur : FSharedTimelineTask)
    (s2 : Sys) (Tasks : List FSharedTimelineTask) (h0 : s.Tasks[i]? = some Task)
    (hv : (!Task.IsActive || Task.IsPaused) = false) (ha : advanceTask fuel env dt Task = .ok a)
    (hu : dispatchUpdate (runner env fuel) env a.Task a.Value
      { s with Tasks := s.Tasks.set i a.Task } = .ok s1)
    (hfin : a.bJustFinished = true) (hcur : s1.Tasks[i]? = some Cur)
    (hf : dispatchFinished (runner env fuel) env Cur s1 = .ok s2)
    (hr : RemoveAtSwap s2.Tasks i = .ok Tasks) :
    tickBody fuel env dt i s = .ok { s2 with Tasks := Tasks } := by
  simp only [tickBody, h0, hv, Bool.false_eq_true, if_false, ha, hu, hfin, if_true, hcur, hf, hr]

theorem tickBody_stale {fuel : Nat} {env : Env} {dt : ℚ} {i : Nat} {s : Sys}
    (Task : FSharedTimelineTask) (a : Advanced) (s1 : Sys) (h0 : s.Tasks[i]? = some Task)
    (hv : (!Task.IsActive || Task.IsPaused) = false) (ha : advanceTask fuel env dt Task = .ok a)
    (hu : dispatchUpdate (runner env fuel) env a.Task a.Value
      { s with Tasks := s.Tasks.set i a.Task } = .ok s1)
    (hfin : a.bJustFinished = true) (hcur : s1.Tasks[i]? = none) :
    tickBody fuel env dt i s = .error .outOfBounds := by
  simp only [tickBody, h0, hv, Bool.false_eq_true, if_false, ha, hu, hfin, if_true, hcur]

/-! ### Ticks of the sample registries with re-entrant callbacks -/

theorem pausedBystander_Tick (n : Nat) : Tick (n + 1) sampleEnv 2 pausedBystander =
    .ok ⟨[], 3, [Event.update 1 true 2 1, Event.finished 2 true 8], 2⟩ := by
  have h1 : tickBody (n + 1) sampleEnv 2 1 pausedBystander = .ok pausedBystander :=
    tickBody_skip (mkTask 2 0 1 0 3 (some 7) (some 8)) rfl (by decide)
  have h0 : tickBody (n + 1) sampleEnv 2 0 pausedBystander =
      .ok ⟨[], 3, [Event.update 1 true 2 1, Event.finished 2 true 8], 2⟩ :=
    tickBody_finish (mkTask 1 0 1 0 1 (some 2) none) ⟨mkTask 1 0 1 1 0 (some 2) none, 1, true⟩
      ⟨[mkTask 2 0 1 0 3 (some 7) (some 8)], 3, [Event.update 1 true 2 1], 2⟩
      (mkTask 2 0 1 0 3 (some 7) (some 8))
      ⟨[mkTask 2 0 1 0 3 (some 7) (some 8)], 3,
        [Event.update 1 true 2 1, Event.finished 2 true 8], 2⟩ []
      rfl (by decide) (by with_unfolding_all rfl) (by with_unfolding_all rfl) rfl rfl
      (by with_unfolding_all rfl) (by rfl)
  show tickLoop _ _ _ 2 _ = _
  simp only [tickLoop, h1, h0]

theorem stopsOther_Tick (n : Nat) : Tick (n + 1) sampleEnv 1 stopsOther =
    .ok ⟨[mkTask 2 0 10 2 1 (some 2) none], 3,
      [Event.update 2 true 2 1, Event.update 2 true 2 2], 2⟩ := by
  have h1 : tickBody (n + 1) sampleEnv 1 1 stopsOther =
      .ok ⟨[mkTask 2 0 10 1 1 (some 2) none], 3, [Event.update 2 true 2 1], 2⟩ :=
    tickBody_continue (mkTask 2 0 10 0 1 (some 2) none) ⟨mkTask 2 0 10 1 1 (some 2) none, 1, false⟩
      _ rfl (by decide) (by with_unfolding_all rfl) (by with_unfolding_all rfl) rfl
  have h0 : tickBody (n + 1) sampleEnv 1 0
      ⟨[mkTask 2 0 10 1 1 (some 2) none], 3, [Event.update 2 true 2 1], 2⟩ =
      .ok ⟨[mkTask 2 0 10 2 1 (some 2) none], 3,
        [Event.update 2 true 2 1, Event.update 2 true 2 2], 2⟩ :=
    tickBody_continue (mkTask 2 0 10 1 1 (some 2) none) ⟨mkTask 2 0 10 2 1 (some 2) none, 2, false⟩
      _ rfl (by decide) (by with_unfolding_all rfl) (by with_unfolding_all rfl) rfl
  show tickLoop _ _ _ 2 _ = _
  simp only [tickLoop, h1, h0]

theorem stopsOther_Tick_finishing (n : Nat) :
    Tick (n + 1) sampleEnv 10 stopsOther = .error .outOfBounds := by
  have h1 : tickBody (n + 1) sampleEnv 10 1 stopsOther = .error .outOfBounds :=
    tickBody_stale (mkTask 2 0 10 0 1 (some 2) none) ⟨mkTask 2 0 10 10 0 (some 2) none, 10, true⟩
      ⟨[mkTask 2 0 10 10 0 (some 2) none], 3, [Event.update 2 true 2 10], 2⟩
      rfl (by decide) (by with_unfolding_all rfl) (by with_unfolding_all rfl) rfl rfl
  show tickLoop _ _ _ 2 _ = _
  simp only [tickLoop, h1]

theorem stopsItself_Tick (n : Nat) : Tick (n + 1) sampleEnv 2 stopsItself =
    .ok ⟨[], 3, [Event.update 2 true 7 2, Event.update 1 true 2 1, Event.finished 2 true 8],
      2⟩ := by
  have h1 : tickBody (n + 1) sampleEnv 2 1 stopsItself =
      .ok ⟨[mkTask 1 0 1 0 1 (some 2) (some 6), mkTask 2 0 10 2 1 (some 7) (some 8)], 3,
        [Event.update 2 true 7 2], 2⟩ :=
    tickBody_continue (mkTask 2 0 10 0 1 (some 7) (some 8))
      ⟨mkTask 2 0 10 2 1 (some 7) (some 8), 2, false⟩
      _ rfl (by decide) (by with_unfolding_all rfl) (by with_unfolding_all rfl) rfl
  have h0 : tickBody (n + 1) sampleEnv 2 0
      ⟨[mkTask 1 0 1 0 1 (some 2) (some 6), mkTask 2 0 10 2 1 (some 7) (some 8)], 3,
        [Event.update 2 true 7 2], 2⟩ =
      .ok ⟨[], 3, [Event.update 2 true 7 2, Event.update 1 true 2 1, Event.finished 2 true 8],
        2⟩ :=
    tickBody_finish (mkTask 1 0 1 0 1 (some 2) (some 6))
      ⟨mkTask 1 0 1 1 0 (some 2) (some 6), 1, true⟩
      ⟨[mkTask 2 0 10 2 1 (some 7) (some 8)], 3,
        [Event.update 2 true 7 2, Event.update 1 true 2 1], 2⟩
      (mkTask 2 0 10 2 1 (some 7) (some 8))
      ⟨[mkTask 2 0 10 2 1 (some 7) (some 8)], 3,
        [Event.update 2 true 7 2, Event.update 1 true 2 1, Event.finished 2 true 8], 2⟩ []
      rfl (by decide) (by with_unfolding_all rfl) (by with_unfolding_all rfl) rfl rfl
      (by with_unfolding_all rfl) (by rfl)
  show tickLoop _ _ _ 2 _ = _
  simp only [tickLoop, h1, h0]

theorem stopsItselfAlone_Tick (n : Nat) :
    Tick (n + 1) sampleEnv 2 stopsItselfAlone = .error .outOfBounds := by
  have h0 : tickBody (n + 1) sampleEnv 2 0 stopsItselfAlone = .error .outOfBounds :=
    tickBody_stale (mkTask 1 0 1 0 1 (some 2) (some 6))
      ⟨mkTask 1 0 1 1 0 (some 2) (some 6), 1, true⟩
      ⟨[], 2, [Event.update 1 true 2 1], 1⟩
      rfl (by decide) (by with_unfolding_all rfl) (by with_unfolding_all rfl) rfl rfl
  show tickLoop _ _ _ 1 _ = _
  simp only [tickLoop, h0]

theorem stopsItselfWhenFinished_Tick (n : Nat) :
    Tick (n + 1) sampleEnv 2 stopsItselfWhenFinished =
      .ok ⟨[], 3, [Event.update 2 true 7 2, Event.finished 1 true 1], 2⟩ := by
  have h1 : tickBody (n + 1) sampleEnv 2 1 stopsItselfWhenFinished =
      .ok ⟨[mkTask 1 0 1 0 1 none (some 1), mkTask 2 0 10 2 1 (some 7) (some 8)], 3,
        [Event.update 2 true 7 2], 2⟩ :=
    tickBody_continue (mkTask 2 0 10 0 1 (some 7) (some 8))
      ⟨mkTask 2 0 10 2 1 (some 7) (some 8), 2, false⟩
      _ rfl (by decide) (by with_unfolding_all rfl) (by with_unfolding_all rfl) rfl
  have h0 : tickBody (n + 1) sampleEnv 2 0
      ⟨[mkTask 1 0 1 0 1 none (some 1), mkTask 2 0 10 2 1 (some 7) (some 8)], 3,
        [Event.update 2 true 7 2], 2⟩ =
      .ok ⟨[], 3, [Event.update 2 true 7 2, Event.finished 1 true 1], 2⟩ :=
    tickBody_finish (mkTask 1 0 1 0 1 none (some 1))
      ⟨mkTask 1 0 1 1 0 none (some 1), 1, true⟩
      ⟨[mkTask 1 0 1 1 0 none (some 1), mkTask 2 0 10 2 1 (some 7) (some 8)], 3,
        [Event.update 2 true 7 2], 2⟩
      (mkTask 1 0 1 1 0 none (some 1))
      ⟨[mkTask 2 0 10 2 1 (some 7) (some 8)], 3,
        [Event.update 2 true 7 2, Event.finished 1 true 1], 2⟩ []
      rfl (by decide) (by with_unfolding_all rfl) (by with_unfolding_all rfl) rfl rfl
      (by with_unfolding_all rfl) (by rfl)
  show tickLoop _ _ _ 2 _ = _
  simp only [tickLoop, h1, h0]

/-! ### Callbacks that create tasks -/

theorem runList_plays (run : Runner) (env : Env) :
    ∀ (acts : List Action) (s : Sys), (∀ a ∈ acts, a.isPlay = true) →
      runList run env acts s = .ok (spawn acts s) := by
  intro acts
  induction acts with
  | nil => intro s _; rfl
  | cons a rest ih =>
    intro s h
    have ha := h a (by simp)
    have hr := fun s1 => ih s1 (fun b hb => h b (by simp [hb]))
    cases a <;> simp [Action.isPlay] at ha <;>
      simp only [runList, perform, spawn, List.foldl_cons, playStep] <;> exact hr _

theorem runner_plays (env : Env) (fuel : Nat) (acts : List Action) (s : Sys)
    (h : ∀ a ∈ acts, a.isPlay = true) : runner env (fuel + 1) acts s = .ok (spawn acts s) :=
  runList_plays _ env acts s h

theorem spawn_append (a b : List Action) (s : Sys) : spawn (a ++ b) s = spawn b (spawn a s) := by
  simp [spawn, List.foldl_append]

theorem playStep_frame (a : Action) (pre ts : List FSharedTimelineTask) (n : Int)
    (log log1 : List Event) (c : Nat) :
    playStep ⟨pre ++ ts, n, log, c⟩ a =
      ⟨pre ++ (playStep ⟨ts, n, log1, c⟩ a).Tasks, (playStep ⟨ts, n, log1, c⟩ a).NextId, log,
        (playStep ⟨ts, n, log1, c⟩ a).Created⟩ := by
  cases a with
  | play cv d l u f st o r =>
    cases cv <;> simp [playStep, PlayTimeline, SetBasePropertiesOfNewTask]
  | playBP cv d l u f st o r =>
    cases cv <;> simp [playStep, PlayTimeline_BP, SetBasePropertiesOfNewTask]
  | reverse h => rfl
  | pause h => rfl
  | resume h => rfl
  | stop h fire => rfl

theorem spawn_frame (acts : List Action) :
    ∀ (pre ts : List FSharedTimelineTask) (n : Int) (log log1 : List Event) (c : Nat),
      spawn acts ⟨pre ++ ts, n, log, c⟩ =
        ⟨pre ++ (spawn acts ⟨ts, n, log1, c⟩).Tasks, (spawn acts ⟨ts, n, log1, c⟩).NextId, log,
          (spawn acts ⟨ts, n, log1, c⟩).Created⟩ := by
  induction acts with
  | nil => intro pre ts n log log1 c; rfl
  | cons a rest ih =>
    intro pre ts n log log1 c
    simp only [spawn, List.foldl_cons]
    rw [playStep_frame a pre ts n log log1 c]
    have h1 := ih pre (playStep ⟨ts, n, log1, c⟩ a).Tasks (playStep ⟨ts, n, log1, c⟩ a).NextId
      log (playStep ⟨ts, n, log1, c⟩ a).log (playStep ⟨ts, n, log1, c⟩ a).Created
    simp only [spawn] at h1
    exact h1

/-- Plays executed on a state append the tasks they create and leave the log alone. -/
theorem spawn_eq (acts : List Action) (ts : List FSharedTimelineTask) (n : Int)
    (log : List Event) (c : Nat) :
    spawn acts ⟨ts, n, log, c⟩ =
      ⟨ts ++ (born acts n c).Tasks, (born acts n c).NextId, log, (born acts n c).Created⟩ := by
  have := spawn_frame acts ts [] n log [] c
  simpa [born] using this

theorem born_nil (n : Int) (c : Nat) : born [] n c = ⟨[], n, [], c⟩ := rfl

theorem born_append (a b : List Action) (n : Int) (c : Nat) :
    (born (a ++ b) n c).Tasks =
        (born a n c).Tasks ++ (born b (born a n c).NextId (born a n c).Created).Tasks ∧
      (born (a ++ b) n c).NextId = (born b (born a n c).NextId (born a n c).Created).NextId ∧
      (born (a ++ b) n c).Created = (born b (born a n c).NextId (born a n c).Created).Created := by
  have h1 : born (a ++ b) n c = spawn b (born a n c) := spawn_append a b _
  have h2 := spawn_eq b (born a n c).Tasks (born a n c).NextId (born a n c).log
    (born a n c).Created
  rw [h1]
  have h3 : (⟨(born a n c).Tasks, (born a n c).NextId, (born a n c).log,
      (born a n c).Created⟩ : Sys) = born a n c := rfl
  rw [h3] at h2
  rw [h2]
  exact ⟨rfl, rfl, rfl⟩


theorem dispatchUpdate_plays (env : Env) (fuel : Nat) (t : FSharedTimelineTask) (v : ℚ) (s : Sys)
    (h : ∀ a ∈ updateCalls env t v, a.isPlay = true) :
    dispatchUpdate (runner env (fuel + 1)) env t v s =
      .ok (spawn (updateCalls env t v) { s with log := s.log ++ updateEvents t v }) := by
  unfold dispatchUpdate
  unfold updateCalls at h ⊢
  unfold updateEvents
  unfold updateCallback at h ⊢
  cases h1 : t.CPP_Update with
  | some cb =>
    simp only [h1] at h
    simp only [runner_plays env fuel _ _ h]
  | none =>
    cases h2 : t.BP_Update with
    | some cb =>
      simp only [h1, h2] at h
      simp only [runner_plays env fuel _ _ h]
    | none => simp [spawn]

theorem dispatchFinished_plays (env : Env) (fuel : Nat) (t : FSharedTimelineTask) (s : Sys)
    (h : ∀ a ∈ finishedCalls env t, a.isPlay = true) :
    dispatchFinished (runner env (fuel + 1)) env t s =
      .ok (spawn (finishedCalls env t) { s with log := s.log ++ finishedEvents t }) := by
  unfold dispatchFinished
  unfold finishedCalls at h ⊢
  unfold finishedEvents
  unfold finishedCallback at h ⊢
  cases h1 : t.CPP_Finished with
  | some cb =>
    simp only [h1] at h
    simp only [runner_plays env fuel _ _ h]
  | none =>
    cases h2 : t.BP_Finished with
    | some cb =>
      simp only [h1, h2] at h
      simp only [runner_plays env fuel _ _ h]
    | none => simp [spawn]

theorem advanceTask_PlaysOnly {fuel : Nat} {env : Env} {dt : ℚ} {t : FSharedTimelineTask}
    {a : Advanced} (h : advanceTask fuel env dt t = .ok a) (hq : PlaysOnly env t) :
    PlaysOnly env a.Task := by
  unfold PlaysOnly updateCalls finishedCalls at *
  rw [advanceTask_updateCallback h, advanceTask_finishedCallback h]
  exact hq

/-- With callbacks that only play, the loop body at the slot after `pre` is one `visit`, and the
tasks the callbacks create are appended behind the tasks already visited. -/
theorem tickBody_plays (fuel : Nat) (env : Env) (dt : ℚ) (pre done : List FSharedTimelineTask)
    (t : FSharedTimelineTask) (n : Int) (log : List Event) (c : Nat)
    (r : Option FSharedTimelineTask) (ev : List Event)
    (hq : Playful env t) (hv : visit (fuel + 1) env dt t = .ok (r, ev)) :
    tickBody (fuel + 1) env dt pre.length ⟨pre ++ t :: done, n, log, c⟩ =
      .ok ⟨pre ++ settle r (done ++ (born (asked (fuel + 1) env dt t) n c).Tasks),
        (born (asked (fuel + 1) env dt t) n c).NextId, log ++ ev,
        (born (asked (fuel + 1) env dt t) n c).Created⟩ := by
  unfold tickBody
  simp only [getElem?_append_cons]
  unfold visit at hv
  split at hv
  · rename_i hskip
    cases hv
    have hask : asked (fuel + 1) env dt t = [] := by simp [asked, hskip]
    simp [hskip, settle, born_nil, hask]
  · rename_i hskip
    have hq1 : PlaysOnly env t := (hq (visited_of_not_skip hskip).1 (visited_of_not_skip hskip).2).1
    simp only [hskip]
    split at hv
    · cases hv
    · rename_i a ha
      have hq2 := advanceTask_PlaysOnly ha hq1
      simp only [Bool.false_eq_true, if_false]
      rw [dispatchUpdate_plays env fuel a.Task a.Value _ (hq2.1 a.Value)]
      simp only [set_append_cons]
      rw [spawn_eq]
      split at hv
      · rename_i hfin
        cases hv
        have hask : asked (fuel + 1) env dt t =
            updateCalls env a.Task a.Value ++ finishedCalls env a.Task := by
          simp [asked, hskip, ha, hfin]
        rw [hask]
        simp only [hfin, if_true]
        have hget : (pre ++ a.Task :: done ++ (born (updateCalls env a.Task a.Value) n c).Tasks)[
            pre.length]? = some a.Task := by
          rw [List.append_assoc, List.cons_append]
          exact getElem?_append_cons _ _ _
        simp only [hget]
        rw [dispatchFinished_plays env fuel a.Task _ hq2.2]
        rw [spawn_eq]
        obtain ⟨b1, b2, b3⟩ := born_append (updateCalls env a.Task a.Value)
          (finishedCalls env a.Task) n c
        simp only [b1, b2, b3]
        have hrem := RemoveAtSwap_append_cons pre a.Task
          (done ++ ((born (updateCalls env a.Task a.Value) n c).Tasks ++
            (born (finishedCalls env a.Task) (born (updateCalls env a.Task a.Value) n c).NextId
              (born (updateCalls env a.Task a.Value) n c).Created).Tasks))
        simp only [List.append_assoc, List.cons_append] at hrem ⊢
        rw [hrem]
        simp only [settle, List.append_assoc]
      · rename_i hfin
        cases hv
        have hask : asked (fuel + 1) env dt t = updateCalls env a.Task a.Value := by
          simp [asked, hskip, ha, hfin]
        rw [hask]
        simp [hfin, settle]


/-- With callbacks that only play, the backward loop visits each task once, in order, and ends
with the kept tasks, the tasks behind them and the created tasks, in some order. -/
theorem tickLoop_plays (fuel : Nat) (env : Env) (dt : ℚ) :
    ∀ (rev done : List FSharedTimelineTask) (n : Int) (log : List Event) (c : Nat),
      (∀ t ∈ rev, Playful env t) → (∀ t ∈ rev, ∃ r, visit (fuel + 1) env dt t = .ok r) →
      ∃ final : List FSharedTimelineTask,
        tickLoop (fuel + 1) env dt rev.length ⟨rev.reverse ++ done, n, log, c⟩ =
          .ok ⟨final, (born (rev.flatMap (asked (fuel + 1) env dt)) n c).NextId,
            log ++ rev.flatMap (said (fuel + 1) env dt),
            (born (rev.flatMap (asked (fuel + 1) env dt)) n c).Created⟩ ∧
        final.Perm (rev.filterMap (kept (fuel + 1) env dt) ++
          (done ++ (born (rev.flatMap (asked (fuel + 1) env dt)) n c).Tasks)) := by
  intro rev
  induction rev with
  | nil =>
    intro done n log c _ _
    exact ⟨done, by simp [tickLoop, born_nil], by simp [born_nil]⟩
  | cons t rest ih =>
    intro done n log c hq hv
    obtain ⟨⟨r, ev⟩, hvt⟩ := hv t (by simp)
    obtain ⟨hk, hsd⟩ := visit_kept_said hvt
    have hb := tickBody_plays fuel env dt rest.reverse done t n log c r ev (hq t (by simp)) hvt
    simp only [List.length_reverse] at hb
    obtain ⟨final, hT, hP⟩ := ih
      (settle r (done ++ (born (asked (fuel + 1) env dt t) n c).Tasks))
      (born (asked (fuel + 1) env dt t) n c).NextId (log ++ ev)
      (born (asked (fuel + 1) env dt t) n c).Created
      (fun u hu => hq u (by simp [hu])) (fun u hu => hv u (by simp [hu]))
    obtain ⟨b1, b2, b3⟩ := born_append (asked (fuel + 1) env dt t)
      (rest.flatMap (asked (fuel + 1) env dt)) n c
    refine ⟨final, ?_, ?_⟩
    · simp only [List.length_cons, List.reverse_cons, List.append_assoc, List.singleton_append,
        tickLoop, hb, hT, List.flatMap_cons, b2, b3, hsd]
    · refine hP.trans ?_
      simp only [List.flatMap_cons, b1, List.filterMap_cons, hk]
      have h1 := (settle_perm r (done ++ (born (asked (fuel + 1) env dt t) n c).Tasks)).append_right
        (born (rest.flatMap (asked (fuel + 1) env dt)) (born (asked (fuel + 1) env dt t) n c).NextId
          (born (asked (fuel + 1) env dt t) n c).Created).Tasks
      have h2 := h1.append_left (rest.filterMap (kept (fuel + 1) env dt))
      refine h2.trans ?_
      cases r with
      | none => simp
      | some t1 =>
        simp only [Option.toList, List.singleton_append, List.cons_append, List.append_assoc]
        exact List.perm_middle

/-- A task with its curve present is visited with the same result by every large enough
fuel. -/
theorem visit_total (env : Env) (dt : ℚ) (t : FSharedTimelineTask)
    (hc : t.IsActive = true → t.IsPaused = false → t.Curve ≠ none) :
    ∃ (N : Nat) (r : Option FSharedTimelineTask × List Event),
      ∀ fuel, N ≤ fuel → visit fuel env dt t = .ok r := by
  by_cases hskip : (!t.IsActive || t.IsPaused) = true
  · exact ⟨0, (some t, []), fun fuel _ => by simp only [visit, hskip, if_true]⟩
  · obtain ⟨c, hc1⟩ := Option.ne_none_iff_exists'.mp
      (hc (visited_of_not_skip hskip).1 (visited_of_not_skip hskip).2)
    obtain ⟨N, a, ha⟩ := advanceTask_stable env dt t c hc1
    by_cases hfin : a.bJustFinished = true
    · exact ⟨N, (none, updateEvents a.Task a.Value ++ finishedEvents a.Task), fun fuel hf => by
        simp [visit, hskip, ha fuel hf, hfin]⟩
    · exact ⟨N, (some a.Task, updateEvents a.Task a.Value), fun fuel hf => by
        simp [visit, hskip, ha fuel hf, hfin]⟩

theorem visits_total (env : Env) (dt : ℚ) :
    ∀ l : List FSharedTimelineTask,
      (∀ t ∈ l, t.IsActive = true → t.IsPaused = false → t.Curve ≠ none) →
      ∃ N : Nat, ∀ fuel, N ≤ fuel → ∀ t ∈ l, ∃ r, visit fuel env dt t = .ok r := by
  intro l
  induction l with
  | nil => intro _; exact ⟨0, by simp⟩
  | cons t rest ih =>
    intro h
    obtain ⟨N1, r1, h1⟩ := visit_total env dt t (h t (by simp))
    obtain ⟨N2, h2⟩ := ih (fun u hu => h u (by simp [hu]))
    refine ⟨max N1 N2, fun fuel hf u hu => ?_⟩
    rcases List.mem_cons.mp hu with rfl | hu
    · exact ⟨r1, h1 fuel (le_trans (le_max_left _ _) hf)⟩
    · exact h2 fuel (le_trans (le_max_right _ _) hf) u hu

/-- When every visited task has its curve and callbacks that only play, `Tick` returns with
enough fuel: every task of the registry is visited once, the tasks the callbacks create are in
the registry as created, and the invocations are those of the visits. -/
theorem Tick_plays (env : Env) (dt : ℚ) (s : Sys) (hq : ∀ t ∈ s.Tasks, Playful env t) :
    ∃ N : Nat, ∀ fuel, N ≤ fuel → ∃ s1 : Sys, Tick fuel env dt s = .ok s1 ∧
      s1.Tasks.Perm (s.Tasks.filterMap (kept fuel env dt) ++
        (born (s.Tasks.reverse.flatMap (asked fuel env dt)) s.NextId s.Created).Tasks) ∧
      s1.log = s.log ++ s.Tasks.reverse.flatMap (said fuel env dt) ∧
      s1.NextId = (born (s.Tasks.reverse.flatMap (asked fuel env dt)) s.NextId s.Created).NextId ∧
      s1.Created =
        (born (s.Tasks.reverse.flatMap (asked fuel env dt)) s.NextId s.Created).Created := by
  obtain ⟨N, hN⟩ := visits_total env dt s.Tasks (fun t ht h1 h2 => (hq t ht h1 h2).2)
  refine ⟨N + 1, fun fuel hf => ?_⟩
  obtain ⟨f, rfl⟩ : ∃ f, fuel = f + 1 := ⟨fuel - 1, by omega⟩
  obtain ⟨final, hT, hP⟩ := tickLoop_plays f env dt s.Tasks.reverse [] s.NextId s.log s.Created
    (fun t ht => hq t (by simpa using ht))
    (fun t ht => hN (f + 1) (by omega) t (by simpa using ht))
  simp only [List.length_reverse, List.reverse_reverse, List.append_nil, List.nil_append] at hT hP
  refine ⟨_, hT, ?_, rfl, rfl, rfl⟩
  refine hP.trans (List.Perm.append_right _ ?_)
  rw [List.filterMap_reverse]
  exact List.reverse_perm _



theorem born_single (a : Action) (n : Int) (c : Nat) :
    List.Forall₂ Creates ([a].filter Action.creates) (born [a] n c).Tasks := by
  cases a with
  | play cv d l u f st o r =>
    cases cv with
    | none => simp [Action.creates, born, spawn, playStep, PlayTimeline]
    | some c0 =>
      simp only [Action.creates, Option.isSome_some, List.filter_cons_of_pos, List.filter_nil,
        born, spawn, List.foldl_cons, List.foldl_nil, playStep, PlayTimeline, List.nil_append]
      refine List.Forall₂.cons ?_ List.Forall₂.nil
      exact ⟨by simp, rfl, rfl, rfl, (newTask_flags l o).1, (newTask_flags l o).2.1,
        (newTask_flags l o).2.2.1, (newTask_flags l o).2.2.2.1, rfl, rfl⟩
  | playBP cv d l u f st o r =>
    cases cv with
    | none => simp [Action.creates, born, spawn, playStep, PlayTimeline_BP]
    | some c0 =>
      simp only [Action.creates, Option.isSome_some, List.filter_cons_of_pos, List.filter_nil,
        born, spawn, List.foldl_cons, List.foldl_nil, playStep, PlayTimeline_BP, List.nil_append]
      refine List.Forall₂.cons ?_ List.Forall₂.nil
      exact ⟨by simp, rfl, rfl, rfl, (newTask_flags l o).1, (newTask_flags l o).2.1,
        (newTask_flags l o).2.2.1, (newTask_flags l o).2.2.2.1, rfl, rfl⟩
  | reverse h => simp [Action.creates, born, spawn, playStep]
  | pause h => simp [Action.creates, born, spawn, playStep]
  | resume h => simp [Action.creates, born, spawn, playStep]
  | stop h fire => simp [Action.creates, born, spawn, playStep]

/-- The created tasks are, in order, those of the plays with a curve, each as its play creates
it. -/
theorem born_Creates (acts : List Action) :
    ∀ (n : Int) (c : Nat),
      List.Forall₂ Creates (acts.filter Action.creates) (born acts n c).Tasks := by
  induction acts with
  | nil => intro n c; simp [born_nil]
  | cons a rest ih =>
    intro n c
    have h := born_append [a] rest n c
    simp only [List.singleton_append] at h
    rw [h.1]
    have h1 : (a :: rest).filter Action.creates =
        [a].filter Action.creates ++ rest.filter Action.creates := by
      rw [← List.filter_append]; rfl
    rw [h1]
    exact List.rel_append (born_single a n c) (ih _ _)



theorem spawners_Playful : ∀ t ∈ spawners.Tasks, Playful spawnEnv t := by
  intro t ht _ _
  simp only [spawners, List.mem_cons, List.mem_singleton, List.not_mem_nil, or_false] at ht
  rcases ht with rfl | rfl
  · refine ⟨⟨fun v a ha => ?_, fun a ha => ?_⟩, by simp [mkTask]⟩
    · have : updateCalls spawnEnv (mkTask 1 0 1 0 1 (some 20) (some 21)) v =
          [.play (some 0) 3 false none none (1 / 4) false false] := rfl
      rw [this] at ha
      simp only [List.mem_singleton] at ha
      subst ha
      rfl
    · have : finishedCalls spawnEnv (mkTask 1 0 1 0 1 (some 20) (some 21)) =
          [.playBP (some 1) 0 true (some 5) (some 6) 0 true false] := rfl
      rw [this] at ha
      simp only [List.mem_singleton] at ha
      subst ha
      rfl
  · refine ⟨⟨fun v a ha => ?_, fun a ha => ?_⟩, by simp [mkTask]⟩
    · have : updateCalls spawnEnv (mkTask 2 0 10 0 1 (some 20) none) v =
          [.play (some 0) 3 false none none (1 / 4) false false] := rfl
      rw [this] at ha
      simp only [List.mem_singleton] at ha
      subst ha
      rfl
    · have : finishedCalls spawnEnv (mkTask 2 0 10 0 1 (some 20) none) = [] := rfl
      rw [this] at ha
      simp at ha

theorem spawners_Tick (n : Nat) : Tick (n + 1) spawnEnv 2 spawners =
    .ok ⟨[⟨5, some 1, 0, 0, 21, none, none, some 5, some 6⟩,
        mkTask 2 0 10 2 1 (some 20) none, mkTask 3 0 3 (1 / 4) 1 none none,
        mkTask 4 0 3 (1 / 4) 1 none none], 6,
      [Event.update 2 true 20 2, Event.update 1 true 20 1, Event.finished 1 true 21], 5⟩ := by
  have h1 : tickBody (n + 1) spawnEnv 2 1 spawners =
      .ok ⟨[mkTask 1 0 1 0 1 (some 20) (some 21), mkTask 2 0 10 2 1 (some 20) none,
        mkTask 3 0 3 (1 / 4) 1 none none], 4, [Event.update 2 true 20 2], 3⟩ :=
    tickBody_continue (mkTask 2 0 10 0 1 (some 20) none)
      ⟨mkTask 2 0 10 2 1 (some 20) none, 2, false⟩
      _ rfl (by decide) (by with_unfolding_all rfl) (by with_unfolding_all rfl) rfl
  have h0 : tickBody (n + 1) spawnEnv 2 0
      ⟨[mkTask 1 0 1 0 1 (some 20) (some 21), mkTask 2 0 10 2 1 (some 20) none,
        mkTask 3 0 3 (1 / 4) 1 none none], 4, [Event.update 2 true 20 2], 3⟩ =
      .ok ⟨[⟨5, some 1, 0, 0, 21, none, none, some 5, some 6⟩,
        mkTask 2 0 10 2 1 (some 20) none, mkTask 3 0 3 (1 / 4) 1 none none,
        mkTask 4 0 3 (1 / 4) 1 none none], 6,
      [Event.update 2 true 20 2, Event.update 1 true 20 1, Event.finished 1 true 21], 5⟩ :=
    tickBody_finish (mkTask 1 0 1 0 1 (some 20) (some 21))
      ⟨mkTask 1 0 1 1 0 (some 20) (some 21), 1, true⟩
      ⟨[mkTask 1 0 1 1 0 (some 20) (some 21), mkTask 2 0 10 2 1 (some 20) none,
        mkTask 3 0 3 (1 / 4) 1 none none, mkTask 4 0 3 (1 / 4) 1 none none], 5,
        [Event.update 2 true 20 2, Event.update 1 true 20 1], 4⟩
      (mkTask 1 0 1 1 0 (some 20) (some 21))
      ⟨[mkTask 1 0 1 1 0 (some 20) (some 21), mkTask 2 0 10 2 1 (some 20) none,
        mkTask 3 0 3 (1 / 4) 1 none none, mkTask 4 0 3 (1 / 4) 1 none none,
        ⟨5, some 1, 0, 0, 21, none, none, some 5, some 6⟩], 6,
        [Event.update 2 true 20 2, Event.update 1 true 20 1, Event.finished 1 true 21], 5⟩
      _
      rfl (by decide) (by with_unfolding_all rfl) (by with_unfolding_all rfl) rfl rfl
      (by with_unfolding_all rfl) (by rfl)
  show tickLoop _ _ _ 2 _ = _
  simp only [tickLoop, h1, h0]

/-! ### The tick and its description in the specification -/

theorem tickBody_quiet_error (fuel : Nat) (env : Env) (dt : ℚ)
    (pre done : List FSharedTimelineTask) (t : FSharedTimelineTask) (n : Int) (log : List Event)
    (c : Nat) (e : Fault) (hv : visit fuel env dt t = .error e) :
    tickBody fuel env dt pre.length ⟨pre ++ t :: done, n, log, c⟩ = .error e := by
  unfold tickBody
  simp only [getElem?_append_cons]
  unfold visit at hv
  split at hv
  · cases hv
  · rename_i hskip
    simp only [hskip]
    split at hv
    · rename_i e1 ha
      cases hv
      simp [ha]
    · split at hv <;> cases hv

theorem tickLoop_quiet_error (fuel : Nat) (env : Env) (dt : ℚ) :
    ∀ (rev done : List FSharedTimelineTask) (n : Int) (log : List Event) (c : Nat) (e : Fault),
      (∀ t ∈ rev, Calm env t) → sweep fuel env dt rev done = .error e →
      tickLoop fuel env dt rev.length ⟨rev.reverse ++ done, n, log, c⟩ = .error e := by
  intro rev
  induction rev with
  | nil => intro done n log c e _ h; simp [sweep] at h
  | cons t rest ih =>
    intro done n log c e hq h
    unfold sweep at h
    split at h
    · rename_i e1 hv
      cases h
      have hb := tickBody_quiet_error fuel env dt rest.reverse done t n log c e hv
      simp only [List.length_reverse] at hb
      simp only [List.length_cons, List.reverse_cons, List.append_assoc, List.singleton_append,
        tickLoop, hb]
    · rename_i r ev hv
      have hb := tickBody_quiet fuel env dt rest.reverse done t n log c r ev
        (hq t (by simp)) hv
      simp only [List.length_reverse] at hb
      simp only [List.length_cons, List.reverse_cons, List.append_assoc, List.singleton_append,
        tickLoop, hb]
      split at h
      · rename_i e1 hs
        cases h
        exact ih (settle r done) n (log ++ ev) c e (fun u hu => hq u (by simp [hu])) hs
      · cases h

/-- With quiet callbacks, a `Tick` that returns is the backward pass. -/
theorem Tick_quiet_ok (fuel : Nat) (env : Env) (dt : ℚ) (s s1 : Sys)
    (hq : ∀ t ∈ s.Tasks, Calm env t) (h : Tick fuel env dt s = .ok s1) :
    ∃ final evs, sweep fuel env dt s.Tasks.reverse [] = .ok (final, evs) ∧
      s1 = { s with Tasks := final, log := s.log ++ evs } := by
  cases hs : sweep fuel env dt s.Tasks.reverse [] with
  | error e =>
    have := tickLoop_quiet_error fuel env dt s.Tasks.reverse [] s.NextId s.log s.Created e
      (fun t ht => hq t (by simpa using ht)) hs
    simp only [List.length_reverse, List.reverse_reverse, List.append_nil] at this
    unfold Tick at h
    rw [this] at h
    cases h
  | ok p =>
    obtain ⟨final, evs⟩ := p
    have := Tick_quiet fuel env dt s final evs hq hs
    rw [this] at h
    cases h
    exact ⟨final, evs, rfl, rfl⟩

theorem PlayTimeline_some_active (s : Sys) (c : Nat) (d : ℚ) (l : Bool) (u f : Option Nat)
    (st : ℚ) (dOnly ratio : Bool) :
    ∃ t : FSharedTimelineTask,
      (PlayTimeline s (some c) d l u f st dOnly ratio).2.Tasks = s.Tasks ++ [t] ∧
      t.IsActive = true ∧ t.Curve = some c :=
  ⟨_, rfl, (newTask_flags l dOnly).1, rfl⟩

theorem PlayTimeline_BP_some_active (s : Sys) (c : Nat) (d : ℚ) (l : Bool) (u f : Option Nat)
    (st : ℚ) (dOnly ratio : Bool) :
    ∃ t : FSharedTimelineTask,
      (PlayTimeline_BP s (some c) d l u f st dOnly ratio).2.Tasks = s.Tasks ++ [t] ∧
      t.IsActive = true ∧ t.Curve = some c :=
  ⟨_, rfl, (newTask_flags l dOnly).1, rfl⟩

theorem ActiveWithCurve_append {s : Sys} {ts : List FSharedTimelineTask} {t : FSharedTimelineTask}
    (h : ActiveWithCurve s) (ha : t.IsActive = true) (hc : t.Curve ≠ none)
    (hts : ts = s.Tasks ++ [t]) (n : Int) (log : List Event) (c : Nat) :
    ActiveWithCurve ⟨ts, n, log, c⟩ := by
  intro u hu
  simp only [hts, List.mem_append, List.mem_singleton] at hu
  rcases hu with hu | rfl
  · exact h u hu
  · exact ⟨ha, hc⟩

theorem ActiveWithCurve_modifyAt {s : Sys} (h : ActiveWithCurve s) (i : Nat)
    (f : FSharedTimelineTask → FSharedTimelineTask)
    (hf : ∀ u, (f u).IsActive = u.IsActive ∧ (f u).Curve = u.Curve) :
    ActiveWithCurve { s with Tasks := modifyAt s.Tasks i f } := by
  intro u hu
  rcases mem_modifyAt hu with h1 | ⟨w, hw, rfl⟩
  · exact h u h1
  · rw [(hf w).1, (hf w).2]
    exact h w hw

theorem ActiveWithCurve_perform (env : Env) (fuel : Nat) (a : Action) (s s1 : Sys)
    (hq : ∀ t ∈ s.Tasks, Quiet env t) (hI : ActiveWithCurve s)
    (h : perform (runner env fuel) env a s = .ok s1) : ActiveWithCurve s1 := by
  cases a with
  | play cv d l u f st o r =>
    simp only [perform] at h
    cases h
    cases cv with
    | none => exact hI
    | some c0 =>
      obtain ⟨t, h3, h1, h2⟩ := PlayTimeline_some_active s c0 d l u f st o r
      exact ActiveWithCurve_append hI h1 (by simp [h2]) h3 _ _ _
  | playBP cv d l u f st o r =>
    simp only [perform] at h
    cases h
    cases cv with
    | none => exact hI
    | some c0 =>
      obtain ⟨t, h3, h1, h2⟩ := PlayTimeline_BP_some_active s c0 d l u f st o r
      exact ActiveWithCurve_append hI h1 (by simp [h2]) h3 _ _ _
  | reverse h1 =>
    simp only [perform] at h
    cases h
    unfold ReverseTimeline
    split
    · exact ActiveWithCurve_modifyAt hI _ _ (fun u => ⟨by simp, rfl⟩)
    · exact hI
  | pause h1 =>
    simp only [perform] at h
    cases h
    unfold PauseTimeline
    split
    · exact ActiveWithCurve_modifyAt hI _ _ (fun u => ⟨by simp, rfl⟩)
    · exact hI
  | resume h1 =>
    simp only [perform] at h
    cases h
    unfold ResumeTimeline
    split
    · exact ActiveWithCurve_modifyAt hI _ _ (fun u => ⟨by simp, rfl⟩)
    · exact hI
  | stop h1 fire =>
    simp only [perform] at h
    unfold StopTimeline at h
    split at h
    · cases h; exact hI
    · split at h
      · cases h
      · rename_i Index _ Task hTask
        have hTq : Quiet env Task := hq Task (List.getElem?_mem hTask)
        have hd : (if fire = true then dispatchFinished (runner env fuel) env Task s
            else Except.ok s) = .ok { s with log := s.log ++ (if fire then finishedEvents Task
              else []) } := by
          cases fire
          · simp
          · simp [dispatchFinished_quiet env fuel Task s hTq]
        rw [hd] at h
        simp only at h
        split at h
        · cases h
        · rename_i Tasks hrem
          cases h
          obtain ⟨pre, x, post, hs, -, hp⟩ := RemoveAtSwap_ok hrem
          intro u hu
          apply hI u
          rw [hs]
          rcases List.mem_append.mp (hp.mem_iff.mp hu) with h2 | h2
          · exact List.mem_append_left _ h2
          · exact List.mem_append_right _ (List.mem_cons_of_mem _ h2)

theorem ActiveWithCurve_Tick (env : Env) (fuel : Nat) (dt : ℚ) (s s1 : Sys)
    (hq : ∀ t ∈ s.Tasks, Quiet env t) (hI : ActiveWithCurve s)
    (h : Tick fuel env dt s = .ok s1) : ActiveWithCurve s1 := by
  have hc : ∀ t ∈ s.Tasks, Calm env t := fun t ht _ _ => ⟨hq t ht, (hI t ht).2⟩
  obtain ⟨final, evs, hs, rfl⟩ := Tick_quiet_ok fuel env dt s s1 hc h
  obtain ⟨hp, -⟩ := sweep_result fuel env dt _ _ _ _ hs
  rw [List.append_nil] at hp
  intro u hu
  obtain ⟨w, hw, hwu⟩ := List.mem_filterMap.mp (hp.mem_iff.mp hu)
  have hfr := kept_frame hwu
  rw [hfr]
  exact hI w (by simpa using hw)

theorem ActiveWithCurve_QuietSteps {s s1 : Sys} (h : QuietSteps s s1) (hI : ActiveWithCurve s) :
    ActiveWithCurve s1 := by
  induction h with
  | refl => exact hI
  | step s1 s2 fuel env c _ hq hc ih =>
    cases c with
    | act a => exact ActiveWithCurve_perform env fuel a s1 s2 hq ih hc
    | tick dt => exact ActiveWithCurve_Tick env fuel dt s1 s2 hq ih hc

theorem QuietSteps_sample :
    QuietSteps Sys.init ⟨[mkTask 1 0 1 (1 / 2) 1 none none], 2, [], 1⟩ := by
  have h1 : QuietSteps Sys.init playedOnce := by
    have := QuietSteps.step _ _ _ 0 quietEnv _ (QuietSteps.refl Sys.init)
      (fun t ht => by simp [Sys.init] at ht) (play_on_empty 1 0)
    have e2 : wrap32 (1 + 1) = 2 := by unfold wrap32; norm_num
    rw [e2] at this
    exact this
  exact QuietSteps.step _ _ _ 0 quietEnv _ h1
    (fun t _ => ⟨fun _ _ _ _ => rfl, fun _ _ _ => rfl⟩) playedOnce_tick

theorem FindTaskIndexById_congr :
    ∀ (ts ts1 : List FSharedTimelineTask) (h : Int), ts1.map (·.Id) = ts.map (·.Id) →
      FindTaskIndexById ts1 h = FindTaskIndexById ts h := by
  intro ts
  induction ts with
  | nil =>
    intro ts1 h hm
    cases ts1 with
    | nil => rfl
    | cons a rest => simp at hm
  | cons t rest ih =>
    intro ts1 h hm
    cases ts1 with
    | nil => simp at hm
    | cons a rest1 =>
      simp only [List.map_cons, List.cons.injEq] at hm
      simp only [FindTaskIndexById, hm.1, ih rest1 h hm.2]

theorem SetReverse_idem (t : FSharedTimelineTask) :
    (t.SetReverse true).SetReverse true = t.SetReverse true := by
  have h := setFlag_of_hasFlag 3 (by decide) true (setFlag Reverse true t.Flags)
    ((hasFlag_setFlag 3 3 (by decide) true t.Flags).trans (if_pos rfl))
  unfold FSharedTimelineTask.SetReverse
  simp only
  exact congrArg (fun f => ({ t with Flags := f } : FSharedTimelineTask)) h

theorem modifyAt_idem (ts : List FSharedTimelineTask) (i : Nat)
    (f : FSharedTimelineTask → FSharedTimelineTask) (hf : ∀ t, f (f t) = f t) :
    modifyAt (modifyAt ts i f) i f = modifyAt ts i f := by
  unfold modifyAt
  cases h : ts[i]? with
  | none => simp [h]
  | some t =>
    have hi : i < ts.length := (List.getElem?_eq_some_iff.mp h).1
    simp [hi, hf]

theorem ReverseTimeline_idem (s : Sys) (h : Int) :
    ReverseTimeline (ReverseTimeline s h) h = ReverseTimeline s h := by
  cases hf : FindTaskIndexById s.Tasks h with
  | none => simp [ReverseTimeline, hf]
  | some i =>
    have h1 : ReverseTimeline s h =
        { s with Tasks := modifyAt s.Tasks i (·.SetReverse true) } := by
      simp [ReverseTimeline, hf]
    have h2 : FindTaskIndexById (modifyAt s.Tasks i (·.SetReverse true)) h = some i := by
      rw [FindTaskIndexById_congr s.Tasks _ h
        (map_Id_modifyAt s.Tasks i (·.SetReverse true) (fun t => rfl)), hf]
    rw [h1]
    simp only [ReverseTimeline, h2]
    rw [modifyAt_idem _ _ _ SetReverse_idem]

/-! ### The curve of a registered task -/

theorem CurvesKept_closed : StepClosed CurvesKept where
  refl := fun _ h => h
  trans := fun _ _ _ h1 h2 h => h2 (h1 h)
  play := by
    intro s c d l u f st dOnly ratio h
    cases c with
    | none => exact h
    | some c =>
      obtain ⟨t, -, hc, he⟩ := PlayTimeline_some_curve s c d l u f st dOnly ratio
      rw [he]
      intro w hw
      rcases List.mem_append.mp hw with h1 | h1
      · exact h w h1
      · simp only [List.mem_singleton] at h1
        subst h1
        simp [hc]
  playBP := by
    intro s c d l u f st dOnly ratio h
    cases c with
    | none => exact h
    | some c =>
      obtain ⟨t, -, hc, he⟩ := PlayTimeline_BP_some_curve s c d l u f st dOnly ratio
      rw [he]
      intro w hw
      rcases List.mem_append.mp hw with h1 | h1
      · exact h w h1
      · simp only [List.mem_singleton] at h1
        subst h1
        simp [hc]
  reverse := by
    intro s h hI
    unfold ReverseTimeline
    split
    · intro w hw
      rcases mem_modifyAt hw with h1 | ⟨v, hv, rfl⟩
      · exact hI w h1
      · exact hI v hv
    · exact hI
  pause := by
    intro s h hI
    unfold PauseTimeline
    split
    · intro w hw
      rcases mem_modifyAt hw with h1 | ⟨v, hv, rfl⟩
      · exact hI w h1
      · exact hI v hv
    · exact hI
  resume := by
    intro s h hI
    unfold ResumeTimeline
    split
    · intro w hw
      rcases mem_modifyAt hw with h1 | ⟨v, hv, rfl⟩
      · exact hI w h1
      · exact hI v hv
    · exact hI
  logged := fun _ _ h => h
  removed := by
    intro s i Tasks hrem hI
    obtain ⟨pre, x, post, hs, -, hp⟩ := RemoveAtSwap_ok hrem
    intro w hw
    apply hI w
    rw [hs]
    rcases List.mem_append.mp (hp.mem_iff.mp hw) with h2 | h2
    · exact List.mem_append_left _ h2
    · exact List.mem_append_right _ (List.mem_cons_of_mem _ h2)
  advanced := by
    intro fuel env dt s i t a ht ha hI w hw
    rcases List.mem_or_eq_of_mem_set hw with h1 | h1
    · exact hI w h1
    · rw [h1, (Stable_advanceTask ha).2.1]
      exact hI t (List.getElem?_mem ht)

theorem Reachable_AllCurves (s : Sys) (h : Reachable s) : AllCurves s :=
  Steps_closed CurvesKept_closed _ _ h (fun t ht => by simp [Sys.init] at ht)

theorem dispatchFinished_no_nullCurve (run : Runner) (env : Env)
    (hrun : ∀ acts s, run acts s ≠ .error .nullCurve) (t : FSharedTimelineTask) (s : Sys) :
    dispatchFinished run env t s ≠ .error .nullCurve := by
  unfold dispatchFinished
  split
  · exact hrun _ _
  · split
    · exact hrun _ _
    · simp

theorem dispatchUpdate_no_nullCurve (run : Runner) (env : Env)
    (hrun : ∀ acts s, run acts s ≠ .error .nullCurve) (t : FSharedTimelineTask) (v : ℚ)
    (s : Sys) : dispatchUpdate run env t v s ≠ .error .nullCurve := by
  unfold dispatchUpdate
  split
  · exact hrun _ _
  · split
    · exact hrun _ _
    · simp

theorem RemoveAtSwap_no_nullCurve (ts : List FSharedTimelineTask) (i : Nat) :
    RemoveAtSwap ts i ≠ .error .nullCurve := by
  unfold RemoveAtSwap
  split <;> simp

theorem StopTimeline_no_nullCurve (run : Runner) (env : Env)
    (hrun : ∀ acts s, run acts s ≠ .error .nullCurve) (s : Sys) (h : Int) (fire : Bool) :
    StopTimeline run env s h fire ≠ .error .nullCurve := by
  unfold StopTimeline
  split
  · simp
  · split
    · simp
    · rename_i Task _
      split
      · rename_i e he
        intro hc
        injection hc with hc
        subst hc
        cases fire
        · simp at he
        · simp only [if_true] at he
          exact dispatchFinished_no_nullCurve run env hrun _ _ he
      · split
        · rename_i e he
          intro hc
          injection hc with hc
          subst hc
          exact RemoveAtSwap_no_nullCurve _ _ he
        · simp

theorem perform_no_nullCurve (run : Runner) (env : Env)
    (hrun : ∀ acts s, run acts s ≠ .error .nullCurve) (a : Action) (s : Sys) :
    perform run env a s ≠ .error .nullCurve := by
  cases a <;> simp only [perform, ne_eq, reduceCtorEq, not_false_eq_true]
  exact StopTimeline_no_nullCurve run env hrun _ _ _

theorem runList_no_nullCurve (run : Runner) (env : Env)
    (hrun : ∀ acts s, run acts s ≠ .error .nullCurve) :
    ∀ (acts : List Action) (s : Sys), runList run env acts s ≠ .error .nullCurve := by
  intro acts
  induction acts with
  | nil => intro s; simp [runList]
  | cons a rest ih =>
    intro s
    unfold runList
    split
    · rename_i e he
      intro hc
      injection hc with hc
      subst hc
      exact perform_no_nullCurve run env hrun a s he
    · exact ih _

/-- Callbacks never dereference a curve. -/
theorem runner_no_nullCurve (env : Env) :
    ∀ (fuel : Nat) (acts : List Action) (s : Sys),
      runner env fuel acts s ≠ .error .nullCurve := by
  intro fuel
  induction fuel with
  | zero => intro acts s; cases acts <;> simp [runner]
  | succ n ih => exact runList_no_nullCurve _ env ih

theorem advanceTask_no_nullCurve (fuel : Nat) (env : Env) (dt : ℚ) (t : FSharedTimelineTask)
    (hc : t.Curve ≠ none) : advanceTask fuel env dt t ≠ .error .nullCurve := by
  obtain ⟨c, hc1⟩ := Option.ne_none_iff_exists'.mp hc
  obtain ⟨D, hD⟩ := resolveDuration_ok env t c hc1
  cases hl : t.IsLooping with
  | false => rw [advanceTask_nonlooping fuel env dt t c D hl hc1 hD]; simp
  | true =>
    have hs : t.Elapsed + (if t.IsReversing then -dt else dt) = steppedElapsed dt t := rfl
    have hD1 : resolveDuration env { t with Elapsed := steppedElapsed dt t } = .ok D := hD
    have hl1 : FSharedTimelineTask.IsLooping
        { t with Elapsed := steppedElapsed dt t, Duration := D } = true := hl
    have hv : ∀ r : ℚ, evalValue env { t with Elapsed := r, Duration := D } =
        .ok (reportedValue env t c r) := by
      intro r
      unfold evalValue reportedValue GetCurveFloatValueAtTime
      show (if t.IsDurationOnly = true then Except.ok r else
        match t.Curve with
        | some c => Except.ok (env.floatValue c r)
        | none => Except.error Fault.nullCurve) = _
      rw [hc1]
      split <;> rfl
    unfold advanceTask
    cases hw1 : wrapDown D fuel (steppedElapsed dt t) with
    | none =>
      simp [hs, hD1, hl1, clampOrLoop, hw1]
    | some e1 =>
      cases hw2 : wrapUp D fuel e1 with
      | none => simp [hs, hD1, hl1, clampOrLoop, hw1, hw2]
      | some e2 => simp [hs, hD1, hl1, clampOrLoop, hw1, hw2, hv]

theorem tickBody_no_nullCurve (fuel : Nat) (env : Env) (dt : ℚ) (i : Nat) (s : Sys)
    (hI : AllCurves s) : tickBody fuel env dt i s ≠ .error .nullCurve := by
  unfold tickBody
  split
  · simp
  · rename_i Task hT
    split
    · simp
    · split
      · rename_i e he
        intro hc
        injection hc with hc
        subst hc
        exact advanceTask_no_nullCurve fuel env dt Task (hI Task (List.getElem?_mem hT)) he
      · split
        · rename_i e he
          intro hc
          injection hc with hc
          subst hc
          exact dispatchUpdate_no_nullCurve _ env (runner_no_nullCurve env fuel) _ _ _ he
        · split
          · split
            · simp
            · split
              · rename_i e he
                intro hc
                injection hc with hc
                subst hc
                exact dispatchFinished_no_nullCurve _ env (runner_no_nullCurve env fuel) _ _ he
              · split
                · rename_i e he
                  intro hc
                  injection hc with hc
                  subst hc
                  exact RemoveAtSwap_no_nullCurve _ _ he
                · simp
          · simp

theorem tickLoop_no_nullCurve (fuel : Nat) (env : Env) (dt : ℚ) :
    ∀ (n : Nat) (s : Sys), AllCurves s → tickLoop fuel env dt n s ≠ .error .nullCurve := by
  intro n
  induction n with
  | zero => intro s _; simp [tickLoop]
  | succ n ih =>
    intro s hI
    unfold tickLoop
    split
    · rename_i e he
      intro hc
      injection hc with hc
      subst hc
      exact tickBody_no_nullCurve fuel env dt n s hI he
    · rename_i s1 hb
      exact ih s1 (tickBody_closed CurvesKept_closed env fuel dt n s s1 hb hI)

theorem curveEnsured_of_AllCurves (fuel : Nat) (env : Env) (dt : ℚ) :
    ∀ (n : Nat) (s : Sys), AllCurves s → curveEnsured fuel env dt n s = true := by
  intro n
  induction n with
  | zero => intro s _; rfl
  | succ n ih =>
    intro s hI
    unfold curveEnsured
    rw [Bool.and_eq_true]
    constructor
    · split
      · rename_i Task hT
        have := hI Task (List.getElem?_mem hT)
        obtain ⟨c, hc⟩ := Option.ne_none_iff_exists'.mp this
        simp [hc]
      · rfl
    · split
      · rename_i s1 hb
        exact ih s1 (tickBody_closed CurvesKept_closed env fuel dt n s s1 hb hI)
      · rfl

/-! ### Single-precision arithmetic in the tick -/

theorem ulpExponent_eq (x : ℚ) (e : Int) (he : -126 ≤ e) (h1 : (2 : ℚ) ^ e ≤ |x|)
    (h2 : |x| < (2 : ℚ) ^ (e + 1)) : ulpExponent x = e - 23 := by
  have hpos : 0 < |x| := lt_of_lt_of_le (by positivity) h1
  have hl : Int.log 2 |x| = e := by
    apply le_antisymm
    · have := (Int.lt_zpow_iff_log_lt (b := 2) (by norm_num) hpos).mp (by exact_mod_cast h2)
      omega
    · exact (Int.zpow_le_iff_le_log (b := 2) (by norm_num) hpos).mp (by exact_mod_cast h1)
  unfold ulpExponent
  rw [hl, max_eq_left he]

theorem roundHalfEven_of_floor (y : ℚ) (f : Int) (hf1 : (f : ℚ) ≤ y) (hf2 : y < f + 1) :
    roundHalfEven y = if y - f < 1 / 2 then f else if 1 / 2 < y - f then f + 1
      else if f % 2 = 0 then f else f + 1 := by
  have h : Rat.floor y = f := by
    have : Int.floor y = f := Int.floor_eq_iff.mpr ⟨hf1, hf2⟩
    rw [← this]; rfl
  unfold roundHalfEven
  rw [h]

theorem toFloat_sample :
    toFloat (30000000 + 1 / 2) = 30000000 ∧ toFloat (30000000 - 1) = 30000000 ∧
    toFloat (-(1 / 1073741824) + 0) = -(1 / 1073741824) ∧
    toFloat (-(1 / 1073741824) + 1) = 1 := by
  refine ⟨?_, ?_, ?_, ?_⟩
  · have he := ulpExponent_eq (30000000 + 1 / 2) 24 (by norm_num)
      (by rw [abs_of_pos (by norm_num)]; norm_num) (by rw [abs_of_pos (by norm_num)]; norm_num)
    unfold toFloat
    rw [he, roundHalfEven_of_floor _ 15000000 (by norm_num) (by norm_num)]
    norm_num
  · have he := ulpExponent_eq (30000000 - 1) 24 (by norm_num)
      (by rw [abs_of_pos (by norm_num)]; norm_num) (by rw [abs_of_pos (by norm_num)]; norm_num)
    unfold toFloat
    rw [he, roundHalfEven_of_floor _ 14999999 (by norm_num) (by norm_num)]
    norm_num
  · have he := ulpExponent_eq (-(1 / 1073741824) + 0) (-30) (by norm_num)
      (by rw [abs_of_neg (by norm_num)]; norm_num) (by rw [abs_of_neg (by norm_num)]; norm_num)
    unfold toFloat
    rw [he, roundHalfEven_of_floor _ (-8388608) (by norm_num) (by norm_num)]
    norm_num
  · have he := ulpExponent_eq (-(1 / 1073741824) + 1) (-1) (by norm_num)
      (by rw [abs_of_pos (by norm_num)]; norm_num) (by rw [abs_of_pos (by norm_num)]; norm_num)
    unfold toFloat
    rw [he, roundHalfEven_of_floor _ 16777215 (by norm_num) (by norm_num)]
    norm_num

theorem wrapDownF_stuck : ∀ fuel : Nat, wrapDownF 1 fuel 30000000 = none := by
  intro fuel
  induction fuel with
  | zero => simp [wrapDownF]
  | succ n ih =>
    have h : (30000000 : ℚ) ≥ 1 := by norm_num
    simp only [wrapDownF, h, if_true, toFloat_sample.2.1, ih]

theorem farLooping_advance (fuel : Nat) :
    advanceTaskF fuel quietEnv (1 / 2) (mkTask 1 0 1 30000000 5 none none) =
      .error .outOfFuel := by
  have hr : (mkTask 1 0 1 30000000 5 none none).IsReversing = false := by decide
  have hl : FSharedTimelineTask.IsLooping
      { mkTask 1 0 1 30000000 5 none none with Elapsed := 30000000, Duration := 1 } = true := by
    decide
  have hd : resolveDurationF quietEnv
      { mkTask 1 0 1 30000000 5 none none with Elapsed := 30000000 } = .ok 1 := by
    simp [resolveDurationF, mkTask]
  have he : (mkTask 1 0 1 30000000 5 none none).Elapsed = 30000000 := rfl
  unfold advanceTaskF
  simp only [hr, Bool.false_eq_true, if_false, he, toFloat_sample.1, hd, hl, clampOrLoopF,
    Bool.not_true, wrapDownF_stuck]

theorem farLooping_TickF (fuel : Nat) :
    TickF fuel quietEnv (1 / 2) farLooping = .error .outOfFuel := by
  have hv : (!(mkTask 1 0 1 30000000 5 none none).IsActive ||
      (mkTask 1 0 1 30000000 5 none none).IsPaused) = false := by decide
  show tickLoopF _ _ _ 1 _ = _
  simp only [tickLoopF, tickBodyF, farLooping, List.getElem?_cons_zero, hv, Bool.false_eq_true,
    if_false, farLooping_advance]

theorem wrapUpF_one (fuel : Nat) : wrapUpF 1 fuel 1 = some 1 := by
  cases fuel <;> simp [wrapUpF]

theorem nearZero_clamp (fuel : Nat) (hf : 1 ≤ fuel) :
    clampOrLoopF fuel true (-(1 / 1073741824)) 1 = .ok (1, false) := by
  have h1 : ¬ (-(1 / 1073741824) : ℚ) ≥ 1 := by norm_num
  have h2 : (-(1 / 1073741824) : ℚ) < 0 := by norm_num
  cases fuel with
  | zero => omega
  | succ n =>
    simp only [clampOrLoopF, Bool.not_true, Bool.false_eq_true, if_false, wrapDownF, h1, wrapUpF,
      h2, if_true, toFloat_sample.2.2.2, wrapUpF_one]

theorem nearZeroLooping_advance (fuel : Nat) (hf : 1 ≤ fuel) :
    advanceTaskF fuel quietEnv 0 (mkTask 1 0 1 (-(1 / 1073741824)) 5 none none) =
      .ok ⟨mkTask 1 0 1 1 5 none none, 1, false⟩ := by
  have hr : (mkTask 1 0 1 (-(1 / 1073741824)) 5 none none).IsReversing = false := by decide
  have hl : FSharedTimelineTask.IsLooping
      { mkTask 1 0 1 (-(1 / 1073741824)) 5 none none with
        Elapsed := -(1 / 1073741824), Duration := 1 } = true := by
    decide
  have hd : resolveDurationF quietEnv
      { mkTask 1 0 1 (-(1 / 1073741824)) 5 none none with Elapsed := -(1 / 1073741824) } =
        .ok 1 := by
    simp [resolveDurationF, mkTask]
  have he : (mkTask 1 0 1 (-(1 / 1073741824)) 5 none none).Elapsed = -(1 / 1073741824) := rfl
  have hv : evalValue quietEnv
      { mkTask 1 0 1 (-(1 / 1073741824)) 5 none none with Elapsed := 1, Duration := 1 } =
        .ok 1 := by
    with_unfolding_all rfl
  unfold advanceTaskF
  simp only [hr, Bool.false_eq_true, if_false, he, toFloat_sample.2.2.1, hd, hl,
    nearZero_clamp fuel hf, hv]
  rfl

theorem nearZeroLooping_TickF (fuel : Nat) (hf : 1 ≤ fuel) :
    TickF fuel quietEnv 0 nearZeroLooping =
      .ok ⟨[mkTask 1 0 1 1 5 none none], 2, [], 1⟩ := by
  have hv : (!(mkTask 1 0 1 (-(1 / 1073741824)) 5 none none).IsActive ||
      (mkTask 1 0 1 (-(1 / 1073741824)) 5 none none).IsPaused) = false := by decide
  have hu : dispatchUpdate (runner quietEnv fuel) quietEnv (mkTask 1 0 1 1 5 none none) 1
      ⟨[mkTask 1 0 1 1 5 none none], 2, [], 1⟩ = .ok ⟨[mkTask 1 0 1 1 5 none none], 2, [], 1⟩ := by
    rfl
  show tickLoopF _ _ _ 1 _ = _
  simp only [tickLoopF, tickBodyF, nearZeroLooping, List.getElem?_cons_zero, hv,
    Bool.false_eq_true, if_false, nearZeroLooping_advance fuel hf, List.set_cons_zero, hu]

/-! ### Ticks of the sample registries for the looping closed form and for created tasks -/

theorem pausingLooper_Tick (n : Nat) : Tick (n + 1) sampleEnv (1 / 2) pausingLooper =
    .ok ⟨[mkTask 1 0 1 (4 / 5) 7 none none, mkTask 2 0 10 (1 / 2) 1 (some 1) none], 3,
      [Event.update 2 true 1 (1 / 2)], 2⟩ := by
  have h1 : tickBody (n + 1) sampleEnv (1 / 2) 1 pausingLooper =
      .ok ⟨[mkTask 1 0 1 (4 / 5) 7 none none, mkTask 2 0 10 (1 / 2) 1 (some 1) none], 3,
        [Event.update 2 true 1 (1 / 2)], 2⟩ :=
    tickBody_continue (mkTask 2 0 10 0 1 (some 1) none)
      ⟨mkTask 2 0 10 (1 / 2) 1 (some 1) none, 1 / 2, false⟩
      _ rfl (by decide) (by with_unfolding_all rfl) (by with_unfolding_all rfl) rfl
  have h0 : tickBody (n + 1) sampleEnv (1 / 2) 0
      ⟨[mkTask 1 0 1 (4 / 5) 7 none none, mkTask 2 0 10 (1 / 2) 1 (some 1) none], 3,
        [Event.update 2 true 1 (1 / 2)], 2⟩ =
      .ok ⟨[mkTask 1 0 1 (4 / 5) 7 none none, mkTask 2 0 10 (1 / 2) 1 (some 1) none], 3,
        [Event.update 2 true 1 (1 / 2)], 2⟩ :=
    tickBody_skip (mkTask 1 0 1 (4 / 5) 7 none none) rfl (by decide)
  show tickLoop _ _ _ 2 _ = _
  simp only [tickLoop, h1, h0]

theorem playsAndStops_Tick (n : Nat) : Tick (n + 1) mixedEnv 1 playsAndStops =
    .ok ⟨[mkTask 3 0 10 (5 / 4) 1 (some 31) none, mkTask 2 0 10 1 1 (some 30) none], 4,
      [Event.update 2 true 30 1, Event.update 3 true 31 (5 / 4)], 3⟩ := by
  have h1 : tickBody (n + 1) mixedEnv 1 1 playsAndStops =
      .ok ⟨[mkTask 3 0 10 (1 / 4) 1 (some 31) none, mkTask 2 0 10 1 1 (some 30) none], 4,
        [Event.update 2 true 30 1], 3⟩ :=
    tickBody_continue (mkTask 2 0 10 0 1 (some 30) none)
      ⟨mkTask 2 0 10 1 1 (some 30) none, 1, false⟩
      _ rfl (by decide) (by with_unfolding_all rfl) (by with_unfolding_all rfl) rfl
  have h0 : tickBody (n + 1) mixedEnv 1 0
      ⟨[mkTask 3 0 10 (1 / 4) 1 (some 31) none, mkTask 2 0 10 1 1 (some 30) none], 4,
        [Event.update 2 true 30 1], 3⟩ =
      .ok ⟨[mkTask 3 0 10 (5 / 4) 1 (some 31) none, mkTask 2 0 10 1 1 (some 30) none], 4,
        [Event.update 2 true 30 1, Event.update 3 true 31 (5 / 4)], 3⟩ :=
    tickBody_continue (mkTask 3 0 10 (1 / 4) 1 (some 31) none)
      ⟨mkTask 3 0 10 (5 / 4) 1 (some 31) none, 5 / 4, false⟩
      _ rfl (by decide) (by with_unfolding_all rfl) (by with_unfolding_all rfl) rfl
  show tickLoop _ _ _ 2 _ = _
  simp only [tickLoop, h1, h0]

/-! ### Looping tasks over exact arithmetic, and callbacks that only play -/

/-- Over exact arithmetic, in a registry with pairwise distinct ids in which every task the loop
visits has a curve and callbacks that make no call into the subsystem, for a looping task that is
active and not paused, whatever its elapsed time, direction and duration, and for any non-empty
sequence of `Tick` calls with any delta times: the wrapping loops terminate (with enough fuel
every `Tick` returns), afterwards the task is still in the registry with a duration `> 0` and
`0 ≤ elapsed < duration`, and no finished callback of the task has been invoked. -/
theorem looping_invariant_exact (env : Env) (dts : List ℚ) (s : Sys) (t : FSharedTimelineTask)
    (hdts : dts ≠ []) (hd : DistinctIds s.Tasks) (hq : ∀ u ∈ s.Tasks, Calm env u)
    (ht : t ∈ s.Tasks) (hact : t.IsActive = true) (hp : t.IsPaused = false)
    (hl : t.IsLooping = true) : KeepsLooping env dts s t := by
  obtain ⟨N, s1, hT, -, hu, hev⟩ := looping_ticks env dts s t hdts hd hq ht hact hp hl
  exact ⟨N, fun fuel hf => ⟨s1, hT fuel hf, hu, hev⟩⟩

/-- The looping task 2 of `trio` through four ticks, one of them backwards. -/
theorem looping_invariant_trio :
    KeepsLooping quietEnv [1 / 2, 1 / 2, 7, -3] trio (mkTask 2 0 1 (4 / 5) 5 (some 7) (some 8)) :=
  looping_invariant_exact quietEnv [1 / 2, 1 / 2, 7, -3] trio
    (mkTask 2 0 1 (4 / 5) 5 (some 7) (some 8))
    (by simp) trio_DistinctIds trio_Calm (by simp [trio]) (by decide) (by decide) (by decide)

/-- A callback may stop a looping task.  In the registry reached by
`Play(curve 0, duration 1, loop, update callback 2)` the looping task 1 is active and not paused;
`Tick (1/2)` visits it, and its update callback stops task 1: when `Tick` returns the registry is
empty. -/
theorem selfStopper_removed :
    selfStopper = (PlayTimeline Sys.init (some 0) 1 true (some 2) none 0 false false).2 ∧
    mkTask 1 0 1 0 5 (some 2) none ∈ selfStopper.Tasks ∧
    (mkTask 1 0 1 0 5 (some 2) none).IsLooping = true ∧
    (mkTask 1 0 1 0 5 (some 2) none).IsActive = true ∧
    (mkTask 1 0 1 0 5 (some 2) none).IsPaused = false ∧
    ¬ KeepsLooping sampleEnv [1 / 2] selfStopper (mkTask 1 0 1 0 5 (some 2) none) := by
  refine ⟨rfl, by simp [selfStopper], by decide, by decide, by decide, ?_⟩
  rintro ⟨N, h⟩
  obtain ⟨s1, hT, ⟨u, hu, -⟩, -⟩ := h (N + 1) (Nat.le_succ N)
  simp only [Ticks, selfStopper_Tick N] at hT
  cases hT
  simp at hu

/-- When every task the loop visits has a curve and callbacks that make no call other than
`PlayTimeline` and `PlayTimeline_BP`, `Tick` returns (with enough fuel) and (1) the registry
consists, in some order, of what one visit leaves of each task that was there when `Tick` began
(a skipped task as it was, a visited one advanced once, a finished one dropped) and of the tasks
created by the callbacks; (2) the invocations recorded are those of one visit to each of the
original tasks, in backward order, so that no callback of a created task has run; (3) the created
tasks are, one for each play with a curve and in the order of the plays, as the play created
them: elapsed time the start time, the duration as given, active and not paused.  (4) In the
registry of tasks 1 and 2 whose update callback plays a task and where the finished callback of
task 1 plays another, `Tick 2` finishes task 1: the three created tasks 3, 4 and 5 are in the
registry untouched, task 5 in the slot of the removed task 1, and the invocations are the update
of task 2, the update of task 1 and the finished of task 1. -/
theorem plays_only_deferred :
    (∀ (env : Env) (dt : ℚ) (s : Sys), (∀ t ∈ s.Tasks, Playful env t) →
      ∃ N : Nat, ∀ fuel, N ≤ fuel → ∃ s1 : Sys, Tick fuel env dt s = .ok s1 ∧
        s1.Tasks.Perm (s.Tasks.filterMap (kept fuel env dt) ++
          (born (s.Tasks.reverse.flatMap (asked fuel env dt)) s.NextId s.Created).Tasks) ∧
        s1.log = s.log ++ s.Tasks.reverse.flatMap (said fuel env dt) ∧
        List.Forall₂ Creates ((s.Tasks.reverse.flatMap (asked fuel env dt)).filter Action.creates)
          (born (s.Tasks.reverse.flatMap (asked fuel env dt)) s.NextId s.Created).Tasks) ∧
    (spawners = (PlayTimeline (PlayTimeline Sys.init (some 0) 1 false (some 20) (some 21) 0 false
        false).2 (some 0) 10 false (some 20) none 0 false false).2 ∧
      (∀ v, spawnEnv.onUpdate 20 v = [.play (some 0) 3 false none none (1 / 4) false false]) ∧
      spawnEnv.onFinished 21 = [.playBP (some 1) 0 true (some 5) (some 6) 0 true false] ∧
      ∀ n : Nat, Tick (n + 1) spawnEnv 2 spawners =
        .ok ⟨[⟨5, some 1, 0, 0, 21, none, none, some 5, some 6⟩,
            mkTask 2 0 10 2 1 (some 20) none, mkTask 3 0 3 (1 / 4) 1 none none,
            mkTask 4 0 3 (1 / 4) 1 none none], 6,
          [Event.update 2 true 20 2, Event.update 1 true 20 1, Event.finished 1 true 21], 5⟩) := by
  refine ⟨?_, by rfl, fun _ => rfl, rfl, spawners_Tick⟩
  intro env dt s hq
  obtain ⟨N, h⟩ := Tick_plays env dt s hq
  refine ⟨N, fun fuel hf => ?_⟩
  obtain ⟨s1, hT, hP, hlog, -, -⟩ := h fuel hf
  exact ⟨s1, hT, hP, hlog, born_Creates _ _ _⟩

/-- The general statement at the registry `spawners`. -/
theorem plays_only_deferred_spawners :
    ∃ N : Nat, ∀ fuel, N ≤ fuel → ∃ s1 : Sys, Tick fuel spawnEnv 2 spawners = .ok s1 ∧
      s1.Tasks.Perm (spawners.Tasks.filterMap (kept fuel spawnEnv 2) ++
        (born (spawners.Tasks.reverse.flatMap (asked fuel spawnEnv 2)) spawners.NextId
          spawners.Created).Tasks) ∧
      s1.log = spawners.log ++ spawners.Tasks.reverse.flatMap (said fuel spawnEnv 2) ∧
      List.Forall₂ Creates
        ((spawners.Tasks.reverse.flatMap (asked fuel spawnEnv 2)).filter Action.creates)
        (born (spawners.Tasks.reverse.flatMap (asked fuel spawnEnv 2)) spawners.NextId
          spawners.Created).Tasks :=
  plays_only_deferred.1 spawnEnv 2 spawners spawners_Playful

/-! ## The claims -/

/-- C3 (the code departs from it): the wrapping loops of `Tick` run in `float` arithmetic, where
subtracting or adding the duration need not change the elapsed time or may round it up to the
duration.  After `Play(curve 0, duration 1, loop, start 30000000)`, `Tick (1/2)` leaves the
elapsed time `30000000` (the sum rounds back), and in the loop
`while (Elapsed >= UseDuration) Elapsed -= UseDuration` the difference `30000000 - 1` rounds to
`30000000`: the loop never ends, and `Tick` does not return whatever the fuel.  After
`Play(curve 0, duration 1, loop, start -2^-30)`, `Tick 0` adds the duration once, the sum rounds
to `1`, and the task is left with its elapsed time equal to its duration, not below it.  All the
values involved are `float` values. -/
theorem looping_wrap_float_defect :
    farLooping = (PlayTimeline Sys.init (some 0) 1 true none none 30000000 false false).2 ∧
    toFloat 30000000 = 30000000 ∧ toFloat (1 / 2) = 1 / 2 ∧ toFloat 1 = 1 ∧
    toFloat (30000000 + 1 / 2) = 30000000 ∧ toFloat (30000000 - 1) = 30000000 ∧
    (∀ fuel : Nat, wrapDownF 1 fuel 30000000 = none) ∧
    (∀ fuel : Nat, TickF fuel quietEnv (1 / 2) farLooping = .error .outOfFuel) ∧
    nearZeroLooping = (PlayTimeline Sys.init (some 0) 1 true none none (-(1 / 1073741824)) false
      false).2 ∧
    toFloat (-(1 / 1073741824)) = -(1 / 1073741824) ∧
    toFloat (-(1 / 1073741824) + 1) = 1 ∧
    (∀ n : Nat, TickF (n + 1) quietEnv 0 nearZeroLooping =
      .ok ⟨[mkTask 1 0 1 1 5 none none], 2, [], 1⟩) ∧
    (mkTask 1 0 1 1 5 none none).Elapsed = (mkTask 1 0 1 1 5 none none).Duration := by
  refine ⟨by rfl, ?_, ?_, ?_, toFloat_sample.1, toFloat_sample.2.1, wrapDownF_stuck,
    farLooping_TickF, by rfl, ?_, toFloat_sample.2.2.2,
    fun n => nearZeroLooping_TickF (n + 1) (Nat.le_add_left 1 n), rfl⟩
  · have he := ulpExponent_eq 30000000 24 (by norm_num)
      (by rw [abs_of_pos (by norm_num)]; norm_num) (by rw [abs_of_pos (by norm_num)]; norm_num)
    unfold toFloat
    rw [he, roundHalfEven_of_floor _ 15000000 (by norm_num) (by norm_num)]
    norm_num
  · have he := ulpExponent_eq (1 / 2) (-1) (by norm_num)
      (by rw [abs_of_pos (by norm_num)]; norm_num) (by rw [abs_of_pos (by norm_num)]; norm_num)
    unfold toFloat
    rw [he, roundHalfEven_of_floor _ 8388608 (by norm_num) (by norm_num)]
    norm_num
  · have he := ulpExponent_eq 1 0 (by norm_num)
      (by rw [abs_of_pos (by norm_num)]; norm_num) (by rw [abs_of_pos (by norm_num)]; norm_num)
    unfold toFloat
    rw [he, roundHalfEven_of_floor _ 8388608 (by norm_num) (by norm_num)]
    norm_num
  · have := toFloat_sample.2.2.1
    simpa using this

/-- C4 (amended): for every registry state and argument list, through either entry point: when
the curve is absent the result is `INDEX_NONE` and the state is unchanged, whatever the mode
flags; when the curve is present the handle is the id counter, exactly one task is appended, the
other tasks are untouched, and the new task has that id, `Elapsed = StartTime`, the given
duration, active set, paused clear, looping `bLoop`, duration-only `bDurationOnly`; and the
handle is `INDEX_NONE` exactly when the curve is absent provided the id counter is not
`INDEX_NONE`. -/
theorem play_result (bp : Bool) (s : Sys) (c : Option Nat) (d : ℚ) (l : Bool)
    (u f : Option Nat) (st : ℚ) (dOnly ratio : Bool) :
    (c = none → playVia bp s c d l u f st dOnly ratio = (INDEX_NONE, s)) ∧
    (c ≠ none → ∃ t : FSharedTimelineTask,
      playVia bp s c d l u f st dOnly ratio =
        (s.NextId, ⟨s.Tasks ++ [t], wrap32 (s.NextId + 1), s.log, s.Created + 1⟩) ∧
      t.Id = s.NextId ∧ t.Curve = c ∧ t.Elapsed = st ∧ t.Duration = d ∧ t.IsActive = true ∧
      t.IsPaused = false ∧ t.IsLooping = l ∧ t.IsDurationOnly = dOnly) ∧
    (s.NextId ≠ INDEX_NONE →
      ((playVia bp s c d l u f st dOnly ratio).1 = INDEX_NONE ↔ c = none)) := by
  cases c with
  | none =>
    refine ⟨fun _ => (by cases bp <;> rfl), fun h => absurd rfl h, fun _ => ?_⟩
    cases bp <;> simp [playVia, PlayTimeline, PlayTimeline_BP]
  | some c0 =>
    refine ⟨fun h => (by cases h), fun _ => ?_, fun hn => ?_⟩
    · cases bp
      · exact ⟨_, rfl, rfl, rfl, rfl, rfl, (newTask_flags l dOnly).1, (newTask_flags l dOnly).2.1,
          (newTask_flags l dOnly).2.2.1, (newTask_flags l dOnly).2.2.2.1⟩
      · exact ⟨_, rfl, rfl, rfl, rfl, rfl, (newTask_flags l dOnly).1, (newTask_flags l dOnly).2.1,
          (newTask_flags l dOnly).2.2.1, (newTask_flags l dOnly).2.2.2.1⟩
    · have : (playVia bp s (some c0) d l u f st dOnly ratio).1 = s.NextId := by cases bp <;> rfl
      rw [this]
      simp [hn]

/-- Witness of C4 (amended): plays on `trio`, whose id counter is 4. -/
theorem play_result_witness :
    (playVia false trio (some 1) 0 true none none (1 / 2) true false).1 = 4 ∧
    ((playVia true trio none 0 true none none (1 / 2) true false).1 = INDEX_NONE ↔
      (none : Option Nat) = none) :=
  ⟨by
    obtain ⟨t, h, -⟩ := (play_result false trio (some 1) 0 true none none (1 / 2) true false).2.1
      (by simp)
    rw [h]; rfl,
   (play_result true trio none 0 true none none (1 / 2) true false).2.2 (by decide)⟩

/-- C4 as stated fails when the id counter is `INDEX_NONE`, a state reached after `2^32 - 2`
creations: both entry points then return `INDEX_NONE` although the curve is present. -/
theorem play_sentinel_counterexample :
    Reachable counterAtSentinel ∧
    (PlayTimeline counterAtSentinel (some 0) 1 false none none 0 false false).1 = INDEX_NONE ∧
    (PlayTimeline_BP counterAtSentinel (some 0) 1 false none none 0 false false).1 = INDEX_NONE :=
  ⟨Reachable_counterAtSentinel, rfl, rfl⟩

/-- C5 (amended): in every state reachable from the fresh subsystem by calls of `PlayTimeline`,
`PlayTimeline_BP`, `ReverseTimeline`, `PauseTimeline`, `ResumeTimeline`, `StopTimeline` and
`Tick` (callbacks included) in which fewer than `2^31 - 1` tasks have been created so far, the
ids in the registry are pairwise distinct, at least 1 and below the id counter; no task has the
id `INDEX_NONE`; `IsTimelineActive` of `INDEX_NONE`, which a failed play returns, is false; and a
successful play returns a smaller handle than any successful play made later, as long as fewer
than `2^31 - 1` tasks have been created before that later play. -/
theorem ids_ordered_until_wrap (s : Sys) (hr : Reachable s)
    (hlim : s.Created < idLimit) :
    IdsOrdered s ∧ (∀ t ∈ s.Tasks, t.Id ≠ INDEX_NONE) ∧ IsTimelineActive s INDEX_NONE = false ∧
    (PlayTimeline s none 0 false none none 0 false false).1 = INDEX_NONE ∧
    ∀ (bp1 bp2 : Bool) (c1 c2 : Nat) (d1 d2 : ℚ) (l1 l2 : Bool) (u1 f1 u2 f2 : Option Nat)
      (st1 st2 : ℚ) (o1 r1 o2 r2 : Bool) (s2 : Sys),
      Steps (playVia bp1 s (some c1) d1 l1 u1 f1 st1 o1 r1).2 s2 → s2.Created < idLimit →
      (playVia bp1 s (some c1) d1 l1 u1 f1 st1 o1 r1).1 <
        (playVia bp2 s2 (some c2) d2 l2 u2 f2 st2 o2 r2).1 := by
  have hI := Reachable_IdsFresh s hr
  have hO := hI.2 hlim
  have hne : ∀ t ∈ s.Tasks, t.Id ≠ INDEX_NONE := by
    intro t ht h
    have := (hO.2 t ht).1
    rw [h] at this
    exact absurd this (by decide)
  refine ⟨hO, hne, ?_, rfl, ?_⟩
  · simp [IsTimelineActive, FindTaskIndexById_eq_none.mpr hne]
  · intro bp1 bp2 c1 c2 d1 d2 l1 l2 u1 f1 u2 f2 st1 st2 o1 r1 o2 r2 s2 hsteps hlim2
    obtain ⟨t1, ht1, hp1⟩ := playVia_some bp1 s c1 d1 l1 u1 f1 st1 o1 r1
    obtain ⟨t2, ht2, hp2⟩ := playVia_some bp2 s2 c2 d2 l2 u2 f2 st2 o2 r2
    rw [hp1] at hsteps ⊢
    rw [hp2]
    simp only
    have hr1 : Reachable ⟨s.Tasks ++ [t1], wrap32 (s.NextId + 1), s.log, s.Created + 1⟩ := by
      have : call 0 quietEnv (.act (if bp1 then .playBP (some c1) d1 l1 u1 f1 st1 o1 r1
          else .play (some c1) d1 l1 u1 f1 st1 o1 r1)) s =
          .ok ⟨s.Tasks ++ [t1], wrap32 (s.NextId + 1), s.log, s.Created + 1⟩ := by
        cases bp1 <;> simp [call, perform, playVia] at hp1 ⊢ <;> rw [hp1]
      exact Steps.step _ _ _ 0 quietEnv _ hr this
    have hmono := (Steps_closed IdStep_closed _ _ hsteps).1
    have hI2 := (Steps_closed IdStep_closed _ _ hsteps).2 (Reachable_IdsFresh _ hr1)
    simp only at hmono
    have e1 : s.NextId = 1 + s.Created := by
      rw [hI.1]; exact wrap32_small _ (by omega) (by simp only [idLimit] at hlim; omega)
    have e2 : s2.NextId = 1 + s2.Created := by
      rw [hI2.1]; exact wrap32_small _ (by omega) (by simp only [idLimit] at hlim2; omega)
    rw [e1, e2]
    omega

/-- Witness of C5 (amended): the registry after one play, and two successive plays from it. -/
theorem ids_ordered_until_wrap_witness :
    IdsOrdered playedOnce ∧ (∀ t ∈ playedOnce.Tasks, t.Id ≠ INDEX_NONE) ∧
    IsTimelineActive playedOnce INDEX_NONE = false ∧
    (playVia false playedOnce (some 0) 1 false none none 0 false false).1 <
      (playVia true (playVia false playedOnce (some 0) 1 false none none 0 false false).2
        (some 1) 2 true none none 0 false false).1 :=
  have h := ids_ordered_until_wrap playedOnce Reachable_playedOnce (by decide)
  ⟨h.1, h.2.1, h.2.2.1, h.2.2.2.2 false true 0 1 1 2 false true none none none none 0 0 false
    false false false _ (Steps.refl _) (by decide)⟩

/-- C5 as stated fails once the 32-bit id counter wraps.  Creating and stopping a task
`2^31 - 1` times and creating one more reaches a registry whose task has the id `-2^31`, below 1;
`2^32 - 1` creations reach a registry whose live task has the id `INDEX_NONE`, for which
`IsTimelineActive` of `INDEX_NONE` is true. -/
theorem ids_ordered_counterexample :
    Reachable wrappedOnce ∧ ¬ IdsOrdered wrappedOnce ∧
    Reachable sentinelLive ∧ (∃ t ∈ sentinelLive.Tasks, t.Id = INDEX_NONE) ∧
    IsTimelineActive sentinelLive INDEX_NONE = true := by
  refine ⟨Reachable_wrappedOnce, ?_, Reachable_sentinelLive,
    ⟨mkTask (-1) 0 1 0 1 none none, by simp [sentinelLive], rfl⟩, by decide⟩
  intro h
  have := (h.2 (mkTask (-2147483648) 0 1 0 1 none none) (by simp [wrappedOnce])).1
  simp [mkTask] at this

/-- C6: for every registry state and every handle that is not the id of a task in the registry,
`ReverseTimeline`, `PauseTimeline`, `ResumeTimeline` and `StopTimeline` (with and without
`bFireFinish`) return the state unchanged, log included, so no callback is invoked, and
`IsTimelineActive` is false. -/
theorem stale_handle_noop (run : Runner) (env : Env) (s : Sys) (h : Int)
    (hh : ∀ t ∈ s.Tasks, t.Id ≠ h) :
    ReverseTimeline s h = s ∧ PauseTimeline s h = s ∧ ResumeTimeline s h = s ∧
    StopTimeline run env s h true = .ok s ∧ StopTimeline run env s h false = .ok s ∧
    IsTimelineActive s h = false := by
  have hf : FindTaskIndexById s.Tasks h = none := FindTaskIndexById_eq_none.mpr hh
  simp [ReverseTimeline, PauseTimeline, ResumeTimeline, StopTimeline, IsTimelineActive, hf]

/-- Witness of C6: the handle 7 in `trio`, whose ids are 1, 2 and 3. -/
theorem stale_handle_noop_witness :
    ReverseTimeline trio 7 = trio ∧ PauseTimeline trio 7 = trio ∧ ResumeTimeline trio 7 = trio ∧
    StopTimeline (runner sampleEnv 3) sampleEnv trio 7 true = .ok trio ∧
    StopTimeline (runner sampleEnv 3) sampleEnv trio 7 false = .ok trio ∧
    IsTimelineActive trio 7 = false :=
  stale_handle_noop (runner sampleEnv 3) sampleEnv trio 7 (by
    intro t ht
    simp only [trio, List.mem_cons, List.mem_singleton, List.not_mem_nil, or_false] at ht
    rcases ht with rfl | rfl | rfl <;> simp [mkTask])

/-- C7: in a registry with pairwise distinct ids, for a live task `t` whose finished callback
returns every state that still holds the registry of the call unchanged: `StopTimeline` with
`bFireFinish` records exactly the finished invocation of `t` (one when a finished callback is
bound, looping or not) and removes `t`; without `bFireFinish` it records nothing and removes
`t`; in both cases the handle is no longer found, the registry is one task shorter, and the
remaining tasks are the others, unchanged, in some order. -/
theorem stop_removes_exactly (run : Runner) (env : Env) (s : Sys)
    (pre post : List FSharedTimelineTask) (t : FSharedTimelineTask)
    (hs : s.Tasks = pre ++ t :: post) (hd : DistinctIds s.Tasks)
    (hq : ∀ native cb, finishedCallback t = some (native, cb) →
      ∀ s1 : Sys, s1.Tasks = s.Tasks → run (env.onFinished cb) s1 = .ok s1) :
    ∃ Tasks : List FSharedTimelineTask,
      StopTimeline run env s t.Id true =
        .ok { s with Tasks := Tasks, log := s.log ++ finishedEvents t } ∧
      StopTimeline run env s t.Id false = .ok { s with Tasks := Tasks } ∧
      (finishedEvents t).length = (if (finishedCallback t).isSome then 1 else 0) ∧
      FindTaskIndexById Tasks t.Id = none ∧
      Tasks.length + 1 = s.Tasks.length ∧
      Tasks.Perm (pre ++ post) := by
  have hpre : ∀ u ∈ pre, u.Id ≠ t.Id := by
    intro u hu heq
    unfold DistinctIds at hd
    rw [hs, List.map_append, List.map_cons] at hd
    have := (List.nodup_append.mp hd).2.2
    exact this (List.mem_map.mpr ⟨u, hu, rfl⟩) (by simp [heq])
  have hpost : ∀ u ∈ post, u.Id ≠ t.Id := by
    intro u hu heq
    unfold DistinctIds at hd
    rw [hs, List.map_append, List.map_cons] at hd
    have := ((List.nodup_append.mp hd).2.1)
    rw [List.nodup_cons] at this
    exact this.1 (List.mem_map.mpr ⟨u, hu, heq⟩)
  obtain ⟨Tasks0, n, log, c⟩ := s
  simp only at hs
  subst hs
  have hfind := FindTaskIndexById_append_cons pre t post hpre
  have hget := getElem?_append_cons pre t post
  have hrem := RemoveAtSwap_append_cons pre t post
  have hperm : (pre ++ settle none post).Perm (pre ++ post) :=
    (settle_perm none post).append_left pre
  refine ⟨pre ++ settle none post, ?_, ?_, finishedEvents_length t, ?_, ?_, hperm⟩
  · unfold StopTimeline
    simp only [hfind, hget, if_true, dispatchFinished_eq]
    cases hcb : finishedCallback t with
    | none =>
      simp only [hrem, settle]
      simp [finishedEvents, hcb]
    | some p =>
      obtain ⟨native, cb⟩ := p
      have := hq native cb hcb ⟨pre ++ t :: post, n, log ++ finishedEvents t, c⟩ rfl
      simp only [this, hrem, settle]
  · unfold StopTimeline
    simp only [hfind, hget, Bool.false_eq_true, if_false, hrem, settle]
  · rw [FindTaskIndexById_eq_none]
    intro u hu
    rcases List.mem_append.mp (hperm.mem_iff.mp hu) with h | h
    · exact hpre u h
    · exact hpost u h
  · rw [hperm.length_eq]
    simp only [List.length_append, List.length_cons]
    omega

/-- Witness of C7: stopping the looping task 2 of `trio`. -/
theorem stop_removes_exactly_witness :
    ∃ Tasks : List FSharedTimelineTask,
      StopTimeline (runner quietEnv 1) quietEnv trio 2 true =
        .ok { trio with Tasks := Tasks, log := trio.log ++
          finishedEvents (mkTask 2 0 1 (4 / 5) 5 (some 7) (some 8)) } ∧
      StopTimeline (runner quietEnv 1) quietEnv trio 2 false = .ok { trio with Tasks := Tasks } ∧
      (finishedEvents (mkTask 2 0 1 (4 / 5) 5 (some 7) (some 8))).length =
        (if (finishedCallback (mkTask 2 0 1 (4 / 5) 5 (some 7) (some 8))).isSome then 1 else 0) ∧
      FindTaskIndexById Tasks 2 = none ∧
      Tasks.length + 1 = trio.Tasks.length ∧
      Tasks.Perm ([mkTask 1 0 1 0 1 (some 5) (some 6)] ++
        [mkTask 3 1 2 (1 / 2) 9 (some 9) (some 10)]) :=
  stop_removes_exactly (runner quietEnv 1) quietEnv trio [mkTask 1 0 1 0 1 (some 5) (some 6)]
    [mkTask 3 1 2 (1 / 2) 9 (some 9) (some 10)] (mkTask 2 0 1 (4 / 5) 5 (some 7) (some 8))
    rfl trio_DistinctIds (fun _ _ _ s1 _ => runner_nil quietEnv 0 s1)

/-- C8 (the code departs from it): `StopTimeline` looks the handle up before it runs the finished
callback and removes at that index after it.  When the finished callback of task 1 itself calls
`StopTimeline(1)`, the nested call removes task 1 and the outer call then removes whatever sits
at the stale index: with tasks 1 and 2 registered, `StopTimeline(1, true)` leaves the registry
empty, task 2 gone with it; with task 1 alone the outer removal is out of bounds.  Two calls one
after the other remove task 1 only. -/
theorem stop_reentrant_removes_bystander :
    reentrantPair = (PlayTimeline (PlayTimeline Sys.init (some 0) 1 false none (some 1) 0 false
      false).2 (some 0) 1 false none none 0 false false).2 ∧
    reentrantSingle = (PlayTimeline Sys.init (some 0) 1 false none (some 1) 0 false false).2 ∧
    sampleEnv.onFinished 1 = [Action.stop 1 false] ∧
    DistinctIds reentrantPair.Tasks ∧
    (∀ n : Nat, StopTimeline (runner sampleEnv (n + 1)) sampleEnv reentrantPair 1 true =
      .ok ⟨[], 3, [Event.finished 1 true 1], 2⟩) ∧
    (∀ n : Nat, StopTimeline (runner sampleEnv (n + 1)) sampleEnv reentrantSingle 1 true =
      .error .outOfBounds) ∧
    (∀ n : Nat, (StopTimeline (runner sampleEnv n) sampleEnv reentrantPair 1 false).bind
        (fun s => StopTimeline (runner sampleEnv n) sampleEnv s 1 false) =
      .ok ⟨[mkTask 2 0 1 0 1 none none], 3, [], 2⟩) := by
  refine ⟨by rfl, by rfl, rfl, by simp [DistinctIds, reentrantPair, mkTask], ?_, ?_, ?_⟩
  · intro n; with_unfolding_all rfl
  · intro n; with_unfolding_all rfl
  · intro n; with_unfolding_all rfl

/-- C9 (the code departs from it): `PlayTimeline` drops `bUseRatio` and `Tick` never reads the
ratio flag.  After `Play(curve 1, duration 4, start 1, bUseRatio)`, `Tick 1` passes the curve's
value at 2, here 20, to the update callback, not `2 / 4`; the same happens for a task whose ratio
flag is set. -/
theorem ratio_flag_ignored :
    ratioPlayed = (PlayTimeline Sys.init (some 1) 4 false (some 5) none 1 false true).2 ∧
    (mkTask 1 1 4 1 1 (some 5) none).IsRatio = false ∧
    (∀ fuel : Nat, Tick fuel quietEnv 1 ratioPlayed =
      .ok ⟨[mkTask 1 1 4 2 1 (some 5) none], 2, [Event.update 1 true 5 20], 1⟩) ∧
    ((mkTask 1 1 4 1 1 (some 5) none).SetRatio true).IsRatio = true ∧
    (∀ fuel : Nat, Tick fuel quietEnv 1
        { ratioPlayed with Tasks := [(mkTask 1 1 4 1 1 (some 5) none).SetRatio true] } =
      .ok ⟨[mkTask 1 1 4 2 33 (some 5) none], 2, [Event.update 1 true 5 20], 1⟩) ∧
    (2 : ℚ) / 4 ≠ 20 := by
  refine ⟨by rfl, by decide, ?_, by decide, ?_, by norm_num⟩
  · intro fuel; cases fuel <;> with_unfolding_all rfl
  · intro fuel; cases fuel <;> with_unfolding_all rfl

/-- C10: (1) a task with a curve and a duration `≤ 0` is advanced, with enough fuel, to a task
whose stored duration is `max - min` of the curve's range when that is positive and `1`
otherwise; (2) in a registry with distinct ids whose visited tasks have curves and quiet
callbacks, `Tick` returns and the task, if still in the registry, holds that duration; (3) a task
whose duration is positive keeps it when advanced, whatever the environment; (4) from a reachable
state, after any further calls (ticks included, with any curves and callbacks, before the id
counter wraps) a task with the id of a task `t` of positive duration has the duration of `t`;
(5) after `Play(curve 1 with range (0, 2), duration 0, start 0)`, `Tick 2.5` resolves the
duration to 2, reports the curve's value at 2, invokes finished and leaves the registry
empty. -/
theorem duration_resolved_once :
    (∀ (env : Env) (dt : ℚ) (t : FSharedTimelineTask) (c : Nat), t.Curve = some c →
      t.Duration ≤ 0 → ∃ (N : Nat) (a : Advanced),
        (∀ fuel, N ≤ fuel → advanceTask fuel env dt t = .ok a) ∧
        a.Task.Duration = rangeDuration env c) ∧
    (∀ (env : Env) (dt : ℚ) (s : Sys) (t : FSharedTimelineTask) (c : Nat),
      DistinctIds s.Tasks → (∀ u ∈ s.Tasks, Calm env u) → t ∈ s.Tasks → t.IsActive = true →
      t.IsPaused = false → t.Curve = some c → t.Duration ≤ 0 →
      ∃ (N : Nat) (s1 : Sys), (∀ fuel, N ≤ fuel → Tick fuel env dt s = .ok s1) ∧
        ∀ u ∈ s1.Tasks, u.Id = t.Id → u.Duration = rangeDuration env c) ∧
    (∀ (env : Env) (fuel : Nat) (dt : ℚ) (t : FSharedTimelineTask) (a : Advanced),
      0 < t.Duration → advanceTask fuel env dt t = .ok a → a.Task.Duration = t.Duration) ∧
    (∀ (s s1 : Sys) (t u : FSharedTimelineTask), Reachable s → Steps s s1 →
      s1.Created < idLimit → t ∈ s.Tasks → 0 < t.Duration → u ∈ s1.Tasks → u.Id = t.Id →
      u.Duration = t.Duration) ∧
    (unresolvedPlayed = (PlayTimeline Sys.init (some 1) 0 false (some 5) (some 6) 0 false
        false).2 ∧
      quietEnv.timeRange 1 = (0, 2) ∧
      (∀ fuel, advanceTask fuel quietEnv (5 / 2) (mkTask 1 1 0 0 1 (some 5) (some 6)) =
        .ok ⟨mkTask 1 1 2 2 0 (some 5) (some 6), quietEnv.floatValue 1 2, true⟩) ∧
      ∀ fuel, Tick fuel quietEnv (5 / 2) unresolvedPlayed =
        .ok ⟨[], 2, [Event.update 1 true 5 (quietEnv.floatValue 1 2), Event.finished 1 true 6],
          1⟩) := by
  refine ⟨?_, ?_, ?_, ?_, by rfl, rfl, ?_, ?_⟩
  · intro env dt t c hc hd
    obtain ⟨N, a, ha⟩ := advanceTask_stable env dt t c hc
    refine ⟨N, a, ha, ?_⟩
    have h1 := advanceTask_Duration (ha N (le_refl _))
    rw [resolveDuration_unresolved env t c hc hd] at h1
    injection h1 with h1
    exact h1.symm
  · intro env dt s t c hdist hq ht hact hp hc hd
    obtain ⟨M, r, hv⟩ := visit_stable env dt t (hq t ht)
    obtain ⟨r1, ev⟩ := r
    obtain ⟨N, s1, hT, -, -, -, -, hmem, -⟩ := Tick_task_outcome env dt s t hdist hq ht M r1 ev hv
    refine ⟨N, s1, hT, fun u hu hid => ?_⟩
    have hr := hmem u hu hid
    subst hr
    obtain ⟨a, ha, rfl⟩ := visit_some (hv M (le_refl _)) hact hp
    have h1 := advanceTask_Duration ha
    rw [resolveDuration_unresolved env t c hc hd] at h1
    injection h1 with h1
    exact h1.symm
  · intro env fuel dt t a hpos ha
    exact (Stable_advanceTask ha).2.2.2.2.2.2.2.2.2.2 hpos
  · intro s s1 t u hr hs hlim ht hpos hu hid
    exact (Stable_of_Steps (Reachable_IdsFresh s hr) hs hlim ht hu hid).2.2.2.2.2.2.2.2.2.2 hpos
  · intro fuel; cases fuel <;> with_unfolding_all rfl
  · intro fuel; cases fuel <;> with_unfolding_all rfl

/-- Witness of C10: parts (1) and (2) at a looping task with duration 0 on curve 1, part (3) at
a task of duration 1 advanced by 1/2, part (4) at the registry after one play followed by
`Tick (1/2)`. -/
theorem duration_resolved_once_witness :
    (∃ (N : Nat) (a : Advanced),
      (∀ fuel, N ≤ fuel → advanceTask fuel quietEnv 3 (mkTask 1 1 0 0 5 none none) = .ok a) ∧
      a.Task.Duration = rangeDuration quietEnv 1) ∧
    (∃ (N : Nat) (s1 : Sys),
      (∀ fuel, N ≤ fuel → Tick fuel quietEnv 3 ⟨[mkTask 1 1 0 0 5 none none], 2, [], 1⟩ = .ok s1) ∧
      ∀ u ∈ s1.Tasks, u.Id = (mkTask 1 1 0 0 5 none none).Id →
        u.Duration = rangeDuration quietEnv 1) ∧
    (⟨mkTask 1 0 1 (1 / 2) 1 none none, 1 / 2, false⟩ : Advanced).Task.Duration =
      (mkTask 1 0 1 0 1 none none).Duration ∧
    (mkTask 1 0 1 (1 / 2) 1 none none).Duration = (mkTask 1 0 1 0 1 none none).Duration :=
  ⟨duration_resolved_once.1 quietEnv 3 (mkTask 1 1 0 0 5 none none) 1 rfl (le_refl _),
   duration_resolved_once.2.1 quietEnv 3 ⟨[mkTask 1 1 0 0 5 none none], 2, [], 1⟩
     (mkTask 1 1 0 0 5 none none) 1 (by simp [DistinctIds]) unresolvedLoop_Calm (by simp)
     (by decide) (by decide) rfl (le_refl _),
   duration_resolved_once.2.2.1 quietEnv 0 (1 / 2) (mkTask 1 0 1 0 1 none none)
     ⟨mkTask 1 0 1 (1 / 2) 1 none none, 1 / 2, false⟩ (by norm_num [mkTask])
     (by with_unfolding_all rfl),
   duration_resolved_once.2.2.2.1 playedOnce _ (mkTask 1 0 1 0 1 none none)
     (mkTask 1 0 1 (1 / 2) 1 none none) Reachable_playedOnce
     (Steps.step _ _ _ 0 quietEnv _ (Steps.refl _) playedOnce_tick) (by decide)
     (by simp [playedOnce]) (by norm_num [mkTask]) (by simp) rfl⟩

/-- C11 (amended): over exact arithmetic the wrapping loops compute the modulo with sign
correction.
(1) For a positive duration `D` and any time `e`, the subtracting loop followed by the adding
loop terminates (with enough fuel) and returns `e - D * floor (e / D)`.  (2) For a looping task
with a curve, `D` its lazily resolved duration (which is positive) and any delta time, the tick
leaves the elapsed time `t - D * floor (t / D)` where `t` is `elapsed + deltaTime`
(`elapsed - deltaTime` when reversed), and does not mark the task finished.  (3) In a registry
with distinct ids whose visited tasks have curves and callbacks that make no call, `Tick` returns
and the task, active and not paused, is in the registry with that elapsed time, no finished
callback of it having been invoked.  (4) After `Play(curve 0, duration 1, loop, start 4/5)`,
`Tick (1/2)` gives the elapsed time `3/10` and a second `Tick (1/2)` gives `4/5`, the values of
the closed form, and the invocations are the two updates. -/
theorem looping_wrap_closed_form :
    (∀ (D e : ℚ), 0 < D → ∃ N : Nat, ∀ fuel, N ≤ fuel →
      ∃ e1, wrapDown D fuel e = some e1 ∧ wrapUp D fuel e1 = some (floorModulo e D)) ∧
    (∀ (env : Env) (dt : ℚ) (t : FSharedTimelineTask) (c : Nat) (D : ℚ),
      t.IsLooping = true → t.Curve = some c → resolveDuration env t = .ok D →
      0 < D ∧ ∃ N : Nat, ∀ fuel, N ≤ fuel → ∃ a, advanceTask fuel env dt t = .ok a ∧
        a.Task.Elapsed = floorModulo (steppedElapsed dt t) D ∧ a.bJustFinished = false) ∧
    (∀ (env : Env) (dt : ℚ) (s : Sys) (t : FSharedTimelineTask) (D : ℚ),
      DistinctIds s.Tasks → (∀ u ∈ s.Tasks, Calm env u) → t ∈ s.Tasks → t.IsActive = true →
      t.IsPaused = false → t.IsLooping = true → resolveDuration env t = .ok D →
      ∃ (N : Nat) (s1 : Sys), (∀ fuel, N ≤ fuel → Tick fuel env dt s = .ok s1) ∧
        (∃ u ∈ s1.Tasks, u.Id = t.Id ∧ u.Elapsed = floorModulo (steppedElapsed dt t) D) ∧
        ∀ e ∈ newEventsOf t.Id s s1, e.isFinished = false) ∧
    (loopingPlayed = (PlayTimeline Sys.init (some 0) 1 true (some 5) (some 6) (4 / 5) false
        false).2 ∧
      (∀ n : Nat, Tick (n + 2) quietEnv (1 / 2) loopingPlayed =
        .ok ⟨[mkTask 1 0 1 (3 / 10) 5 (some 5) (some 6)], 2, [Event.update 1 true 5 (3 / 10)],
          1⟩) ∧
      (∀ n : Nat, Ticks (n + 2) quietEnv [1 / 2, 1 / 2] loopingPlayed =
        .ok ⟨[mkTask 1 0 1 (4 / 5) 5 (some 5) (some 6)], 2,
          [Event.update 1 true 5 (3 / 10), Event.update 1 true 5 (4 / 5)], 1⟩) ∧
      floorModulo (4 / 5 + 1 / 2) 1 = 3 / 10 ∧ floorModulo (3 / 10 + 1 / 2) 1 = 4 / 5) := by
  refine ⟨fun D e hD => wrap_floorModulo D hD e, ?_, ?_, by rfl, loopingPlayed_tick,
    loopingPlayed_ticks, floorModulo_sample.1, floorModulo_sample.2⟩
  · intro env dt t c D hl hc hD
    obtain ⟨N, h⟩ := advanceTask_floorModulo env dt t c D hl hc hD
    exact ⟨resolveDuration_pos hD, N, fun fuel hf => ⟨_, h fuel hf, rfl, rfl⟩⟩
  · intro env dt s t D hd hq ht hact hp hl hD
    obtain ⟨N, s1, u, hT, -, hev, -, -, hu, hid, -, -, -, hpos, h0, h1, ⟨k, hk⟩, hD1⟩ :=
      looping_tick env dt s t hd hq ht hact hp hl
    rw [hD] at hD1
    injection hD1 with hD1
    subst hD1
    exact ⟨N, s1, hT, ⟨u, hu, hid, floorModulo_unique _ _ _ k hpos h0 h1 hk⟩, hev⟩

/-- Witness of C11: the loops at duration 1 and time 13/10; the looping task 2 of `trio`
(elapsed 4/5, duration 1) advanced by 1/2, alone and inside `trio`. -/
theorem looping_wrap_closed_form_witness :
    (∃ N : Nat, ∀ fuel, N ≤ fuel →
      ∃ e1, wrapDown 1 fuel (13 / 10) = some e1 ∧
        wrapUp 1 fuel e1 = some (floorModulo (13 / 10) 1)) ∧
    ((0 : ℚ) < 1 ∧ ∃ N : Nat, ∀ fuel, N ≤ fuel →
      ∃ a, advanceTask fuel quietEnv (1 / 2) (mkTask 2 0 1 (4 / 5) 5 (some 7) (some 8)) = .ok a ∧
        a.Task.Elapsed =
          floorModulo (steppedElapsed (1 / 2) (mkTask 2 0 1 (4 / 5) 5 (some 7) (some 8))) 1 ∧
        a.bJustFinished = false) ∧
    (∃ (N : Nat) (s1 : Sys), (∀ fuel, N ≤ fuel → Tick fuel quietEnv (1 / 2) trio = .ok s1) ∧
      (∃ u ∈ s1.Tasks, u.Id = (mkTask 2 0 1 (4 / 5) 5 (some 7) (some 8)).Id ∧ u.Elapsed =
        floorModulo (steppedElapsed (1 / 2) (mkTask 2 0 1 (4 / 5) 5 (some 7) (some 8))) 1) ∧
      ∀ e ∈ newEventsOf (mkTask 2 0 1 (4 / 5) 5 (some 7) (some 8)).Id trio s1,
        e.isFinished = false) :=
  ⟨looping_wrap_closed_form.1 1 (13 / 10) (by norm_num),
   looping_wrap_closed_form.2.1 quietEnv (1 / 2) (mkTask 2 0 1 (4 / 5) 5 (some 7) (some 8)) 0 1
     (by decide) rfl (by with_unfolding_all rfl),
   looping_wrap_closed_form.2.2.1 quietEnv (1 / 2) trio (mkTask 2 0 1 (4 / 5) 5 (some 7) (some 8))
     1 trio_DistinctIds trio_Calm (by simp [trio]) (by decide) (by decide) (by decide)
     (by with_unfolding_all rfl)⟩

/-- C11 as stated fails.  In the registry reached by `Play(curve 0, duration 1, loop, start 4/5)`
and `Play(curve 0, duration 10, update callback 1)` the looping task 1 is active and not paused
and its resolved duration is 1; the closed form of `4/5 + 1/2` is `3/10`.  `Tick (1/2)` visits
task 2 first, whose update callback pauses task 1; task 1 is then skipped, and when `Tick`
returns its elapsed time is still `4/5`. -/
theorem looping_wrap_counterexample :
    pausingLooper = (PlayTimeline (PlayTimeline Sys.init (some 0) 1 true none none (4 / 5) false
      false).2 (some 0) 10 false (some 1) none 0 false false).2 ∧
    mkTask 1 0 1 (4 / 5) 5 none none ∈ pausingLooper.Tasks ∧
    (mkTask 1 0 1 (4 / 5) 5 none none).IsLooping = true ∧
    (mkTask 1 0 1 (4 / 5) 5 none none).IsActive = true ∧
    (mkTask 1 0 1 (4 / 5) 5 none none).IsPaused = false ∧
    resolveDuration sampleEnv (mkTask 1 0 1 (4 / 5) 5 none none) = .ok 1 ∧
    floorModulo (steppedElapsed (1 / 2) (mkTask 1 0 1 (4 / 5) 5 none none)) 1 = 3 / 10 ∧
    (∀ n : Nat, Tick (n + 1) sampleEnv (1 / 2) pausingLooper =
      .ok ⟨[mkTask 1 0 1 (4 / 5) 7 none none, mkTask 2 0 10 (1 / 2) 1 (some 1) none], 3,
        [Event.update 2 true 1 (1 / 2)], 2⟩) ∧
    ¬ ∃ (N : Nat) (s1 : Sys),
      (∀ fuel, N ≤ fuel → Tick fuel sampleEnv (1 / 2) pausingLooper = .ok s1) ∧
      ∃ u ∈ s1.Tasks, u.Id = (mkTask 1 0 1 (4 / 5) 5 none none).Id ∧ u.Elapsed =
        floorModulo (steppedElapsed (1 / 2) (mkTask 1 0 1 (4 / 5) 5 none none)) 1 := by
  have hm : floorModulo (steppedElapsed (1 / 2) (mkTask 1 0 1 (4 / 5) 5 none none)) 1 =
      3 / 10 := by
    have hs : steppedElapsed (1 / 2) (mkTask 1 0 1 (4 / 5) 5 none none) = 4 / 5 + 1 / 2 := by
      with_unfolding_all rfl
    rw [hs]
    exact floorModulo_sample.1
  refine ⟨rfl, by simp [pausingLooper], by decide, by decide, by decide,
    by with_unfolding_all rfl, hm, pausingLooper_Tick, ?_⟩
  rintro ⟨N, s1, hT, u, hu, hid, he⟩
  have h := hT (N + 1) (Nat.le_succ N)
  rw [pausingLooper_Tick N] at h
  cases h
  rw [hm] at he
  simp only [List.mem_cons, List.mem_singleton, List.not_mem_nil, or_false] at hu
  rcases hu with rfl | rfl
  · norm_num [mkTask] at he
  · norm_num [mkTask] at hid

/-- C12 (the code departs from it): the loop body of `Tick` keeps using slot `i` after the
update callback has run.  With task 1 about to finish, its update callback stopping task 1, and
task 2 paused, `Tick` skips task 2, then visits task 1: the callback removes task 1, which moves
task 2 into slot 0, and `Tick` goes on to invoke the finished callback found in slot 0, that of
the paused task 2, and to remove slot 0.  The paused task is gone and its finished callback has
run, although no callback named it. -/
theorem paused_bystander_removed :
    pausedBystander = PauseTimeline (PlayTimeline (PlayTimeline Sys.init (some 0) 1 false (some 2)
      none 0 false false).2 (some 0) 1 false (some 7) (some 8) 0 false false).2 2 ∧
    DistinctIds pausedBystander.Tasks ∧
    mkTask 2 0 1 0 3 (some 7) (some 8) ∈ pausedBystander.Tasks ∧
    (mkTask 2 0 1 0 3 (some 7) (some 8)).IsPaused = true ∧
    (∀ v, sampleEnv.onUpdate 2 v = [Action.stop 1 false]) ∧
    sampleEnv.onUpdate 7 = (fun _ => []) ∧ sampleEnv.onFinished 8 = [] ∧
    (∀ n : Nat, Tick (n + 1) sampleEnv 2 pausedBystander =
      .ok ⟨[], 3, [Event.update 1 true 2 1, Event.finished 2 true 8], 2⟩) := by
  refine ⟨by with_unfolding_all rfl, by simp [DistinctIds, pausedBystander, mkTask],
    by simp [pausedBystander], by decide, fun _ => rfl, rfl, rfl, pausedBystander_Tick⟩

/-- C13 (the code departs from it): `RemoveAtSwap` moves the last task, which the backward loop
has already visited, into the freed slot, which the loop has yet to reach.  With tasks 1 and 2
registered and the update callback of task 2 stopping task 1, `Tick 1` visits task 2, the
callback removes task 1 and moves task 2 into slot 0, and the loop visits task 2 again: its
elapsed time is advanced twice (to 2) and its update callback runs twice.  With `Tick 10`, which
finishes task 2, the loop body reads slot 1 after the callback has shortened the array to one
element: an access outside the collection. -/
theorem stop_other_visits_twice :
    stopsOther = (PlayTimeline (PlayTimeline Sys.init (some 0) 10 false (some 5) none 0 false
      false).2 (some 0) 10 false (some 2) none 0 false false).2 ∧
    DistinctIds stopsOther.Tasks ∧
    (∀ v, sampleEnv.onUpdate 2 v = [Action.stop 1 false]) ∧
    (∀ n : Nat, Tick (n + 1) sampleEnv 1 stopsOther =
      .ok ⟨[mkTask 2 0 10 2 1 (some 2) none], 3,
        [Event.update 2 true 2 1, Event.update 2 true 2 2], 2⟩) ∧
    (∀ n : Nat, Tick (n + 1) sampleEnv 10 stopsOther = .error .outOfBounds) := by
  exact ⟨by rfl, by simp [DistinctIds, stopsOther, mkTask], fun _ => rfl, stopsOther_Tick,
    stopsOther_Tick_finishing⟩

/-- C14 (the code departs from it): `Tick` removes the finished task by index, not by handle.
With task 1 finishing on this tick and its update callback stopping task 1, the callback removes
task 1 and moves task 2 into slot 0; `Tick` then invokes the finished callback found in slot 0,
that of task 2, and removes slot 0: task 2, neither finished nor stopped, is removed, and the
finished callback of task 1 never runs.  With task 1 alone the accesses after the callback are
outside the collection.  When the finished callback of task 1 stops task 1, `Tick` likewise
removes task 2 after it. -/
theorem self_stop_removes_bystander :
    stopsItself = (PlayTimeline (PlayTimeline Sys.init (some 0) 1 false (some 2) (some 6) 0 false
      false).2 (some 0) 10 false (some 7) (some 8) 0 false false).2 ∧
    stopsItselfAlone = (PlayTimeline Sys.init (some 0) 1 false (some 2) (some 6) 0 false
      false).2 ∧
    stopsItselfWhenFinished = (PlayTimeline (PlayTimeline Sys.init (some 0) 1 false none (some 1)
      0 false false).2 (some 0) 10 false (some 7) (some 8) 0 false false).2 ∧
    DistinctIds stopsItself.Tasks ∧ DistinctIds stopsItselfWhenFinished.Tasks ∧
    (∀ v, sampleEnv.onUpdate 2 v = [Action.stop 1 false]) ∧
    sampleEnv.onFinished 1 = [Action.stop 1 false] ∧
    (∀ n : Nat, Tick (n + 1) sampleEnv 2 stopsItself =
      .ok ⟨[], 3, [Event.update 2 true 7 2, Event.update 1 true 2 1, Event.finished 2 true 8],
        2⟩) ∧
    (∀ n : Nat, Tick (n + 1) sampleEnv 2 stopsItselfAlone = .error .outOfBounds) ∧
    (∀ n : Nat, Tick (n + 1) sampleEnv 2 stopsItselfWhenFinished =
      .ok ⟨[], 3, [Event.update 2 true 7 2, Event.finished 1 true 1], 2⟩) := by
  refine ⟨by rfl, by rfl, by rfl, by simp [DistinctIds, stopsItself, mkTask],
    by simp [DistinctIds, stopsItselfWhenFinished, mkTask], fun _ => rfl, rfl, stopsItself_Tick,
    stopsItselfAlone_Tick, stopsItselfWhenFinished_Tick⟩

/-- C15 (the code departs from it): a task created by a callback is appended behind the slot
being visited, but `RemoveAtSwap` moves the last task into the slot of a removed one, and that
slot may still be ahead of the backward loop.  In the registry of tasks 1 and 2 where the update
callback of task 2 plays a task (start time 1/4, update callback 31) and then stops task 1,
`Tick 1` visits task 2, whose callback creates task 3 at the end of the array and removes task 1
from slot 0, which moves task 3 into slot 0; the loop then visits slot 0: when `Tick` returns,
task 3 has the elapsed time `5/4`, not its start time, and its update callback has been
invoked. -/
theorem created_task_visited_same_pass :
    playsAndStops = (PlayTimeline (PlayTimeline Sys.init (some 0) 10 false none none 0 false
      false).2 (some 0) 10 false (some 30) none 0 false false).2 ∧
    (∀ v, mixedEnv.onUpdate 30 v =
      [.play (some 0) 10 false (some 31) none (1 / 4) false false, .stop 1 false]) ∧
    (∀ n v, mixedEnv.onUpdate n v ≠ [] → n = 30) ∧ (∀ n, mixedEnv.onFinished n = []) ∧
    (∀ n : Nat, runner mixedEnv (n + 1) (mixedEnv.onUpdate 30 1)
        ⟨[mkTask 1 0 10 0 1 none none, mkTask 2 0 10 1 1 (some 30) none], 3,
          [Event.update 2 true 30 1], 2⟩ =
      .ok ⟨[mkTask 3 0 10 (1 / 4) 1 (some 31) none, mkTask 2 0 10 1 1 (some 30) none], 4,
        [Event.update 2 true 30 1], 3⟩) ∧
    (∀ n : Nat, Tick (n + 1) mixedEnv 1 playsAndStops =
      .ok ⟨[mkTask 3 0 10 (5 / 4) 1 (some 31) none, mkTask 2 0 10 1 1 (some 30) none], 4,
        [Event.update 2 true 30 1, Event.update 3 true 31 (5 / 4)], 3⟩) ∧
    (mkTask 3 0 10 (5 / 4) 1 (some 31) none).Elapsed ≠ 1 / 4 := by
  refine ⟨rfl, fun _ => rfl, ?_, fun _ => rfl, fun n => by with_unfolding_all rfl,
    playsAndStops_Tick, by norm_num [mkTask]⟩
  intro n v h
  by_contra hn
  exact h (by simp [mixedEnv, hn])

/-- C17: in every state reached from the fresh subsystem by calls of `PlayTimeline`,
`PlayTimeline_BP`, `ReverseTimeline`, `PauseTimeline`, `ResumeTimeline`, `StopTimeline` and
`Tick` that return, the callbacks of the registered tasks making no call into the subsystem,
every task in the registry has its active flag set; a `Tick` from such a state leaves only
active tasks, so a task whose active flag it cleared has been removed when it returns; and
`IsTimelineActive` of a handle is true exactly when the handle is found and the task found is
not paused. -/
theorem registered_tasks_active (s : Sys) (hr : QuietSteps Sys.init s) :
    (∀ t ∈ s.Tasks, t.IsActive = true) ∧
    (∀ (fuel : Nat) (env : Env) (dt : ℚ) (s1 : Sys), (∀ t ∈ s.Tasks, Quiet env t) →
      Tick fuel env dt s = .ok s1 → ∀ t ∈ s1.Tasks, t.IsActive = true) ∧
    ∀ h : Int, IsTimelineActive s h = true ↔
      ∃ i t, FindTaskIndexById s.Tasks h = some i ∧ s.Tasks[i]? = some t ∧
        t.IsPaused = false := by
  have hI : ActiveWithCurve s := ActiveWithCurve_QuietSteps hr (fun t ht => by simp [Sys.init] at ht)
  refine ⟨fun t ht => (hI t ht).1, ?_, ?_⟩
  · intro fuel env dt s1 hq hT t ht
    exact (ActiveWithCurve_Tick env fuel dt s s1 hq hI hT t ht).1
  · intro h
    unfold IsTimelineActive
    constructor
    · intro hact
      split at hact
      · rename_i i hi
        split at hact
        · rename_i t ht
          refine ⟨i, t, hi, ht, ?_⟩
          cases hp : t.IsPaused
          · rfl
          · simp [hp] at hact
        · cases hact
      · cases hact
    · rintro ⟨i, t, hi, ht, hp⟩
      simp [hi, ht, hp, (hI t (List.getElem?_mem ht)).1]

/-- Witness of C17: the state after `Play(curve 0, duration 1)` and `Tick (1/2)`. -/
theorem registered_tasks_active_witness :
    (∀ t ∈ [mkTask 1 0 1 (1 / 2) 1 none none], t.IsActive = true) ∧
    IsTimelineActive ⟨[mkTask 1 0 1 (1 / 2) 1 none none], 2, [], 1⟩ 1 = true :=
  have h := registered_tasks_active ⟨[mkTask 1 0 1 (1 / 2) 1 none none], 2, [], 1⟩
    QuietSteps_sample
  ⟨h.1, (h.2.2 1).mpr ⟨0, mkTask 1 0 1 (1 / 2) 1 none none, rfl, rfl, by decide⟩⟩

/-- C19: (1) for every registry state and every handle that `FindTaskIndexById` finds, in slot
`i`, `ReverseTimeline` replaces the task `t` of that slot by `t.SetReverse true` and leaves every
other slot, the id counter and the log (no callback is invoked) as they are; the new task has
the reversed flag set, every other bit of the flag word and every other field as in `t`.
(2) `ReverseTimeline` is idempotent: a second call on the same handle leaves the state of the
first, so it does not restore forward playback.  (3) From a reachable state, after any sequence
of calls (ticks and callbacks included, before the id counter wraps), a task that carries the id
of a reversed task of the state is reversed. -/
theorem reverse_sets_flag_only :
    (∀ (s : Sys) (h : Int) (i : Nat), FindTaskIndexById s.Tasks h = some i →
      ∃ t : FSharedTimelineTask, s.Tasks[i]? = some t ∧ t.Id = h ∧
        ReverseTimeline s h = { s with Tasks := s.Tasks.set i (t.SetReverse true) } ∧
        (t.SetReverse true).IsReversing = true ∧
        (∀ j : Nat, j ≠ 3 →
          hasFlag (1 <<< j) (t.SetReverse true).Flags = hasFlag (1 <<< j) t.Flags) ∧
        t.SetReverse true = { t with Flags := (t.SetReverse true).Flags }) ∧
    (∀ (s : Sys) (h : Int), ReverseTimeline (ReverseTimeline s h) h = ReverseTimeline s h) ∧
    (∀ (s s1 : Sys) (t u : FSharedTimelineTask), Reachable s → Steps s s1 →
      s1.Created < idLimit → t ∈ s.Tasks → t.IsReversing = true → u ∈ s1.Tasks →
      u.Id = t.Id → u.IsReversing = true) := by
  refine ⟨?_, ReverseTimeline_idem, ?_⟩
  · intro s h i hf
    obtain ⟨pre, t, post, h1, h2, h3, -⟩ := FindTaskIndexById_eq_some hf
    have hget : s.Tasks[i]? = some t := by
      rw [h1, ← h2]; exact getElem?_append_cons pre t post
    refine ⟨t, hget, h3, ?_, by simp, ?_, rfl⟩
    · simp [ReverseTimeline, hf, modifyAt, hget]
    · intro j hj
      exact (hasFlag_setFlag j 3 (by decide) true t.Flags).trans (if_neg hj)
  · intro s s1 t u hr hs hlim ht hrev hu hid
    exact (Stable_of_Steps (Reachable_IdsFresh s hr) hs hlim ht hu hid).2.2.2.2.2.2.2.2.2.1 hrev

/-- Witness of C19: `Reverse(1)` on `trio`, once and twice, and the registry after one play,
`Reverse(1)` and `Tick (1/4)`. -/
theorem reverse_sets_flag_only_witness :
    (∃ t : FSharedTimelineTask, trio.Tasks[0]? = some t ∧ t.Id = 1 ∧
      ReverseTimeline trio 1 = { trio with Tasks := trio.Tasks.set 0 (t.SetReverse true) } ∧
      (t.SetReverse true).IsReversing = true ∧
      (∀ j : Nat, j ≠ 3 →
        hasFlag (1 <<< j) (t.SetReverse true).Flags = hasFlag (1 <<< j) t.Flags) ∧
      t.SetReverse true = { t with Flags := (t.SetReverse true).Flags }) ∧
    ReverseTimeline (ReverseTimeline trio 1) 1 = ReverseTimeline trio 1 ∧
    (mkTask 1 0 1 (1 / 4) 9 none none).IsReversing = true :=
  ⟨reverse_sets_flag_only.1 trio 1 0 rfl, reverse_sets_flag_only.2.1 trio 1,
   reverse_sets_flag_only.2.2
     ⟨[mkTask 1 0 1 (1 / 2) 9 none none], 2, [], 1⟩
     ⟨[mkTask 1 0 1 (1 / 4) 9 none none], 2, [], 1⟩
     (mkTask 1 0 1 (1 / 2) 9 none none) (mkTask 1 0 1 (1 / 4) 9 none none)
     (Steps.step _ _ _ 0 quietEnv (.act (.reverse 1))
       (Steps.step _ _ _ 0 quietEnv (.tick (1 / 2)) Reachable_playedOnce playedOnce_tick)
       (by with_unfolding_all rfl))
     (Steps.step _ _ _ 0 quietEnv (.tick (1 / 4)) (Steps.refl _) (by with_unfolding_all rfl))
     (by decide) (by simp) (by decide) (by simp) rfl⟩

/-- C20: in every state reached from the fresh subsystem by any sequence of calls that return
(`PlayTimeline`, `PlayTimeline_BP`, `ReverseTimeline`, `PauseTimeline`, `ResumeTimeline`,
`StopTimeline` and `Tick`, with any curves and callbacks), every task in the registry has a
curve; from such a state no call fails by dereferencing a missing curve (`GetTimeRange` and
`GetFloatValue` are called on a present curve), whatever the fuel, and in `Tick` the assertion on
`Task.Curve` passes at every iteration of the loop.  For comparison, with a task without curve
in the registry, a state that is not reachable, the assertion does not pass. -/
theorem curve_always_present (s : Sys) (hr : Reachable s) :
    (∀ t ∈ s.Tasks, t.Curve ≠ none) ∧
    (∀ (fuel : Nat) (env : Env) (c : Call), call fuel env c s ≠ .error .nullCurve) ∧
    (∀ (fuel : Nat) (env : Env) (dt : ℚ), curveEnsured fuel env dt s.Tasks.length s = true) ∧
    curveEnsured 0 quietEnv 1 1 ⟨[⟨1, none, 1, 0, 17, none, none, none, none⟩], 2, [], 1⟩ =
      false := by
  have hI := Reachable_AllCurves s hr
  refine ⟨hI, ?_, fun fuel env dt => curveEnsured_of_AllCurves fuel env dt _ s hI, by rfl⟩
  intro fuel env c
  cases c with
  | act a => exact perform_no_nullCurve _ env (runner_no_nullCurve env fuel) a s
  | tick dt => exact tickLoop_no_nullCurve fuel env dt _ s hI

/-- Witness of C20: the registry after one play. -/
theorem curve_always_present_witness :
    (∀ t ∈ playedOnce.Tasks, t.Curve ≠ none) ∧
    (∀ (fuel : Nat) (env : Env) (c : Call), call fuel env c playedOnce ≠ .error .nullCurve) ∧
    (∀ (fuel : Nat) (env : Env) (dt : ℚ),
      curveEnsured fuel env dt playedOnce.Tasks.length playedOnce = true) :=
  have h := curve_always_present playedOnce Reachable_playedOnce
  ⟨h.1, h.2.1, h.2.2.1⟩

end SharedTimeline
